import Mathlib

/-!
# npcchub: staking ledger, reward distribution and slashing

A shallow embedding of the keeper code of the staking, distribution and
slashing modules, with theorems about it.

Conventions of the embedding

* A Go function that can panic returns `Option` (`none` is the panic) or, where
  the store is involved, a `Res` with a `panic` constructor.
* A keeper method that returns an `sdk.Error` keeps the writes it made before
  the error: the store after the call is part of the result.
* `int64` arithmetic of the source is done with `wrapInt64`.
* Addresses and denominations are numbers; a time is a number of time units and
  a duration is added to it.
* Logging and coin-flow tags are not part of the state.
-/

namespace Npcchub

/-! ## Machine integers -/

/-- Two's complement wrap of an integer into the range of `int64`. -/
def wrapInt64 (x : Int) : Int := (x + 2 ^ 63) % 2 ^ 64 - 2 ^ 63

/-- An integer that an `int64` can hold. -/
def inInt64 (x : Int) : Prop := -(2 ^ 63) ≤ x ∧ x < 2 ^ 63

instance (x : Int) : Decidable (inInt64 x) := by unfold inInt64; infer_instance

/-! ## Decimals -/

/-- Modelled from the spec: the decimal type `sdk.Dec` (types/decimal.go is not
under src/), an exact integer-backed decimal. `raw` is the value scaled by
`10 ^ Precision`. -/
structure Dec where
  raw : Int
deriving DecidableEq, Repr

namespace Dec

/-- Modelled from the spec: number of decimal places of `sdk.Dec`. -/
def Precision : Nat := 10

/-- Modelled from the spec: the scale `10 ^ Precision`. -/
def precisionReuse : Int := 10 ^ Precision

/-- Modelled from the spec: rounding of a scaled product to the last decimal
place, half to even, sign handled apart. -/
def chopPrecisionAndRound (d : Int) : Int :=
  let a := d.natAbs
  let quo : Int := (a : Int) / precisionReuse
  let rem : Int := (a : Int) % precisionReuse
  let r : Int :=
    if rem = 0 then quo
    else if 2 * rem < precisionReuse then quo
    else if precisionReuse < 2 * rem then quo + 1
    else if quo % 2 = 0 then quo else quo + 1
  if d < 0 then -r else r

def ZeroDec : Dec := ⟨0⟩

def OneDec : Dec := ⟨precisionReuse⟩

/-- The decimal of an integer, `sdk.NewDecFromInt`. -/
def NewDecFromInt (i : Int) : Dec := ⟨i * precisionReuse⟩

/-- The decimal `i / 10 ^ prec`, `sdk.NewDecWithPrec`. -/
def NewDecWithPrec (i : Int) (prec : Nat) : Dec := ⟨i * 10 ^ (Precision - prec)⟩

def Add (d d2 : Dec) : Dec := ⟨d.raw + d2.raw⟩

def Sub (d d2 : Dec) : Dec := ⟨d.raw - d2.raw⟩

def Neg (d : Dec) : Dec := ⟨-d.raw⟩

def Mul (d d2 : Dec) : Dec := ⟨chopPrecisionAndRound (d.raw * d2.raw)⟩

def MulInt (d : Dec) (i : Int) : Dec := ⟨d.raw * i⟩

/-- Quotient of two decimals; division by zero panics. -/
def Quo (d d2 : Dec) : Option Dec :=
  if d2.raw = 0 then none
  else some ⟨chopPrecisionAndRound (Int.tdiv (d.raw * precisionReuse * precisionReuse) d2.raw)⟩

def IsZero (d : Dec) : Bool := decide (d.raw = 0)

def LT (d d2 : Dec) : Bool := decide (d.raw < d2.raw)

def GT (d d2 : Dec) : Bool := decide (d2.raw < d.raw)

/-- The integer part, rounding toward zero. -/
def TruncateInt (d : Dec) : Int := Int.tdiv d.raw precisionReuse

/-- The nearest integer, half to even. -/
def RoundInt (d : Dec) : Int := chopPrecisionAndRound d.raw

end Dec

/-! ## Decimal coins -/

abbrev Denom := Nat

/-- Modelled from the spec: `DecCoin` (dec_coin.go is not under src/), an
amount of one denomination. -/
structure DecCoin where
  Denom : Denom
  Amount : Dec
deriving DecidableEq, Repr

/-- Modelled from the spec: `DecCoins`, coins of several denominations kept in
ascending order of denomination. -/
abbrev DecCoins := List DecCoin

namespace DecCoins

/-- Total amount of one denomination held in the coins. -/
def AmountOf : DecCoins → Denom → Int
  | [], _ => 0
  | c :: cs, d => (if c.Denom = d then c.Amount.raw else 0) + AmountOf cs d

/-- Adds one coin at its place in the order; a sum of zero is dropped. -/
def insertCoin (c : DecCoin) : DecCoins → DecCoins
  | [] => [c]
  | x :: xs =>
    if c.Denom < x.Denom then c :: x :: xs
    else if c.Denom = x.Denom then
      (if (c.Amount.Add x.Amount).IsZero then xs
       else ⟨c.Denom, c.Amount.Add x.Amount⟩ :: xs)
    else x :: insertCoin c xs

/-- Modelled from the spec: denomination-wise sum of two sets of coins. -/
def Plus (coins coinsB : DecCoins) : DecCoins := coins.foldr insertCoin coinsB

def Negative (coins : DecCoins) : DecCoins :=
  coins.map fun c => ⟨c.Denom, c.Amount.Neg⟩

/-- Modelled from the spec: subtraction, the sum with the negated coins. -/
def Minus (coins coinsB : DecCoins) : DecCoins := coins.Plus coinsB.Negative

/-- Modelled from the spec: every amount multiplied by a decimal. -/
def MulDec (coins : DecCoins) (d : Dec) : DecCoins :=
  coins.map fun c => ⟨c.Denom, c.Amount.Mul d⟩

/-- Modelled from the spec: every amount divided by a decimal; the division of
an amount by zero panics, no amount means no division. -/
def QuoDec : DecCoins → Dec → Option DecCoins
  | [], _ => some []
  | c :: cs, d =>
    match c.Amount.Quo d, QuoDec cs d with
    | some q, some qs => some (⟨c.Denom, q⟩ :: qs)
    | _, _ => none

end DecCoins

/-! ## Distribution: accumulation and the fee pool -/

/-- Modelled from the spec: `TotalAccum` (total_accum.go is not under src/), an
accumulation that grows with `(height − lastUpdateHeight) × power`. -/
structure TotalAccum where
  UpdateHeight : Int
  Accum : Dec
deriving DecidableEq, Repr

namespace TotalAccum

/-- Modelled from the spec: the accumulation at a height, without a change of
state. -/
def GetAccum (ta : TotalAccum) (height : Int) (accumCreatedPerBlock : Dec) : Dec :=
  let blocks := wrapInt64 (height - ta.UpdateHeight)
  ta.Accum.Add (accumCreatedPerBlock.MulInt blocks)

/-- Modelled from the spec: the accumulation moved to a new height. -/
def UpdateForNewHeight (ta : TotalAccum) (height : Int) (accumCreatedPerBlock : Dec) :
    TotalAccum :=
  { UpdateHeight := height, Accum := ta.GetAccum height accumCreatedPerBlock }

end TotalAccum

/-- Global fee pool for distribution (fee_pool.go). -/
structure FeePool where
  TotalValAccum : TotalAccum
  ValPool : DecCoins
  CommunityPool : DecCoins
deriving DecidableEq, Repr

namespace FeePool

def UpdateTotalValAccum (f : FeePool) (height : Int) (totalBondedTokens : Dec) : FeePool :=
  { f with TotalValAccum := f.TotalValAccum.UpdateForNewHeight height totalBondedTokens }

def GetTotalValAccum (f : FeePool) (height : Int) (totalBondedTokens : Dec) : Dec :=
  f.TotalValAccum.GetAccum height totalBondedTokens

end FeePool

/-- Common parameters used in withdraws from validators (validator_info.go). -/
structure WithdrawContext where
  FeePool : FeePool
  Height : Int
  TotalPower : Dec
  ValPower : Dec
  CommissionRate : Dec
deriving DecidableEq, Repr

/-- Distribution info for a particular validator (validator_info.go). -/
structure ValidatorDistInfo where
  OperatorAddr : Nat
  FeePoolWithdrawalHeight : Int
  DelAccum : TotalAccum
  DelPool : DecCoins
  ValCommission : DecCoins
deriving DecidableEq, Repr

namespace ValidatorDistInfo

def GetValAccum (vi : ValidatorDistInfo) (height : Int) (valTokens : Dec) : Dec :=
  let blocks := wrapInt64 (height - vi.FeePoolWithdrawalHeight)
  valTokens.MulInt blocks

/-- Move the accumulated fees of the fee pool to the validator's pools;
`none` is the panic of the source. -/
def TakeFeePoolRewards (vi : ValidatorDistInfo) (wc : WithdrawContext) :
    Option (ValidatorDistInfo × FeePool) :=
  let fp := wc.FeePool.UpdateTotalValAccum wc.Height wc.TotalPower
  if fp.TotalValAccum.Accum.IsZero then
    some ({ vi with FeePoolWithdrawalHeight := wc.Height }, fp)
  else
    let accum := vi.GetValAccum wc.Height wc.ValPower
    let vi1 := { vi with FeePoolWithdrawalHeight := wc.Height }
    if accum.GT fp.TotalValAccum.Accum then none
    else
      match (fp.ValPool.MulDec accum).QuoDec fp.TotalValAccum.Accum with
      | none => none
      | some withdrawalTokens =>
        let remValPool := fp.ValPool.Minus withdrawalTokens
        let commission := withdrawalTokens.MulDec wc.CommissionRate
        let afterCommission := withdrawalTokens.Minus commission
        let fp1 : FeePool :=
          { fp with
            TotalValAccum := { fp.TotalValAccum with Accum := fp.TotalValAccum.Accum.Sub accum }
            ValPool := remValPool }
        some ({ vi1 with
                ValCommission := vi1.ValCommission.Plus commission
                DelPool := vi1.DelPool.Plus afterCommission }, fp1)

/-- Withdraw the commission: the settled info with an empty commission, the fee
pool, and the commission withdrawn. -/
def WithdrawCommission (vi : ValidatorDistInfo) (wc : WithdrawContext) :
    Option (ValidatorDistInfo × FeePool × DecCoins) :=
  match vi.TakeFeePoolRewards wc with
  | none => none
  | some (vi1, fp) => some ({ vi1 with ValCommission := [] }, fp, vi1.ValCommission)

/-- The validator's pool rewards at the current state; `none` is a panic. -/
def CurrentPoolRewards (vi : ValidatorDistInfo) (wc : WithdrawContext) : Option DecCoins :=
  let fp := wc.FeePool
  let totalValAccum := fp.GetTotalValAccum wc.Height wc.TotalPower
  let valAccum := vi.GetValAccum wc.Height wc.ValPower
  if valAccum.GT totalValAccum then none
  else
    match (fp.ValPool.MulDec valAccum).QuoDec totalValAccum with
    | none => none
    | some withdrawalTokens =>
      let commission := withdrawalTokens.MulDec wc.CommissionRate
      let afterCommission := withdrawalTokens.Minus commission
      some (vi.DelPool.Plus afterCommission)

/-- The validator's commission rewards at the current state; `none` is a
panic. -/
def CurrentCommissionRewards (vi : ValidatorDistInfo) (wc : WithdrawContext) :
    Option DecCoins :=
  let fp := wc.FeePool
  let totalValAccum := fp.GetTotalValAccum wc.Height wc.TotalPower
  let valAccum := vi.GetValAccum wc.Height wc.ValPower
  if valAccum.GT totalValAccum then none
  else
    match (fp.ValPool.MulDec valAccum).QuoDec totalValAccum with
    | none => none
    | some withdrawalTokens =>
      let commission := withdrawalTokens.MulDec wc.CommissionRate
      some (vi.ValCommission.Plus commission)

end ValidatorDistInfo

/-! ## Staking: the key-value store -/

/-- A map of the key-value store, one per key prefix: the pairs of key and
value it holds, each key once. -/
abbrev KV (κ ν : Type) := List (κ × ν)

namespace KV

variable {κ ν : Type} [DecidableEq κ]

/-- The value stored under a key (`store.Get`). -/
def get : KV κ ν → κ → Option ν
  | [], _ => none
  | (k1, v) :: m, k => if k1 = k then some v else get m k

/-- The map with a value stored under a key (`store.Set`). -/
def set : KV κ ν → κ → ν → KV κ ν
  | [], k, v => [(k, v)]
  | (k1, v1) :: m, k, v => if k1 = k then (k, v) :: m else (k1, v1) :: set m k v

/-- The map without a key (`store.Delete`). -/
def delete : KV κ ν → κ → KV κ ν
  | [], _ => []
  | (k1, v1) :: m, k => if k1 = k then delete m k else (k1, v1) :: delete m k

end KV

/-! ## Staking: records -/

abbrev Address := Nat

abbrev Time := Int

/-- Bond status of a validator, a byte in the source. -/
abbrev BondStatus := Nat

def Unbonded : BondStatus := 0

def Unbonding : BondStatus := 1

def Bonded : BondStatus := 2

/-- Modelled from the spec: `sdk.Coin` (types/coin.go is not under src/), an
integer amount of one denomination. -/
structure Coin where
  Denom : Denom
  Amount : Int
deriving DecidableEq, Repr

def Coin.IsZero (c : Coin) : Bool := decide (c.Amount = 0)

def NewCoin (denom : Denom) (amount : Int) : Coin := ⟨denom, amount⟩

/-- Modelled from the spec: the delegation record (types/delegation.go is not
under src/), with the fields delegation.go reads and writes; so the four
records below. -/
structure Delegation where
  DelegatorAddr : Address
  ValidatorAddr : Address
  Shares : Dec
  Height : Int
deriving DecidableEq, Repr

structure UnbondingDelegation where
  TxHash : String
  DelegatorAddr : Address
  ValidatorAddr : Address
  CreationHeight : Int
  MinTime : Time
  InitialBalance : Coin
  Balance : Coin
deriving DecidableEq, Repr

structure Redelegation where
  DelegatorAddr : Address
  ValidatorSrcAddr : Address
  ValidatorDstAddr : Address
  CreationHeight : Int
  MinTime : Time
  InitialBalance : Coin
  Balance : Coin
  SharesSrc : Dec
  SharesDst : Dec
deriving DecidableEq, Repr

structure DVPair where
  DelegatorAddr : Address
  ValidatorAddr : Address
deriving DecidableEq, Repr

structure DVVTriplet where
  DelegatorAddr : Address
  ValidatorSrcAddr : Address
  ValidatorDstAddr : Address
deriving DecidableEq, Repr

/-- Modelled from the spec: the validator record (types/validator.go is not
under src/), the fields the delegation keeper reads and writes. -/
structure Validator where
  OperatorAddr : Address
  Jailed : Bool
  Status : BondStatus
  Tokens : Dec
  DelegatorShares : Dec
  UnbondingHeight : Int
  UnbondingMinTime : Time
deriving DecidableEq, Repr

/-- Modelled from the spec: the exchange rate tokens / shares of a validator,
one while it has no shares. -/
def Validator.DelegatorShareExRate (v : Validator) : Dec :=
  if v.DelegatorShares.IsZero then Dec.OneDec
  else (v.Tokens.Quo v.DelegatorShares).getD Dec.OneDec

/-- The zero value of an unbonding delegation. -/
def UnbondingDelegation.zero : UnbondingDelegation :=
  ⟨"", 0, 0, 0, 0, ⟨0, 0⟩, ⟨0, 0⟩⟩

/-- The zero value of a redelegation. -/
def Redelegation.zero : Redelegation :=
  ⟨0, 0, 0, 0, 0, ⟨0, 0⟩, ⟨0, 0⟩, Dec.ZeroDec, Dec.ZeroDec⟩

/-! ## Staking: pool and bank -/

/-- Modelled from the spec: the balance collaborator (the bank keeper is not
under src/): the loose tokens of the staking denomination and the balance of
every account in every denomination. -/
structure BankKeeper where
  loosenTokens : Int
  accounts : KV (Address × Denom) Int
deriving DecidableEq, Repr

namespace BankKeeper

/-- Modelled from the spec: the balance of an account in a denomination. -/
def GetCoins (b : BankKeeper) (addr : Address) (denom : Denom) : Int :=
  (b.accounts.get (addr, denom)).getD 0

/-- Modelled from the spec: credit of one coin to an account; an error when the
balance would be negative. -/
def AddCoins (b : BankKeeper) (addr : Address) (amt : Coin) : Option BankKeeper :=
  let newAmount := b.GetCoins addr amt.Denom + amt.Amount
  if newAmount < 0 then none
  else some { b with accounts := b.accounts.set (addr, amt.Denom) newAmount }

/-- Modelled from the spec: debit of one coin from an account; an error when
the balance would be negative. -/
def SubtractCoins (b : BankKeeper) (addr : Address) (amt : Coin) : Option BankKeeper :=
  let newAmount := b.GetCoins addr amt.Denom - amt.Amount
  if newAmount < 0 then none
  else some { b with accounts := b.accounts.set (addr, amt.Denom) newAmount }

/-- Modelled from the spec: adds to the loose tokens. -/
def IncreaseLoosenToken (b : BankKeeper) (amount : Int) : BankKeeper :=
  { b with loosenTokens := b.loosenTokens + amount }

/-- Modelled from the spec: takes from the loose tokens. -/
def DecreaseLoosenToken (b : BankKeeper) (amount : Int) : BankKeeper :=
  { b with loosenTokens := b.loosenTokens - amount }

end BankKeeper

structure BondedPool where
  BondedTokens : Dec
deriving DecidableEq, Repr

/-- Dynamic parameters of the current state (pool.go); the bank keeper it
holds is carried with its state. -/
structure Pool where
  BankKeeper : BankKeeper
  BondedPool : BondedPool
deriving DecidableEq, Repr

namespace Pool

/-- Moves loose tokens to the bonded pool; `none` is the panic on an amount
that is not an integer. -/
def loosenTokenToBonded (p : Pool) (bondedTokens : Dec) : Option Pool :=
  let round := bondedTokens.TruncateInt
  let change := bondedTokens.Sub (Dec.NewDecFromInt round)
  if !change.IsZero then none
  else
    some { BondedPool := ⟨p.BondedPool.BondedTokens.Add bondedTokens⟩
           BankKeeper := p.BankKeeper.DecreaseLoosenToken round }

/-- Moves bonded tokens to the loose tokens; `none` is the panic on an amount
that is not an integer. -/
def bondedTokenToLoosen (p : Pool) (bondedTokens : Dec) : Option Pool :=
  let round := bondedTokens.TruncateInt
  let change := bondedTokens.Sub (Dec.NewDecFromInt round)
  if !change.IsZero then none
  else
    some { BondedPool := ⟨p.BondedPool.BondedTokens.Sub bondedTokens⟩
           BankKeeper := p.BankKeeper.IncreaseLoosenToken round }

def GetLoosenTokenAmount (p : Pool) : Dec := Dec.NewDecFromInt p.BankKeeper.loosenTokens

end Pool

structure PoolStatus where
  LooseTokens : Dec
  BondedTokens : Dec
deriving DecidableEq, Repr

def PoolStatus.TokenSupply (p : PoolStatus) : Dec := p.LooseTokens.Add p.BondedTokens

/-- Modelled from the spec: removes shares from a validator at the exchange
rate tokens / shares; the tokens of a bonded validator leave the bonded pool. -/
def Validator.RemoveDelShares (v : Validator) (pool : Pool) (delShares : Dec) :
    Option (Validator × Pool × Dec) :=
  let issuedTokens := v.DelegatorShareExRate.Mul delShares
  let v1 := { v with Tokens := v.Tokens.Sub issuedTokens
                     DelegatorShares := v.DelegatorShares.Sub delShares }
  if v.Status = Bonded then
    match pool.bondedTokenToLoosen issuedTokens with
    | none => none
    | some pool1 => some (v1, pool1, issuedTokens)
  else some (v1, pool, issuedTokens)

/-- Modelled from the spec: adds tokens to a validator and issues shares,
`newShares = amount / exchangeRate`; the tokens of a bonded validator enter the
bonded pool. -/
def Validator.AddTokensFromDel (v : Validator) (pool : Pool) (amount : Int) :
    Option (Validator × Pool × Dec) :=
  let amountDec := Dec.NewDecFromInt amount
  match amountDec.Quo v.DelegatorShareExRate with
  | none => none
  | some issuedShares =>
    let v1 := { v with Tokens := v.Tokens.Add amountDec
                       DelegatorShares := v.DelegatorShares.Add issuedShares }
    if v.Status = Bonded then
      match pool.loosenTokenToBonded amountDec with
      | none => none
      | some pool1 => some (v1, pool1, issuedShares)
    else some (v1, pool, issuedShares)

/-! ## Staking: the keeper -/

/-- Calls of the staking hooks, the distribution collaborator's entry points. -/
inductive HookCall where
  | OnDelegationCreated (delAddr valAddr : Address)
  | OnDelegationSharesModified (delAddr valAddr : Address)
  | OnDelegationRemoved (delAddr valAddr : Address)
  | OnValidatorRemoved (valAddr : Address)
deriving DecidableEq, Repr

/-- User-facing errors of the staking keeper (`sdk.Error`). -/
inductive StakeError where
  | ErrNoDelegatorForAddress
  | ErrNotEnoughDelegationShares
  | ErrNoValidatorFound
  | ErrExistingUnbondingDelegation
  | ErrNoUnbondingDelegation
  | ErrSelfRedelegation
  | ErrConflictingRedelegation
  | ErrTransitiveRedelegation
  | ErrBadRedelegationDst
  | ErrDelegatorShareExRateInvalid
  | ErrNoRedelegation
  | ErrNotMature
  | ErrInsufficientCoins
deriving DecidableEq, Repr

/-- The state the staking keeper works on: the maps of its store, one per key
prefix, the bank keeper's state and the hook calls made so far. The secondary
indexes hold their keys with an empty value. -/
structure Store where
  delegations : KV (Address × Address) Delegation
  validators : KV Address Validator
  pool : BondedPool
  ubds : KV (Address × Address) UnbondingDelegation
  ubdsByValIndex : KV (Address × Address) Unit
  unbondingQueue : KV Time (List DVPair)
  reds : KV (Address × Address × Address) Redelegation
  redsByValSrcIndex : KV (Address × Address × Address) Unit
  redsByValDstIndex : KV (Address × Address × Address) Unit
  redelegationQueue : KV Time (List DVVTriplet)
  bank : BankKeeper
  hookCalls : List HookCall
deriving DecidableEq, Repr

/-- Block context of a call: what the keepers read of `sdk.Context`. -/
structure Context where
  BlockHeight : Int
  BlockTime : Time
  CoinFlowTrigger : String
deriving DecidableEq, Repr

/-- Parameters the keeper reads: the unbonding period and the bond
denomination. -/
structure Keeper where
  UnbondingTime : Int
  BondDenom : Denom
deriving DecidableEq, Repr

/-- Result of a keeper method: a value, an error (with the value returned
beside it), or a panic. The store is the one the call leaves behind. -/
inductive Res (α : Type) where
  | ok (s : Store) (a : α)
  | err (s : Store) (e : StakeError) (a : α)
  | panic
deriving DecidableEq, Repr

namespace Res

/-- The store a call leaves behind, when it returns. -/
def store? {α : Type} : Res α → Option Store
  | ok s _ => some s
  | err s _ _ => some s
  | panic => none

/-- The value a call returns, when it returns. -/
def value? {α : Type} : Res α → Option α
  | ok _ a => some a
  | err _ _ a => some a
  | panic => none

/-- The call returned without an error. -/
def isOk {α : Type} : Res α → Bool
  | ok _ _ => true
  | _ => false

end Res

namespace Keeper

/-! ### Hooks -/

/-- Modelled from the spec: the hook is invoked synchronously; the call is
recorded (hooks.go is not under src/). -/
def OnDelegationCreated (s : Store) (delAddr valAddr : Address) : Store :=
  { s with hookCalls := s.hookCalls ++ [.OnDelegationCreated delAddr valAddr] }

/-- Modelled from the spec: the hook is invoked synchronously; the call is
recorded. -/
def OnDelegationSharesModified (s : Store) (delAddr valAddr : Address) : Store :=
  { s with hookCalls := s.hookCalls ++ [.OnDelegationSharesModified delAddr valAddr] }

/-- Modelled from the spec: the hook is invoked synchronously; the call is
recorded. -/
def OnDelegationRemoved (s : Store) (delAddr valAddr : Address) : Store :=
  { s with hookCalls := s.hookCalls ++ [.OnDelegationRemoved delAddr valAddr] }

/-- Modelled from the spec: the hook is invoked synchronously; the call is
recorded. -/
def OnValidatorRemoved (s : Store) (valAddr : Address) : Store :=
  { s with hookCalls := s.hookCalls ++ [.OnValidatorRemoved valAddr] }

/-! ### Validators and pool (validator.go of the keeper is not under src/) -/

/-- Modelled from the spec: the validator stored under an operator address. -/
def GetValidator (s : Store) (addr : Address) : Option Validator := s.validators.get addr

/-- Modelled from the spec: as `GetValidator`, a panic when there is none. -/
def mustGetValidator (s : Store) (addr : Address) : Option Validator := GetValidator s addr

/-- Modelled from the spec: stores the validator under its operator address. -/
def SetValidator (s : Store) (v : Validator) : Store :=
  { s with validators := s.validators.set v.OperatorAddr v }

/-- Modelled from the spec: the pool of the store, with the bank keeper it
holds. -/
def GetPool (s : Store) : Pool := ⟨s.bank, s.pool⟩

/-- Modelled from the spec: stores the pool; what its methods did to the bank
keeper stays done. -/
def SetPool (s : Store) (p : Pool) : Store := { s with pool := p.BondedPool, bank := p.BankKeeper }

/-- Modelled from the spec: jails a validator; a panic when it is jailed
already. -/
def jailValidator (s : Store) (v : Validator) : Option Store :=
  if v.Jailed then none else some (SetValidator s { v with Jailed := true })

/-- Modelled from the spec: deletes the validator record, if there is one, and
calls the hook. -/
def RemoveValidator (s : Store) (addr : Address) : Store :=
  match GetValidator s addr with
  | none => s
  | some _ => OnValidatorRemoved { s with validators := s.validators.delete addr } addr

/-- Modelled from the spec: updates the tokens and shares of a stored validator
and the pool. -/
def RemoveValidatorTokensAndShares (s : Store) (v : Validator) (sharesToRemove : Dec) :
    Option (Store × Validator × Dec) :=
  match v.RemoveDelShares (GetPool s) sharesToRemove with
  | none => none
  | some (v1, pool1, removedTokens) => some (SetPool (SetValidator s v1) pool1, v1, removedTokens)

/-- Modelled from the spec: updates the tokens and shares of a stored validator
and the pool. -/
def AddValidatorTokensAndShares (s : Store) (v : Validator) (tokensToAdd : Int) :
    Option (Store × Validator × Dec) :=
  match v.AddTokensFromDel (GetPool s) tokensToAdd with
  | none => none
  | some (v1, pool1, addedShares) => some (SetPool (SetValidator s v1) pool1, v1, addedShares)

/-! ### Delegations (delegation.go) -/

/-- The delegation stored under the key; its addresses are read from the key. -/
def GetDelegation (s : Store) (delAddr valAddr : Address) : Option Delegation :=
  (s.delegations.get (delAddr, valAddr)).map fun d =>
    { d with DelegatorAddr := delAddr, ValidatorAddr := valAddr }

def SetDelegation (s : Store) (delegation : Delegation) : Store :=
  { s with delegations :=
      s.delegations.set (delegation.DelegatorAddr, delegation.ValidatorAddr) delegation }

def RemoveDelegation (s : Store) (delegation : Delegation) : Store :=
  let s1 := OnDelegationRemoved s delegation.DelegatorAddr delegation.ValidatorAddr
  { s1 with delegations :=
      s1.delegations.delete (delegation.DelegatorAddr, delegation.ValidatorAddr) }

/-! ### Unbonding delegations -/

/-- The unbonding delegation stored under the key; its addresses are read from
the key. -/
def GetUnbondingDelegation (s : Store) (delAddr valAddr : Address) :
    Option UnbondingDelegation :=
  (s.ubds.get (delAddr, valAddr)).map fun u =>
    { u with DelegatorAddr := delAddr, ValidatorAddr := valAddr }

def SetUnbondingDelegation (s : Store) (ubd : UnbondingDelegation) : Store :=
  { s with
    ubds := s.ubds.set (ubd.DelegatorAddr, ubd.ValidatorAddr) ubd
    ubdsByValIndex := s.ubdsByValIndex.set (ubd.ValidatorAddr, ubd.DelegatorAddr) () }

def RemoveUnbondingDelegation (s : Store) (ubd : UnbondingDelegation) : Store :=
  { s with
    ubds := s.ubds.delete (ubd.DelegatorAddr, ubd.ValidatorAddr)
    ubdsByValIndex := s.ubdsByValIndex.delete (ubd.ValidatorAddr, ubd.DelegatorAddr) }

def GetUnbondingQueueTimeSlice (s : Store) (timestamp : Time) : List DVPair :=
  match s.unbondingQueue.get timestamp with
  | none => []
  | some dvPairs => dvPairs

def SetUnbondingQueueTimeSlice (s : Store) (timestamp : Time) (keys : List DVPair) : Store :=
  { s with unbondingQueue := s.unbondingQueue.set timestamp keys }

def InsertUnbondingQueue (s : Store) (ubd : UnbondingDelegation) : Store :=
  let timeSlice := GetUnbondingQueueTimeSlice s ubd.MinTime
  let dvPair : DVPair := ⟨ubd.DelegatorAddr, ubd.ValidatorAddr⟩
  if timeSlice.length = 0 then SetUnbondingQueueTimeSlice s ubd.MinTime [dvPair]
  else SetUnbondingQueueTimeSlice s ubd.MinTime (timeSlice ++ [dvPair])

/-! ### Redelegations -/

/-- The redelegation stored under the key; its addresses are read from the
key. -/
def GetRedelegation (s : Store) (delAddr valSrcAddr valDstAddr : Address) :
    Option Redelegation :=
  (s.reds.get (delAddr, valSrcAddr, valDstAddr)).map fun r =>
    { r with DelegatorAddr := delAddr, ValidatorSrcAddr := valSrcAddr,
             ValidatorDstAddr := valDstAddr }

/-- The prefix iterator over the by-destination index is valid: some index key
has this delegator and this destination. -/
def HasReceivingRedelegation (s : Store) (delAddr valDstAddr : Address) : Bool :=
  s.redsByValDstIndex.any fun kv => kv.1.1 = delAddr ∧ kv.1.2.2 = valDstAddr

def SetRedelegation (s : Store) (red : Redelegation) : Store :=
  let key := (red.DelegatorAddr, red.ValidatorSrcAddr, red.ValidatorDstAddr)
  { s with
    reds := s.reds.set key red
    redsByValSrcIndex := s.redsByValSrcIndex.set key ()
    redsByValDstIndex := s.redsByValDstIndex.set key () }

def RemoveRedelegation (s : Store) (red : Redelegation) : Store :=
  let key := (red.DelegatorAddr, red.ValidatorSrcAddr, red.ValidatorDstAddr)
  { s with
    reds := s.reds.delete key
    redsByValSrcIndex := s.redsByValSrcIndex.delete key
    redsByValDstIndex := s.redsByValDstIndex.delete key }

def GetRedelegationQueueTimeSlice (s : Store) (timestamp : Time) : List DVVTriplet :=
  match s.redelegationQueue.get timestamp with
  | none => []
  | some dvvTriplets => dvvTriplets

def SetRedelegationQueueTimeSlice (s : Store) (timestamp : Time) (keys : List DVVTriplet) :
    Store :=
  { s with redelegationQueue := s.redelegationQueue.set timestamp keys }

def InsertRedelegationQueue (s : Store) (red : Redelegation) : Store :=
  let timeSlice := GetRedelegationQueueTimeSlice s red.MinTime
  let dvvTriplet : DVVTriplet := ⟨red.DelegatorAddr, red.ValidatorSrcAddr, red.ValidatorDstAddr⟩
  if timeSlice.length = 0 then SetRedelegationQueueTimeSlice s red.MinTime [dvvTriplet]
  else SetRedelegationQueueTimeSlice s red.MinTime (timeSlice ++ [dvvTriplet])

/-! ### Delegate and unbond -/

/-- Perform a delegation, set/update everything necessary within the store. -/
def Delegate (ctx : Context) (s : Store) (delAddr : Address) (bondAmt : Coin)
    (validator : Validator) (subtractAccount : Bool) : Res Dec :=
  if validator.DelegatorShareExRate.IsZero then
    .err s .ErrDelegatorShareExRateInvalid Dec.ZeroDec
  else
    let found := GetDelegation s delAddr validator.OperatorAddr
    let delegation : Delegation :=
      match found with
      | some d => d
      | none => ⟨delAddr, validator.OperatorAddr, Dec.ZeroDec, 0⟩
    let s1 :=
      if found.isSome then OnDelegationSharesModified s delAddr validator.OperatorAddr
      else OnDelegationCreated s delAddr validator.OperatorAddr
    let afterSubtract : Option Store :=
      if subtractAccount then
        match s1.bank.SubtractCoins delegation.DelegatorAddr bondAmt with
        | none => none
        | some b => some { s1 with bank := b }
      else some s1
    match afterSubtract with
    | none => .err s1 .ErrInsufficientCoins Dec.ZeroDec
    | some s2 =>
      match AddValidatorTokensAndShares s2 validator bondAmt.Amount with
      | none => .panic
      | some (s3, _, newShares) =>
        let delegation1 :=
          { delegation with Shares := delegation.Shares.Add newShares
                            Height := ctx.BlockHeight }
        .ok (SetDelegation s3 delegation1) newShares

/-- Unbond the delegation; the value is the token amount removed from the
validator. -/
def unbond (ctx : Context) (s : Store) (delAddr valAddr : Address) (shares : Dec) : Res Dec :=
  match GetDelegation s delAddr valAddr with
  | none => .err s .ErrNoDelegatorForAddress Dec.ZeroDec
  | some delegation =>
    let s1 := OnDelegationSharesModified s delAddr valAddr
    if delegation.Shares.LT shares then .err s1 .ErrNotEnoughDelegationShares Dec.ZeroDec
    else
      match GetValidator s1 valAddr with
      | none => .err s1 .ErrNoValidatorFound Dec.ZeroDec
      | some validator =>
        let delegation1 := { delegation with Shares := delegation.Shares.Sub shares }
        let afterDelegation : Option (Store × Validator) :=
          if delegation1.Shares.IsZero then
            if delegation1.DelegatorAddr = validator.OperatorAddr ∧ validator.Jailed = false then
              match jailValidator s1 validator with
              | none => none
              | some s2 =>
                match mustGetValidator s2 validator.OperatorAddr with
                | none => none
                | some validator1 => some (RemoveDelegation s2 delegation1, validator1)
            else some (RemoveDelegation s1 delegation1, validator)
          else some (SetDelegation s1 { delegation1 with Height := ctx.BlockHeight }, validator)
        match afterDelegation with
        | none => .panic
        | some (s3, validator2) =>
          match RemoveValidatorTokensAndShares s3 validator2 shares with
          | none => .panic
          | some (s4, validator3, amount) =>
            if validator3.DelegatorShares.IsZero ∧ validator3.Status = Unbonded then
              .ok (RemoveValidator s4 validator3.OperatorAddr) amount
            else .ok s4 amount

/-! ### Begin and complete -/

/-- Info for the begin functions: `MinTime`, `CreationHeight` and whether to
complete now; `none` is the panic on an unknown validator status. -/
def getBeginInfo (k : Keeper) (ctx : Context) (s : Store) (valSrcAddr : Address) :
    Option (Time × Int × Bool) :=
  match GetValidator s valSrcAddr with
  | none => some (ctx.BlockTime + k.UnbondingTime, ctx.BlockHeight, false)
  | some validator =>
    if validator.Status = Bonded then
      some (ctx.BlockTime + k.UnbondingTime, ctx.BlockHeight, false)
    else if validator.Status = Unbonded then some (0, 0, true)
    else if validator.Status = Unbonding then
      some (validator.UnbondingMinTime, validator.UnbondingHeight, false)
    else none

/-- Begin unbonding. `H001_UNDELEGATE_PATCH` is the block height of the
undelegate patch, a constant of package version whose value is not under
src/. -/
def BeginUnbonding (k : Keeper) (H001_UNDELEGATE_PATCH : Int) (ctx : Context) (s : Store)
    (delAddr valAddr : Address) (sharesAmount : Dec) : Res UnbondingDelegation :=
  match GetUnbondingDelegation s delAddr valAddr with
  | some _ => .err s .ErrExistingUnbondingDelegation UnbondingDelegation.zero
  | none =>
    if ctx.BlockHeight < H001_UNDELEGATE_PATCH then
      match getBeginInfo k ctx s valAddr with
      | none => .panic
      | some (minTime, height, completeNow) =>
        match unbond ctx s delAddr valAddr sharesAmount with
        | .panic => .panic
        | .err s1 e _ => .err s1 e UnbondingDelegation.zero
        | .ok s1 returnAmount =>
          let rounded := returnAmount.TruncateInt
          let balance := NewCoin k.BondDenom rounded
          if completeNow then
            match s1.bank.AddCoins delAddr balance with
            | none => .err s1 .ErrInsufficientCoins UnbondingDelegation.zero
            | some b =>
              .ok { s1 with bank := b }
                { UnbondingDelegation.zero with MinTime := minTime, Balance := balance }
          else
            let ubd : UnbondingDelegation :=
              { TxHash := ctx.CoinFlowTrigger
                DelegatorAddr := delAddr
                ValidatorAddr := valAddr
                CreationHeight := height
                MinTime := minTime
                Balance := balance
                InitialBalance := balance }
            .ok (InsertUnbondingQueue (SetUnbondingDelegation s1 ubd) ubd) ubd
    else
      match unbond ctx s delAddr valAddr sharesAmount with
      | .panic => .panic
      | .err s1 e _ => .err s1 e UnbondingDelegation.zero
      | .ok s1 returnAmount =>
        let rounded := returnAmount.TruncateInt
        let balance := NewCoin k.BondDenom rounded
        let completionTime := ctx.BlockTime + k.UnbondingTime
        let ubd : UnbondingDelegation :=
          { TxHash := ctx.CoinFlowTrigger
            DelegatorAddr := delAddr
            ValidatorAddr := valAddr
            CreationHeight := ctx.BlockHeight
            MinTime := completionTime
            Balance := balance
            InitialBalance := balance }
        .ok (InsertUnbondingQueue (SetUnbondingDelegation s1 ubd) ubd) ubd

/-- Complete unbonding an unbonding record.
CONTRACT: Expects unbonding passed in has finished the unbonding period. -/
def CompleteUnbonding (_ctx : Context) (s : Store) (delAddr valAddr : Address) : Res Unit :=
  match GetUnbondingDelegation s delAddr valAddr with
  | none => .err s .ErrNoUnbondingDelegation ()
  | some ubd =>
    match s.bank.AddCoins ubd.DelegatorAddr ubd.Balance with
    | none => .err s .ErrInsufficientCoins ()
    | some b => .ok (RemoveUnbondingDelegation { s with bank := b } ubd) ()

/-- Begin a redelegation; create a redelegation record. -/
def BeginRedelegation (k : Keeper) (ctx : Context) (s : Store) (delAddr : Address)
    (valSrcAddr valDstAddr : Address) (sharesAmount : Dec) : Res Redelegation :=
  if valSrcAddr = valDstAddr then .err s .ErrSelfRedelegation Redelegation.zero
  else
    match GetRedelegation s delAddr valSrcAddr valDstAddr with
    | some _ => .err s .ErrConflictingRedelegation Redelegation.zero
    | none =>
      if HasReceivingRedelegation s delAddr valSrcAddr then
        .err s .ErrTransitiveRedelegation Redelegation.zero
      else
        match unbond ctx s delAddr valSrcAddr sharesAmount with
        | .panic => .panic
        | .err s1 e _ => .err s1 e Redelegation.zero
        | .ok s1 returnAmount =>
          let rounded := returnAmount.TruncateInt
          let returnCoin := NewCoin k.BondDenom rounded
          match GetValidator s1 valDstAddr with
          | none => .err s1 .ErrBadRedelegationDst Redelegation.zero
          | some dstValidator =>
            match Delegate ctx s1 delAddr returnCoin dstValidator false with
            | .panic => .panic
            | .err s2 e _ => .err s2 e Redelegation.zero
            | .ok s2 sharesCreated =>
              match getBeginInfo k ctx s2 valSrcAddr with
              | none => .panic
              | some (minTime, height, completeNow) =>
                if completeNow then
                  .ok s2
                    { Redelegation.zero with
                      MinTime := minTime
                      SharesDst := sharesCreated
                      SharesSrc := sharesAmount
                      Balance := returnCoin }
                else
                  let red : Redelegation :=
                    { DelegatorAddr := delAddr
                      ValidatorSrcAddr := valSrcAddr
                      ValidatorDstAddr := valDstAddr
                      CreationHeight := height
                      MinTime := minTime
                      SharesDst := sharesCreated
                      SharesSrc := sharesAmount
                      Balance := returnCoin
                      InitialBalance := returnCoin }
                  .ok (InsertRedelegationQueue (SetRedelegation s2 red) red) red

/-- Complete unbonding an ongoing redelegation. -/
def CompleteRedelegation (ctx : Context) (s : Store) (delAddr : Address)
    (valSrcAddr valDstAddr : Address) : Res Unit :=
  match GetRedelegation s delAddr valSrcAddr valDstAddr with
  | none => .err s .ErrNoRedelegation ()
  | some red =>
    let ctxTime := ctx.BlockTime
    if red.MinTime > ctxTime then .err s .ErrNotMature ()
    else .ok (RemoveRedelegation s red) ()

/-! ### Slashing of an unbonding delegation -/

/-- Modelled from the spec: `slashUnbondingDelegation` (slash.go of the keeper
is not under src/, its tests are). An entry created before the infraction
height or matured before the block time is left alone; otherwise the entry is
slashed by the fraction of its initial balance, at most by its balance, and the
amount is burned from the loose tokens. The value is the slash amount. -/
def slashUnbondingDelegation (ctx : Context) (s : Store) (ubd : UnbondingDelegation)
    (infractionHeight : Int) (slashFactor : Dec) : Store × Dec :=
  let now := ctx.BlockTime
  if ubd.CreationHeight < infractionHeight then (s, Dec.ZeroDec)
  else if ubd.MinTime < now then (s, Dec.ZeroDec)
  else
    let slashAmount := slashFactor.MulInt ubd.InitialBalance.Amount
    let unbondingSlashAmount := min slashAmount.RoundInt ubd.Balance.Amount
    if unbondingSlashAmount ≠ 0 then
      let ubd1 :=
        { ubd with Balance := { ubd.Balance with Amount := ubd.Balance.Amount - unbondingSlashAmount } }
      let s1 := SetUnbondingDelegation s ubd1
      ({ s1 with bank := s1.bank.DecreaseLoosenToken unbondingSlashAmount }, slashAmount)
    else (s, slashAmount)

/-- The maps of unbonding delegations and redelegations, their indexes and
queues and the account balances are the same in two stores. -/
def sameOutsideDelegation (s s1 : Store) : Prop :=
  s1.ubds = s.ubds ∧ s1.ubdsByValIndex = s.ubdsByValIndex
    ∧ s1.unbondingQueue = s.unbondingQueue ∧ s1.reds = s.reds
    ∧ s1.redsByValSrcIndex = s.redsByValSrcIndex ∧ s1.redsByValDstIndex = s.redsByValDstIndex
    ∧ s1.redelegationQueue = s.redelegationQueue ∧ s1.bank.accounts = s.bank.accounts

end Keeper

/-! ## Slashing -/

namespace Slashing

/-- Modelled from the spec: signing info of a validator, keyed by consensus
address (signing_info.go is not under src/). -/
structure ValidatorSigningInfo where
  StartHeight : Int
  IndexOffset : Int
  JailedUntil : Time
  MissedBlocksCounter : Int
deriving DecidableEq, Repr

/-- What the slashing keeper reads of a validator of the validator set. -/
structure SetValidator where
  Operator : Address
  Status : BondStatus
  Jailed : Bool
deriving DecidableEq, Repr

/-- A call of `validatorSet.Slash`. -/
structure SlashCall where
  consAddr : Address
  infractionHeight : Int
  power : Int
  slashFactor : Dec
deriving DecidableEq, Repr

/-- Parameters of the slashing keeper (params.go is not under src/), and the
staking constant `ValidatorUpdateDelay`. -/
structure Params where
  SignedBlocksWindow : Int
  MinSignedPerWindow : Int
  DowntimeJailDuration : Int
  SlashFractionDowntime : Dec
  ValidatorUpdateDelay : Int
deriving DecidableEq, Repr

/-- The slashing store and the validator set it works on. `slashCalls` are the
calls of `validatorSet.Slash` made so far, `jailCalls` the consensus addresses
of the calls of `validatorSet.Jail` made so far. -/
structure State where
  pubkeys : KV Address Nat
  signingInfos : KV Address ValidatorSigningInfo
  missedBlocks : KV (Address × Int) Bool
  validatorSet : KV Address SetValidator
  slashCalls : List SlashCall
  jailCalls : List Address := []
deriving DecidableEq, Repr

/-- The public key of an address; `none` is the error. -/
def getPubkey (st : State) (address : Address) : Option Nat := st.pubkeys.get address

/-- Modelled from the spec: the stored signing info (signing_info.go is not
under src/). -/
def getValidatorSigningInfo (st : State) (address : Address) : Option ValidatorSigningInfo :=
  st.signingInfos.get address

/-- Modelled from the spec: stores the signing info. -/
def SetValidatorSigningInfo (st : State) (address : Address) (info : ValidatorSigningInfo) :
    State :=
  { st with signingInfos := st.signingInfos.set address info }

/-- Modelled from the spec: the bit of the missed-block bit array at an index; a
bit never written is not set. -/
def getValidatorMissedBlockBitArray (st : State) (address : Address) (index : Int) : Bool :=
  (st.missedBlocks.get (address, index)).getD false

/-- Modelled from the spec: writes the bit at an index. -/
def setValidatorMissedBlockBitArray (st : State) (address : Address) (index : Int)
    (missed : Bool) : State :=
  { st with missedBlocks := st.missedBlocks.set (address, index) missed }

/-- Modelled from the spec: deletes every bit of the validator's bit array. -/
def clearValidatorMissedBlockBitArray (st : State) (address : Address) : State :=
  { st with missedBlocks := st.missedBlocks.filter fun kv => decide (kv.1.1 ≠ address) }

/-- Modelled from the spec: the validator of the set with a consensus address,
`none` is nil. -/
def ValidatorByConsAddr (st : State) (consAddr : Address) : Option SetValidator :=
  st.validatorSet.get consAddr

/-- Modelled from the spec: the staking Slash of the validator set; the call
is recorded. -/
def Slash (st : State) (consAddr : Address) (infractionHeight power : Int) (slashFactor : Dec) :
    State :=
  { st with slashCalls := st.slashCalls ++ [⟨consAddr, infractionHeight, power, slashFactor⟩] }

/-- Modelled from the spec: the staking Jail of the validator set: the call is
recorded and the validator's jailed flag is set. -/
def Jail (st : State) (consAddr : Address) : State :=
  match st.validatorSet.get consAddr with
  | none => { st with jailCalls := st.jailCalls ++ [consAddr] }
  | some v =>
    { st with
      validatorSet := st.validatorSet.set consAddr { v with Jailed := true }
      jailCalls := st.jailCalls ++ [consAddr] }

/-- The update of the signed-block bit array and counter of
`handleValidatorSignature`. -/
def updateMissedBlock (st : State) (consAddr : Address) (index : Int)
    (signInfo : ValidatorSigningInfo) (signed : Bool) : State × ValidatorSigningInfo :=
  let previous := getValidatorMissedBlockBitArray st consAddr index
  let missed := !signed
  if !previous && missed then
    (setValidatorMissedBlockBitArray st consAddr index true,
      { signInfo with MissedBlocksCounter := wrapInt64 (signInfo.MissedBlocksCounter + 1) })
  else if previous && !missed then
    (setValidatorMissedBlockBitArray st consAddr index false,
      { signInfo with MissedBlocksCounter := wrapInt64 (signInfo.MissedBlocksCounter - 1) })
  else (st, signInfo)

/-- The signing info of a call of `handleValidatorSignature` after its update
of the index offset, the bit array and the counter. -/
def signInfoAfterUpdate (p : Params) (st : State) (consAddr : Address)
    (signInfo : ValidatorSigningInfo) (signed : Bool) : ValidatorSigningInfo :=
  (updateMissedBlock st consAddr (Int.tmod signInfo.IndexOffset p.SignedBlocksWindow)
    { signInfo with IndexOffset := wrapInt64 (signInfo.IndexOffset + 1) } signed).2

/-- Handle a validator signature, called once per validator per block; `none`
is a panic. -/
def handleValidatorSignature (p : Params) (ctx : Context) (st : State) (addr : Address)
    (power : Int) (signed : Bool) : Option State :=
  let height := ctx.BlockHeight
  let consAddr := addr
  match getPubkey st addr with
  | none => none
  | some _ =>
    match getValidatorSigningInfo st consAddr with
    | none => none
    | some signInfo =>
      if p.SignedBlocksWindow = 0 then none
      else
        let index := Int.tmod signInfo.IndexOffset p.SignedBlocksWindow
        let signInfo1 := { signInfo with IndexOffset := wrapInt64 (signInfo.IndexOffset + 1) }
        let updated := updateMissedBlock st consAddr index signInfo1 signed
        let st1 := updated.1
        let signInfo2 := updated.2
        let minHeight := wrapInt64 (signInfo2.StartHeight + p.SignedBlocksWindow)
        let maxMissed := wrapInt64 (p.SignedBlocksWindow - p.MinSignedPerWindow)
        if height > minHeight ∧ signInfo2.MissedBlocksCounter > maxMissed then
          match ValidatorByConsAddr st1 consAddr with
          | some validator =>
            if validator.Jailed = false then
              let distributionHeight := wrapInt64 (wrapInt64 (height - p.ValidatorUpdateDelay) - 1)
              let st2 := Slash st1 consAddr distributionHeight power p.SlashFractionDowntime
              let st3 := Jail st2 consAddr
              let signInfo3 :=
                { signInfo2 with
                  JailedUntil := ctx.BlockTime + p.DowntimeJailDuration
                  MissedBlocksCounter := 0
                  IndexOffset := 0 }
              let st4 := clearValidatorMissedBlockBitArray st3 consAddr
              some (SetValidatorSigningInfo st4 consAddr signInfo3)
            else some (SetValidatorSigningInfo st1 consAddr signInfo2)
          | none => some (SetValidatorSigningInfo st1 consAddr signInfo2)
        else some (SetValidatorSigningInfo st1 consAddr signInfo2)

end Slashing

/-! ## Errors (types/errors.go) -/

abbrev CodespaceType := String

/-- A code of an error, a `uint16` in the source. -/
abbrev CodeType := Nat

/-- The "unset" codespace. -/
def CodespaceUndefined : CodespaceType := ""

def CodespaceRoot : CodespaceType := "sdk"

/-- An error with its codespace, its code and the message it wraps. -/
structure sdkError where
  codespace : CodespaceType
  code : CodeType
  cmnError : String
deriving DecidableEq, Repr

namespace sdkError

/-- The error with a default codespace, as the source builds it: the local
`codespace` is computed and the result is built with `cs`. -/
def WithDefaultCodespace (err : sdkError) (cs : CodespaceType) : sdkError :=
  let codespace := err.codespace
  let _codespace := if codespace = CodespaceUndefined then cs else codespace
  { codespace := cs
    code := err.code
    cmnError := err.cmnError }

/-- The codespace the doc comment of `CodespaceUndefined` describes for the
result of `WithDefaultCodespace`: only an unset codespace is overridden. -/
def documentedCodespace (err : sdkError) (cs : CodespaceType) : CodespaceType :=
  if err.codespace = CodespaceUndefined then cs else err.codespace

end sdkError

/-! ## Staking: pool status, queue iteration and index iteration -/

/-- The keys of a map, each once, in the order of their first pair. -/
def KV.keys {κ ν : Type} [DecidableEq κ] (m : KV κ ν) : List κ := (m.map Prod.fst).dedup

/-- Modelled from the spec: the pool status of the queries, the loose and the
bonded totals of a pool. -/
def Pool.GetPoolStatus (p : Pool) : PoolStatus :=
  ⟨p.GetLoosenTokenAmount, p.BondedPool.BondedTokens⟩

namespace Keeper

/-- The timeslices of the unbonding queue from time 0 until `endTime`, the end
included: the pairs of key and stored value, in the order of the keys of the
store, which is ascending time. -/
def UnbondingQueueIterator (s : Store) (endTime : Time) : List (Time × List DVPair) :=
  ((s.unbondingQueue.keys.filter fun t => decide (t ≤ endTime)).insertionSort
    (· ≤ ·)).filterMap
    fun t => (s.unbondingQueue.get t).map fun timeslice => (t, timeslice)

/-- Returns a concatenated list of all the timeslices before the block time of
the context, and deletes the timeslices from the queue; `currTime` is not
read. -/
def DequeueAllMatureUnbondingQueue (ctx : Context) (s : Store) (_currTime : Time) :
    List DVPair × Store :=
  (UnbondingQueueIterator s ctx.BlockTime).foldl
    (fun acc timeslice =>
      (acc.1 ++ timeslice.2,
        { acc.2 with unbondingQueue := acc.2.unbondingQueue.delete timeslice.1 }))
    ([], s)

/-- The order of the keys of the by-source index under one source validator:
by delegator, then by destination validator. -/
def redKeyLE (a b : Address × Address × Address) : Prop :=
  a.1 < b.1 ∨ (a.1 = b.1 ∧ a.2.2 ≤ b.2.2)

instance redKeyLE_decidable : DecidableRel redKeyLE := fun a b =>
  inferInstanceAs (Decidable (a.1 < b.1 ∨ (a.1 = b.1 ∧ a.2.2 ≤ b.2.2)))

/-- The loop of `GetRedelegationsFromValidator` over the keys of the index:
the primary record of every key is read; `none` is the panic of
`MustUnmarshalRED` on a key without a record. -/
def redelegationsOfKeys (s : Store) :
    List (Address × Address × Address) → Option (List Redelegation)
  | [] => some []
  | key :: keys =>
    match GetRedelegation s key.1 key.2.1 key.2.2 with
    | none => none
    | some red =>
      match redelegationsOfKeys s keys with
      | none => none
      | some reds => some (red :: reds)

/-- All redelegations from a particular validator, read through the by-source
index in the order of its keys; `none` is a panic. -/
def GetRedelegationsFromValidator (s : Store) (valAddr : Address) :
    Option (List Redelegation) :=
  redelegationsOfKeys s
    ((s.redsByValSrcIndex.keys.filter fun key => decide (key.2.1 = valAddr)).insertionSort
      redKeyLE)

/-- A mutation of the redelegation records. -/
inductive RedelegationOp where
  | set (red : Redelegation)
  | remove (red : Redelegation)
deriving DecidableEq, Repr

def applyRedelegationOp (s : Store) : RedelegationOp → Store
  | .set red => SetRedelegation s red
  | .remove red => RemoveRedelegation s red

/-- The store after a sequence of `SetRedelegation` and `RemoveRedelegation`. -/
def applyRedelegationOps (s : Store) (ops : List RedelegationOp) : Store :=
  ops.foldl applyRedelegationOp s

/-- The two indexes of the redelegations hold the keys of the primary
records. -/
def redIndexesConsistent (s : Store) : Prop :=
  ∀ key, ((s.redsByValSrcIndex.get key).isSome = (s.reds.get key).isSome)
    ∧ ((s.redsByValDstIndex.get key).isSome = (s.reds.get key).isSome)

end Keeper

/-! ## Slashing: double sign and proposer censorship -/

namespace Slashing

/-- Parameters of the slashing keeper read by `handleDoubleSign` and
`handleProposerCensorship` (params.go is not under src/). -/
structure InfractionParams where
  MaxEvidenceAge : Int
  DoubleSignJailDuration : Int
  SlashFractionDoubleSign : Dec
  CensorshipJailDuration : Int
  SlashFractionCensorship : Dec
deriving DecidableEq, Repr

/-- Modelled from the spec: the slashing periods (slashing_period.go is not
under src/): for every validator the worst fraction already applied within its
current slashing period. -/
abbrev SlashingPeriods := KV Address Dec

/-- Modelled from the spec: the penalty fraction capped by the worst fraction
already applied to the validator within its current slashing period; the
period is updated. -/
def capBySlashingPeriod (periods : SlashingPeriods) (address : Address) (fraction : Dec)
    (_infractionHeight : Int) : SlashingPeriods × Dec :=
  let slashedSoFar := (periods.get address).getD Dec.ZeroDec
  let totalToSlash := if slashedSoFar.LT fraction then fraction else slashedSoFar
  let revisedFraction := totalToSlash.Sub slashedSoFar
  (periods.set address totalToSlash, revisedFraction)

/-- Handle a validator signing two blocks at the same height; `none` is a
panic. -/
def handleDoubleSign (p : Params) (e : InfractionParams) (ctx : Context) (st : State)
    (periods : SlashingPeriods) (addr : Address) (infractionHeight power : Int) :
    Option (State × SlashingPeriods) :=
  let time := ctx.BlockTime
  let age := wrapInt64 (ctx.BlockHeight - infractionHeight)
  let consAddr := addr
  match ValidatorByConsAddr st consAddr with
  | none => some (st, periods)
  | some validator =>
    if validator.Status = Unbonded then some (st, periods)
    else
      match getPubkey st addr with
      | none => none
      | some _ =>
        let maxEvidenceAge := e.MaxEvidenceAge
        if age > maxEvidenceAge then some (st, periods)
        else
          let distributionHeight := wrapInt64 (infractionHeight - p.ValidatorUpdateDelay)
          let fraction := e.SlashFractionDoubleSign
          let capped := capBySlashingPeriod periods consAddr fraction distributionHeight
          let revisedFraction := capped.2
          let st1 := Slash st consAddr distributionHeight power revisedFraction
          let st2 := if validator.Jailed = false then Jail st1 consAddr else st1
          match getValidatorSigningInfo st2 consAddr with
          | none => none
          | some signInfo =>
            some (SetValidatorSigningInfo st2 consAddr
              { signInfo with JailedUntil := time + e.DoubleSignJailDuration }, capped.1)

/-- Punish proposer censorship by slashing the stake of the malefactor; `none`
is a panic. `GetPower` is the power the validator set reports for a validator,
and `RoundInt64` panics outside of `int64`. -/
def handleProposerCensorship (p : Params) (e : InfractionParams)
    (GetPower : SetValidator → Dec) (ctx : Context) (st : State) (addr : Address)
    (infractionHeight : Int) : Option State :=
  let time := ctx.BlockTime
  let consAddr := addr
  match getPubkey st addr with
  | none => none
  | some _ =>
    match ValidatorByConsAddr st consAddr with
    | none => some st
    | some validator =>
      if validator.Status = Unbonded then some st
      else
        let distributionHeight := wrapInt64 (infractionHeight - p.ValidatorUpdateDelay)
        let power := (GetPower validator).RoundInt
        if ¬ inInt64 power then none
        else
          let st1 := Slash st consAddr distributionHeight power e.SlashFractionCensorship
          let st2 := if validator.Jailed = false then Jail st1 consAddr else st1
          match getValidatorSigningInfo st2 consAddr with
          | none => none
          | some signInfo =>
            some (SetValidatorSigningInfo st2 consAddr
              { signInfo with JailedUntil := time + e.CensorshipJailDuration })

/-- The number of set bits of the missed-block bit array of a validator over
the indices `0 .. window - 1`. -/
def missedBlocksInWindow (st : State) (address : Address) (window : Int) : Nat :=
  ((List.range window.toNat).filter fun (i : Nat) =>
    getValidatorMissedBlockBitArray st address (Int.ofNat i)).length

end Slashing
/-! ## Example inputs -/

namespace Example

open Keeper

/-- An info that last withdrew at height 0 and holds nothing. -/
def info : ValidatorDistInfo := ⟨1, 0, ⟨0, Dec.ZeroDec⟩, [], []⟩

/-- A withdraw at height 1 from a fee pool whose total accumulation stays zero
(no bonded power), by a validator with power one. -/
def zeroTotal : WithdrawContext :=
  { FeePool := ⟨⟨0, Dec.ZeroDec⟩, [], []⟩
    Height := 1
    TotalPower := Dec.ZeroDec
    ValPower := Dec.OneDec
    CommissionRate := Dec.ZeroDec }

/-- A withdraw at height 3 from a fee pool of 6 coins with bonded power one,
updated at height 0, by a validator with power two. -/
def overdrawn : WithdrawContext :=
  { FeePool := ⟨⟨0, Dec.ZeroDec⟩, [⟨1, Dec.NewDecFromInt 6⟩], []⟩
    Height := 3
    TotalPower := Dec.OneDec
    ValPower := Dec.NewDecFromInt 2
    CommissionRate := Dec.ZeroDec }

/-- The same withdraw by a validator with power one. -/
def fullShare : WithdrawContext := { overdrawn with ValPower := Dec.OneDec }

/-- An info that last withdrew at height 5, with 2 coins in its delegator pool
and 1 coin of commission. -/
def settledInfo : ValidatorDistInfo :=
  ⟨1, 5, ⟨5, Dec.ZeroDec⟩, [⟨1, Dec.NewDecFromInt 2⟩], [⟨1, Dec.NewDecFromInt 1⟩]⟩

/-- A read at height 5 of a fee pool whose total accumulation was consumed at
height 5 and whose validator pool still holds 3 coins. -/
def consumedTotal : WithdrawContext :=
  { FeePool := ⟨⟨5, Dec.ZeroDec⟩, [⟨1, Dec.NewDecFromInt 3⟩], []⟩
    Height := 5
    TotalPower := Dec.NewDecFromInt 10
    ValPower := Dec.NewDecFromInt 10
    CommissionRate := Dec.NewDecWithPrec 1 1 }

/-- Block 10 at time 333. -/
def ctx : Context := ⟨10, 333, "tx"⟩

/-- An unbonding period of 100 time units, bond denomination 1. -/
def keeper : Keeper := ⟨100, 1⟩

def ten : Dec := Dec.NewDecFromInt 10

def six : Dec := Dec.NewDecFromInt 6

/-- Validator 1 is Unbonded and validator 2 is Bonded, each with 10 tokens and
10 shares; delegator 7 holds the 10 shares of validator 1. -/
def store : Store :=
  { delegations := [((7, 1), ⟨7, 1, ten, 0⟩)]
    validators := [(1, ⟨1, false, Unbonded, ten, ten, 0, 0⟩), (2, ⟨2, false, Bonded, ten, ten, 0, 0⟩)]
    pool := ⟨ten⟩
    ubds := []
    ubdsByValIndex := []
    unbondingQueue := []
    reds := []
    redsByValSrcIndex := []
    redsByValDstIndex := []
    redelegationQueue := []
    bank := ⟨10, []⟩
    hookCalls := [] }

/-- An unbonding delegation of 4 coins from validator 1 that matures at time
1000. -/
def pendingUbd : UnbondingDelegation := ⟨"h", 7, 1, 5, 1000, ⟨1, 4⟩, ⟨1, 4⟩⟩

/-- The store with the pending unbonding delegation of delegator 7. -/
def pendingStore : Store :=
  { store with ubds := [((7, 1), pendingUbd)], ubdsByValIndex := [((1, 7), ())] }

/-- The store with validator 1 in Unbonding status since height 8, until time
400. -/
def unbondingStore : Store :=
  { store with
    validators := [(1, ⟨1, false, Unbonding, ten, ten, 8, 400⟩),
      (2, ⟨2, false, Bonded, ten, ten, 0, 0⟩)] }

/-- A redelegation of delegator 7 from a source to a destination validator. -/
def red (src dst : Address) : Redelegation :=
  ⟨7, src, dst, 5, 400, ⟨1, 3⟩, ⟨1, 3⟩, Dec.NewDecFromInt 3, Dec.NewDecFromInt 3⟩

/-- The store with a pending redelegation of delegator 7 out of validator 2,
into validator 3. -/
def outgoingStore : Store := SetRedelegation store (red 2 3)

/-- The store with a pending redelegation of delegator 7 from validator 3 into
validator 1. -/
def incomingStore : Store := SetRedelegation store (red 3 1)

/-- A window of 2 blocks that must both be signed. -/
def slashingParams : Slashing.Params := ⟨2, 2, 600, Dec.NewDecWithPrec 1 2, 1⟩

/-- Validator 9, bonded and not jailed, with a fresh signing info. -/
def slashingState : Slashing.State :=
  { pubkeys := [(9, 0)]
    signingInfos := [(9, ⟨0, 0, 0, 0⟩)]
    missedBlocks := []
    validatorSet := [(9, ⟨1, Bonded, false⟩)]
    slashCalls := [] }

/-- A validator that lost all its tokens and still has 10 shares. -/
def frozenValidator : Validator := ⟨2, false, Bonded, Dec.ZeroDec, ten, 0, 0⟩

/-- Block 20 at time 500. -/
def lateCtx : Context := ⟨20, 500, "tx"⟩

/-- The store with a pending redelegation of delegator 7 from validator 1 into
validator 2, which matures at time 400. -/
def redelegatingStore : Store := SetRedelegation store (red 1 2)

/-- Validator 1 is Unbonded with 1 token and 3 shares, all held by delegator
7. -/
def dustStore : Store :=
  { store with
    delegations := [((7, 1), ⟨7, 1, Dec.NewDecFromInt 3, 0⟩)]
    validators := [(1, ⟨1, false, Unbonded, Dec.NewDecFromInt 1, Dec.NewDecFromInt 3, 0, 0⟩)] }

/-- Validator 1, not jailed, with 10 tokens and 10 shares, all held by its own
operator, and Bonded. -/
def selfBondedStore : Store :=
  { store with
    delegations := [((1, 1), ⟨1, 1, ten, 0⟩)]
    validators := [(1, ⟨1, false, Bonded, ten, ten, 0, 0⟩)] }

/-- An error of the root codespace. -/
def rootError : sdkError := ⟨CodespaceRoot, 1, "internal error"⟩

/-- The store with three timeslices in the unbonding queue, at the times 300,
100 and 500, written in this order. -/
def queuedStore : Store :=
  { store with unbondingQueue := [(300, [⟨7, 1⟩, ⟨8, 1⟩]), (100, [⟨9, 2⟩]), (500, [⟨7, 2⟩])] }

/-- A maximal evidence age of 5 blocks. -/
def infractionParams : Slashing.InfractionParams :=
  ⟨5, 1000, Dec.NewDecWithPrec 5 2, 2000, Dec.NewDecWithPrec 2 2⟩

end Example

/-! ## Theorems: machine integers and decimals -/

theorem wrapInt64_of_inInt64 {x : Int} (h : inInt64 x) : wrapInt64 x = x := by
  unfold inInt64 at h
  unfold wrapInt64
  omega

theorem wrapInt64_zero : wrapInt64 0 = 0 := by decide

theorem Dec.IsZero_iff (d : Dec) : d.IsZero = true ↔ d.raw = 0 := by
  simp [Dec.IsZero]

theorem Dec.Quo_some_of_ne_zero (d d2 : Dec) (h : d2.IsZero = false) :
    ∃ q, d.Quo d2 = some q := by
  have h2 : d2.raw ≠ 0 := by simpa [Dec.IsZero] using h
  simp [Dec.Quo, h2]

theorem Dec.Quo_zero (d d2 : Dec) (h : d2.IsZero = true) : d.Quo d2 = none := by
  have h2 : d2.raw = 0 := by simpa [Dec.IsZero] using h
  simp [Dec.Quo, h2]

theorem Dec.chopPrecisionAndRound_nonneg {d : Int} (h : 0 ≤ d) :
    0 ≤ Dec.chopPrecisionAndRound d := by
  unfold Dec.chopPrecisionAndRound
  have hp : (0 : Int) < Dec.precisionReuse := by decide
  have hq : 0 ≤ (d.natAbs : Int) / Dec.precisionReuse :=
    Int.ediv_nonneg (Int.natCast_nonneg _) hp.le
  dsimp only
  rw [if_neg (not_lt.mpr h)]
  split
  · exact hq
  · split
    · exact hq
    · split
      · omega
      · split
        · exact hq
        · omega

theorem DecCoins.QuoDec_some_of_ne_zero (coins : DecCoins) (d : Dec) (h : d.IsZero = false) :
    ∃ w, DecCoins.QuoDec coins d = some w := by
  induction coins with
  | nil => exact ⟨[], rfl⟩
  | cons c cs ih =>
    obtain ⟨qs, hqs⟩ := ih
    obtain ⟨q, hq⟩ := Dec.Quo_some_of_ne_zero c.Amount d h
    exact ⟨⟨c.Denom, q⟩ :: qs, by simp [DecCoins.QuoDec, hq, hqs]⟩

theorem DecCoins.QuoDec_cons_zero (c : DecCoin) (cs : DecCoins) (d : Dec)
    (h : d.IsZero = true) : DecCoins.QuoDec (c :: cs) d = none := by
  simp [DecCoins.QuoDec, Dec.Quo_zero c.Amount d h]

/-! ## Theorems: distribution -/

namespace ValidatorDistInfo

/-- The total accumulation the fee pool has after its update is the one the
read-only getter computes. -/
theorem updated_total_eq (wc : WithdrawContext) :
    (wc.FeePool.UpdateTotalValAccum wc.Height wc.TotalPower).TotalValAccum.Accum
      = wc.FeePool.GetTotalValAccum wc.Height wc.TotalPower := rfl

/-- C6, as amended: when the validator's accumulation is greater than the fee
pool's total validator accumulation updated to the height, and that total is
not zero, TakeFeePoolRewards panics: it returns no result. -/
theorem TakeFeePoolRewards_panics_of_accum_gt (vi : ValidatorDistInfo) (wc : WithdrawContext)
    (hnz : (wc.FeePool.GetTotalValAccum wc.Height wc.TotalPower).IsZero = false)
    (hgt : (vi.GetValAccum wc.Height wc.ValPower).GT
      (wc.FeePool.GetTotalValAccum wc.Height wc.TotalPower) = true) :
    vi.TakeFeePoolRewards wc = none := by
  unfold TakeFeePoolRewards
  simp only [updated_total_eq, hnz, hgt]
  simp

/-- C6, counterexample: the validator's accumulation (1) is greater than the
updated total accumulation (0), and TakeFeePoolRewards returns a result: it
only moves the withdrawal height, because the total is zero. -/
theorem TakeFeePoolRewards_returns_on_zero_total :
    (Example.info.GetValAccum Example.zeroTotal.Height Example.zeroTotal.ValPower).GT
        (Example.zeroTotal.FeePool.GetTotalValAccum Example.zeroTotal.Height
          Example.zeroTotal.TotalPower) = true
      ∧ Example.info.TakeFeePoolRewards Example.zeroTotal
        = some ({ Example.info with FeePoolWithdrawalHeight := 1 },
                ⟨⟨1, Dec.ZeroDec⟩, [], []⟩) := by
  decide

/-- C6, witness: accumulation 6 against a total of 3. -/
theorem TakeFeePoolRewards_panics_of_accum_gt_witness :
    Example.info.TakeFeePoolRewards Example.overdrawn = none :=
  TakeFeePoolRewards_panics_of_accum_gt Example.info Example.overdrawn (by decide) (by decide)

/-- With a total accumulation that is not zero, the read-only projection of the
pool rewards is the DelPool of the info TakeFeePoolRewards returns (and panics
when it panics). -/
theorem CurrentPoolRewards_eq_of_total_ne_zero (vi : ValidatorDistInfo) (wc : WithdrawContext)
    (hnz : (wc.FeePool.GetTotalValAccum wc.Height wc.TotalPower).IsZero = false) :
    vi.CurrentPoolRewards wc = (vi.TakeFeePoolRewards wc).map fun r => r.1.DelPool := by
  unfold CurrentPoolRewards TakeFeePoolRewards
  simp only [updated_total_eq, hnz]
  by_cases hgt : (vi.GetValAccum wc.Height wc.ValPower).GT
      (wc.FeePool.GetTotalValAccum wc.Height wc.TotalPower) = true
  · simp [hgt]
  · simp only [hgt]
    cases hq : DecCoins.QuoDec (DecCoins.MulDec wc.FeePool.ValPool
        (vi.GetValAccum wc.Height wc.ValPower))
        (wc.FeePool.GetTotalValAccum wc.Height wc.TotalPower) <;>
      simp [FeePool.UpdateTotalValAccum, hq]

/-- With a total accumulation that is not zero, the read-only projection of the
commission is the commission WithdrawCommission returns (and panics when it
panics). -/
theorem CurrentCommissionRewards_eq_of_total_ne_zero (vi : ValidatorDistInfo)
    (wc : WithdrawContext)
    (hnz : (wc.FeePool.GetTotalValAccum wc.Height wc.TotalPower).IsZero = false) :
    vi.CurrentCommissionRewards wc = (vi.WithdrawCommission wc).map fun r => r.2.2 := by
  unfold CurrentCommissionRewards WithdrawCommission TakeFeePoolRewards
  simp only [updated_total_eq, hnz]
  by_cases hgt : (vi.GetValAccum wc.Height wc.ValPower).GT
      (wc.FeePool.GetTotalValAccum wc.Height wc.TotalPower) = true
  · simp [hgt]
  · simp only [hgt]
    cases hq : DecCoins.QuoDec (DecCoins.MulDec wc.FeePool.ValPool
        (vi.GetValAccum wc.Height wc.ValPower))
        (wc.FeePool.GetTotalValAccum wc.Height wc.TotalPower) <;>
      simp [FeePool.UpdateTotalValAccum, hq]

/-- C7, the code at the failing input: the total accumulation at the height is
zero; the mutating path returns (delegator pool and commission as they were),
while both read-only projections panic on the division by the zero total. -/
theorem read_only_projections_panic_on_zero_total :
    (Example.consumedTotal.FeePool.GetTotalValAccum Example.consumedTotal.Height
        Example.consumedTotal.TotalPower).IsZero = true
      ∧ (Example.settledInfo.TakeFeePoolRewards Example.consumedTotal).map (fun r => r.1.DelPool)
          = some [⟨1, Dec.NewDecFromInt 2⟩]
      ∧ Example.settledInfo.CurrentPoolRewards Example.consumedTotal = none
      ∧ (Example.settledInfo.WithdrawCommission Example.consumedTotal).map (fun r => r.2.2)
          = some [⟨1, Dec.NewDecFromInt 1⟩]
      ∧ Example.settledInfo.CurrentCommissionRewards Example.consumedTotal = none := by
  decide

/-- C8: when the updated total validator accumulation `T` is not zero and the
validator's accumulation `a` is at most `T`, TakeFeePoolRewards returns; it
moves `w = ValPool × a / T` out of the fee pool's ValPool, adds
`w × CommissionRate` to ValCommission and `w − w × CommissionRate` to DelPool,
subtracts `a` from the total accumulation and sets FeePoolWithdrawalHeight to
the height, so that the validator's accumulation at that height is zero; `a`
is `ValPower × (Height − FeePoolWithdrawalHeight)` when the difference of the
heights is an int64. -/
theorem TakeFeePoolRewards_settles (vi : ValidatorDistInfo) (wc : WithdrawContext)
    (hnz : (wc.FeePool.GetTotalValAccum wc.Height wc.TotalPower).raw ≠ 0)
    (hle : (vi.GetValAccum wc.Height wc.ValPower).raw
      ≤ (wc.FeePool.GetTotalValAccum wc.Height wc.TotalPower).raw) :
    ∃ w vi1 fp1,
      (wc.FeePool.ValPool.MulDec (vi.GetValAccum wc.Height wc.ValPower)).QuoDec
          (wc.FeePool.GetTotalValAccum wc.Height wc.TotalPower) = some w
      ∧ vi.TakeFeePoolRewards wc = some (vi1, fp1)
      ∧ fp1.ValPool = wc.FeePool.ValPool.Minus w
      ∧ fp1.CommunityPool = wc.FeePool.CommunityPool
      ∧ vi1.ValCommission = vi.ValCommission.Plus (w.MulDec wc.CommissionRate)
      ∧ vi1.DelPool = vi.DelPool.Plus (w.Minus (w.MulDec wc.CommissionRate))
      ∧ fp1.TotalValAccum.Accum
          = (wc.FeePool.GetTotalValAccum wc.Height wc.TotalPower).Sub
              (vi.GetValAccum wc.Height wc.ValPower)
      ∧ fp1.TotalValAccum.UpdateHeight = wc.Height
      ∧ vi1.FeePoolWithdrawalHeight = wc.Height
      ∧ vi1.OperatorAddr = vi.OperatorAddr ∧ vi1.DelAccum = vi.DelAccum
      ∧ vi1.GetValAccum wc.Height wc.ValPower = Dec.ZeroDec
      ∧ (inInt64 (wc.Height - vi.FeePoolWithdrawalHeight) →
          vi.GetValAccum wc.Height wc.ValPower
            = wc.ValPower.MulInt (wc.Height - vi.FeePoolWithdrawalHeight)) := by
  have hnz1 : (wc.FeePool.GetTotalValAccum wc.Height wc.TotalPower).IsZero = false := by
    simpa [Dec.IsZero] using hnz
  have hgt : (vi.GetValAccum wc.Height wc.ValPower).GT
      (wc.FeePool.GetTotalValAccum wc.Height wc.TotalPower) = false := by
    simpa [Dec.GT] using hle
  obtain ⟨w, hw⟩ := DecCoins.QuoDec_some_of_ne_zero
    (wc.FeePool.ValPool.MulDec (vi.GetValAccum wc.Height wc.ValPower)) _ hnz1
  have hT : vi.TakeFeePoolRewards wc = some
      ({ vi with
          FeePoolWithdrawalHeight := wc.Height
          ValCommission := vi.ValCommission.Plus (w.MulDec wc.CommissionRate)
          DelPool := vi.DelPool.Plus (w.Minus (w.MulDec wc.CommissionRate)) },
       { TotalValAccum :=
           ⟨wc.Height, (wc.FeePool.GetTotalValAccum wc.Height wc.TotalPower).Sub
             (vi.GetValAccum wc.Height wc.ValPower)⟩
         ValPool := wc.FeePool.ValPool.Minus w
         CommunityPool := wc.FeePool.CommunityPool }) := by
    unfold TakeFeePoolRewards
    simp only [updated_total_eq, hnz1, hgt]
    simp only [FeePool.UpdateTotalValAccum, hw]
    rfl
  refine ⟨w, _, _, hw, hT, rfl, rfl, rfl, rfl, rfl, rfl, rfl, rfl, rfl, ?_, ?_⟩
  · simp [GetValAccum, wrapInt64_zero, Dec.MulInt, Dec.ZeroDec]
  · intro hr
    simp [GetValAccum, wrapInt64_of_inInt64 hr]

/-- C8, witness: a pool of 6 coins, total accumulation 3, the validator's
accumulation 3. -/
theorem TakeFeePoolRewards_settles_witness :
    ∃ w vi1 fp1,
      (Example.overdrawn.FeePool.ValPool.MulDec
          (Example.info.GetValAccum Example.fullShare.Height Example.fullShare.ValPower)).QuoDec
          (Example.overdrawn.FeePool.GetTotalValAccum Example.overdrawn.Height
            Example.overdrawn.TotalPower) = some w
      ∧ Example.info.TakeFeePoolRewards Example.fullShare
          = some (vi1, fp1)
      ∧ fp1.ValPool = Example.overdrawn.FeePool.ValPool.Minus w
      ∧ vi1.DelPool = Example.info.DelPool.Plus (w.Minus (w.MulDec Example.fullShare.CommissionRate)) := by
  obtain ⟨w, vi1, fp1, h1, h2, h3, _, _, h6, _⟩ :=
    TakeFeePoolRewards_settles Example.info Example.fullShare
      (by decide) (by decide)
  exact ⟨w, vi1, fp1, h1, h2, h3, h6⟩

end ValidatorDistInfo

/-! ## Theorems: staking -/

namespace KV

variable {κ ν : Type} [DecidableEq κ]

theorem get_set_self (m : KV κ ν) (k : κ) (v : ν) : (m.set k v).get k = some v := by
  induction m with
  | nil => simp [set, get]
  | cons p m ih =>
    obtain ⟨k1, v1⟩ := p
    by_cases h : k1 = k
    · simp [set, get, h]
    · simp [set, get, h, ih]

theorem get_set_of_ne (m : KV κ ν) {k k2 : κ} (v : ν) (h : k ≠ k2) :
    (m.set k v).get k2 = m.get k2 := by
  induction m with
  | nil => simp [set, get, h]
  | cons p m ih =>
    obtain ⟨k1, v1⟩ := p
    by_cases h1 : k1 = k
    · subst h1
      simp [set, get, h]
    · by_cases h2 : k1 = k2
      · subst h2
        simp [set, get, h1]
      · simp [set, get, h1, h2, ih]

theorem get_delete_self (m : KV κ ν) (k : κ) : (m.delete k).get k = none := by
  induction m with
  | nil => simp [delete, get]
  | cons p m ih =>
    obtain ⟨k1, v1⟩ := p
    by_cases h : k1 = k
    · simp [delete, h, ih]
    · simp [delete, get, h, ih]

theorem get_delete_of_ne (m : KV κ ν) {k k2 : κ} (h : k ≠ k2) :
    (m.delete k).get k2 = m.get k2 := by
  induction m with
  | nil => simp [delete, get]
  | cons p m ih =>
    obtain ⟨k1, v1⟩ := p
    by_cases h1 : k1 = k
    · subst h1
      simp [delete, get, h, ih]
    · by_cases h2 : k1 = k2
      · subst h2
        simp [delete, get, h1]
      · simp [delete, get, h1, h2, ih]

theorem mem_of_get {m : KV κ ν} {k : κ} {v : ν}
    (h : m.get k = some v) : (k, v) ∈ m := by
  induction m with
  | nil => simp [get] at h
  | cons p m ih =>
    obtain ⟨k1, v1⟩ := p
    by_cases h1 : k1 = k
    · subst h1
      simp [get] at h
      simp [h]
    · simp [get, h1] at h
      exact List.mem_cons_of_mem _ (ih h)

end KV

namespace Keeper

theorem sameOutsideDelegation_refl (s : Store) : sameOutsideDelegation s s :=
  ⟨rfl, rfl, rfl, rfl, rfl, rfl, rfl, rfl⟩

theorem bondedTokenToLoosen_accounts {p p1 : Pool} {t : Dec}
    (h : p.bondedTokenToLoosen t = some p1) :
    p1.BankKeeper.accounts = p.BankKeeper.accounts := by
  unfold Pool.bondedTokenToLoosen at h
  dsimp only at h
  split at h
  · simp at h
  · simp only [Option.some.injEq] at h
    subst h
    rfl

theorem loosenTokenToBonded_accounts {p p1 : Pool} {t : Dec}
    (h : p.loosenTokenToBonded t = some p1) :
    p1.BankKeeper.accounts = p.BankKeeper.accounts := by
  unfold Pool.loosenTokenToBonded at h
  dsimp only at h
  split at h
  · simp at h
  · simp only [Option.some.injEq] at h
    subst h
    rfl

theorem RemoveDelShares_spec {v v1 : Validator} {pool pool1 : Pool} {shares amount : Dec}
    (h : v.RemoveDelShares pool shares = some (v1, pool1, amount)) :
    pool1.BankKeeper.accounts = pool.BankKeeper.accounts
      ∧ amount = v.DelegatorShareExRate.Mul shares
      ∧ v1 = { v with Tokens := v.Tokens.Sub amount
                      DelegatorShares := v.DelegatorShares.Sub shares } := by
  unfold Validator.RemoveDelShares at h
  dsimp only at h
  split at h
  · split at h
    · simp at h
    · rename_i pool2 hp
      simp only [Option.some.injEq, Prod.mk.injEq] at h
      obtain ⟨hv, hp2, ha⟩ := h
      subst hp2 ha hv
      exact ⟨bondedTokenToLoosen_accounts hp, rfl, rfl⟩
  · simp only [Option.some.injEq, Prod.mk.injEq] at h
    obtain ⟨hv, hp2, ha⟩ := h
    subst hp2 ha hv
    exact ⟨rfl, rfl, rfl⟩

theorem RemoveValidatorTokensAndShares_frame {s s1 : Store} {v v1 : Validator}
    {shares amount : Dec}
    (h : RemoveValidatorTokensAndShares s v shares = some (s1, v1, amount)) :
    sameOutsideDelegation s s1 ∧ amount = v.DelegatorShareExRate.Mul shares
      ∧ v1 = { v with Tokens := v.Tokens.Sub amount
                      DelegatorShares := v.DelegatorShares.Sub shares }
      ∧ s1.delegations = s.delegations ∧ s1.hookCalls = s.hookCalls
      ∧ s1.validators = s.validators.set v1.OperatorAddr v1 := by
  unfold RemoveValidatorTokensAndShares at h
  split at h
  · simp at h
  · rename_i v2 pool1 removed heq
    simp only [Option.some.injEq, Prod.mk.injEq] at h
    obtain ⟨hs, hv, ha⟩ := h
    subst hs hv ha
    obtain ⟨hacc, hamt, hv⟩ := RemoveDelShares_spec heq
    refine ⟨⟨rfl, rfl, rfl, rfl, rfl, rfl, rfl, ?_⟩, hamt, hv, rfl, rfl, rfl⟩
    simpa [SetPool, SetValidator, GetPool] using hacc

theorem sameOutsideDelegation_trans {s s1 s2 : Store} (h1 : sameOutsideDelegation s s1)
    (h2 : sameOutsideDelegation s1 s2) : sameOutsideDelegation s s2 := by
  unfold sameOutsideDelegation at *
  obtain ⟨a1, a2, a3, a4, a5, a6, a7, a8⟩ := h1
  obtain ⟨b1, b2, b3, b4, b5, b6, b7, b8⟩ := h2
  exact ⟨b1.trans a1, b2.trans a2, b3.trans a3, b4.trans a4, b5.trans a5, b6.trans a6,
    b7.trans a7, b8.trans a8⟩

theorem sameOutsideDelegation_RemoveValidator (s : Store) (addr : Address) :
    sameOutsideDelegation s (RemoveValidator s addr) := by
  unfold RemoveValidator
  split
  · exact sameOutsideDelegation_refl s
  · exact ⟨rfl, rfl, rfl, rfl, rfl, rfl, rfl, rfl⟩

/-- A successful unbond leaves the unbonding delegations, the redelegations,
their indexes and queues and the accounts as they were, and returns the shares
at the exchange rate of the validator. -/
theorem unbond_ok_spec {ctx : Context} {s s1 : Store} {delAddr valAddr : Address}
    {shares amount : Dec} (h : unbond ctx s delAddr valAddr shares = .ok s1 amount) :
    sameOutsideDelegation s s1
      ∧ ∃ v, GetValidator s valAddr = some v ∧ amount = v.DelegatorShareExRate.Mul shares := by
  unfold unbond at h
  split at h
  · simp at h
  · rename_i delegation hdel
    dsimp only at h
    split at h
    · simp at h
    · split at h
      · simp at h
      · rename_i validator hval
        have hval0 : GetValidator s valAddr = some validator := by
          simpa [GetValidator, OnDelegationSharesModified] using hval
        split at h
        · simp at h
        · rename_i s3 validator2 hstep
          have hstep2 : sameOutsideDelegation s s3
              ∧ validator2.DelegatorShareExRate = validator.DelegatorShareExRate := by
            split at hstep
            · split at hstep
              · split at hstep
                · simp at hstep
                · rename_i s2 hjail
                  unfold jailValidator at hjail
                  split at hjail
                  · simp at hjail
                  · simp only [Option.some.injEq] at hjail
                    subst hjail
                    simp only [mustGetValidator, GetValidator, SetValidator,
                      KV.get_set_self, Option.some.injEq, Prod.mk.injEq] at hstep
                    obtain ⟨hs, hv⟩ := hstep
                    subst hs hv
                    exact ⟨⟨rfl, rfl, rfl, rfl, rfl, rfl, rfl, rfl⟩, rfl⟩
              · simp only [Option.some.injEq, Prod.mk.injEq] at hstep
                obtain ⟨hs, hv⟩ := hstep
                subst hs hv
                exact ⟨⟨rfl, rfl, rfl, rfl, rfl, rfl, rfl, rfl⟩, rfl⟩
            · simp only [Option.some.injEq, Prod.mk.injEq] at hstep
              obtain ⟨hs, hv⟩ := hstep
              subst hs hv
              exact ⟨⟨rfl, rfl, rfl, rfl, rfl, rfl, rfl, rfl⟩, rfl⟩
          split at h
          · simp at h
          · rename_i s4 validator3 amount1 hrem
            obtain ⟨hframe, hamt, -⟩ := RemoveValidatorTokensAndShares_frame hrem
            have hs34 := sameOutsideDelegation_trans hstep2.1 hframe
            split at h
            · simp only [Res.ok.injEq] at h
              obtain ⟨hs, ha⟩ := h
              subst hs ha
              exact ⟨sameOutsideDelegation_trans hs34 (sameOutsideDelegation_RemoveValidator _ _),
                validator, hval0, by rw [hamt, hstep2.2]⟩
            · simp only [Res.ok.injEq] at h
              obtain ⟨hs, ha⟩ := h
              subst hs ha
              exact ⟨hs34, validator, hval0, by rw [hamt, hstep2.2]⟩

theorem AddCoins_eq_some (b : BankKeeper) (addr : Address) (amt : Coin)
    (h : 0 ≤ b.GetCoins addr amt.Denom + amt.Amount) :
    b.AddCoins addr amt
      = some { b with accounts :=
                 b.accounts.set (addr, amt.Denom) (b.GetCoins addr amt.Denom + amt.Amount) } := by
  unfold BankKeeper.AddCoins
  simp [not_lt.mpr h]

theorem AddCoins_spec {b b1 : BankKeeper} {addr : Address} {amt : Coin}
    (h : b.AddCoins addr amt = some b1) :
    b1.GetCoins addr amt.Denom = b.GetCoins addr amt.Denom + amt.Amount
      ∧ b1.loosenTokens = b.loosenTokens := by
  unfold BankKeeper.AddCoins at h
  dsimp only at h
  split at h
  · simp at h
  · simp only [Option.some.injEq] at h
    subst h
    simp [BankKeeper.GetCoins, KV.get_set_self]

theorem GetUnbondingDelegation_addrs {s : Store} {delAddr valAddr : Address}
    {ubd : UnbondingDelegation} (h : GetUnbondingDelegation s delAddr valAddr = some ubd) :
    ubd.DelegatorAddr = delAddr ∧ ubd.ValidatorAddr = valAddr := by
  unfold GetUnbondingDelegation at h
  cases hg : s.ubds.get (delAddr, valAddr) with
  | none => simp [hg] at h
  | some u =>
    simp only [hg, Option.map_some', Option.some.injEq] at h
    subst h
    exact ⟨rfl, rfl⟩

/-- Storing an unbonding delegation and queueing it: the record is the one
read back under its key, and its pair is the last of the timeslice at its
maturity time. -/
theorem store_and_queue_spec (s : Store) (ubd : UnbondingDelegation) :
    GetUnbondingDelegation (InsertUnbondingQueue (SetUnbondingDelegation s ubd) ubd)
        ubd.DelegatorAddr ubd.ValidatorAddr = some ubd
      ∧ GetUnbondingQueueTimeSlice (InsertUnbondingQueue (SetUnbondingDelegation s ubd) ubd)
          ubd.MinTime
        = GetUnbondingQueueTimeSlice s ubd.MinTime ++ [⟨ubd.DelegatorAddr, ubd.ValidatorAddr⟩] := by
  have hq : GetUnbondingQueueTimeSlice (SetUnbondingDelegation s ubd) ubd.MinTime
      = GetUnbondingQueueTimeSlice s ubd.MinTime := rfl
  constructor
  · unfold InsertUnbondingQueue
    dsimp only
    split <;>
      simp [GetUnbondingDelegation, SetUnbondingQueueTimeSlice, SetUnbondingDelegation,
        KV.get_set_self]
  · unfold InsertUnbondingQueue
    dsimp only
    rw [hq]
    split
    · rename_i hlen
      have hnil : GetUnbondingQueueTimeSlice s ubd.MinTime = [] := List.length_eq_zero.mp hlen
      simp [GetUnbondingQueueTimeSlice, SetUnbondingQueueTimeSlice, KV.get_set_self] at hnil ⊢
      simp [hnil]
    · simp [GetUnbondingQueueTimeSlice, SetUnbondingQueueTimeSlice, KV.get_set_self]

/-- C1, as amended: CompleteUnbonding makes no maturity check. When no record
exists for the pair, it fails with the no-unbonding-delegation error and leaves
the store as it is. For every pending unbonding delegation, whatever its
MinTime and the block time, it returns without error, credits the entry's
balance to the delegator and removes the record when the credit does not leave
a negative balance; when it would, the call fails with the error of the credit
and leaves the store as it is. -/
theorem CompleteUnbonding_ignores_maturity (ctx : Context) (s : Store)
    (delAddr valAddr : Address) :
    (GetUnbondingDelegation s delAddr valAddr = none →
        CompleteUnbonding ctx s delAddr valAddr = .err s .ErrNoUnbondingDelegation ())
      ∧ (∀ ubd, GetUnbondingDelegation s delAddr valAddr = some ubd →
          0 ≤ s.bank.GetCoins delAddr ubd.Balance.Denom + ubd.Balance.Amount →
          ∃ s1, CompleteUnbonding ctx s delAddr valAddr = .ok s1 ()
            ∧ s1.bank.GetCoins delAddr ubd.Balance.Denom
                = s.bank.GetCoins delAddr ubd.Balance.Denom + ubd.Balance.Amount
            ∧ GetUnbondingDelegation s1 delAddr valAddr = none)
      ∧ (∀ ubd, GetUnbondingDelegation s delAddr valAddr = some ubd →
          s.bank.GetCoins delAddr ubd.Balance.Denom + ubd.Balance.Amount < 0 →
          CompleteUnbonding ctx s delAddr valAddr = .err s .ErrInsufficientCoins ()) := by
  refine ⟨?_, ?_, ?_⟩
  · intro hnone
    unfold CompleteUnbonding
    rw [hnone]
  · intro ubd hfound hcredit
    obtain ⟨hd, hv⟩ := GetUnbondingDelegation_addrs hfound
    unfold CompleteUnbonding
    rw [hfound]
    dsimp only
    rw [hd]
    rw [AddCoins_eq_some _ _ _ hcredit]
    refine ⟨_, rfl, ?_, ?_⟩
    · simp [RemoveUnbondingDelegation, BankKeeper.GetCoins, KV.get_set_self]
    · simp [RemoveUnbondingDelegation, GetUnbondingDelegation, hd, hv, KV.get_delete_self]
  · intro ubd hfound hneg
    obtain ⟨hd, -⟩ := GetUnbondingDelegation_addrs hfound
    have hadd : s.bank.AddCoins delAddr ubd.Balance = none := by
      unfold BankKeeper.AddCoins
      dsimp only
      rw [if_pos hneg]
    unfold CompleteUnbonding
    rw [hfound]
    dsimp only
    rw [hd, hadd]

/-- C2, as amended: for every successful BeginUnbonding at a block height
below the undelegate patch height whose source validator is in Unbonded status
when it is called, no unbonding-delegation record is stored, no entry is added
to the unbonding queue, and the truncated token amount removed from the
validator is credited to the delegator's account at once. -/
theorem BeginUnbonding_unbonded_before_patch (k : Keeper) (H001_UNDELEGATE_PATCH : Int)
    (ctx : Context) (s s1 : Store) (delAddr valAddr : Address) (sharesAmount : Dec)
    (v : Validator) (ubd : UnbondingDelegation)
    (hpatch : ctx.BlockHeight < H001_UNDELEGATE_PATCH)
    (hval : GetValidator s valAddr = some v) (hstatus : v.Status = Unbonded)
    (hok : BeginUnbonding k H001_UNDELEGATE_PATCH ctx s delAddr valAddr sharesAmount
      = .ok s1 ubd) :
    ∃ s0 returnAmount,
      unbond ctx s delAddr valAddr sharesAmount = .ok s0 returnAmount
      ∧ returnAmount = v.DelegatorShareExRate.Mul sharesAmount
      ∧ s1.ubds = s.ubds ∧ s1.ubdsByValIndex = s.ubdsByValIndex
      ∧ GetUnbondingDelegation s1 delAddr valAddr = none
      ∧ s1.unbondingQueue = s.unbondingQueue
      ∧ s1.bank.GetCoins delAddr k.BondDenom
          = s.bank.GetCoins delAddr k.BondDenom + returnAmount.TruncateInt
      ∧ ubd.Balance = NewCoin k.BondDenom returnAmount.TruncateInt := by
  unfold BeginUnbonding at hok
  split at hok
  · simp at hok
  · rename_i hnone
    simp only [hpatch, if_true] at hok
    have hinfo : getBeginInfo k ctx s valAddr = some (0, 0, true) := by
      unfold getBeginInfo
      rw [hval]
      simp [hstatus, Unbonded, Bonded]
    rw [hinfo] at hok
    dsimp only at hok
    split at hok
    · simp at hok
    · simp at hok
    · rename_i s0 returnAmount hunbond
      obtain ⟨hframe, v2, hv2, hamt⟩ := unbond_ok_spec hunbond
      have hvv : v2 = v := by
        rw [hval] at hv2
        exact (Option.some.inj hv2).symm
      subst hvv
      simp only [if_true] at hok
      split at hok
      · simp at hok
      · rename_i b hadd
        simp only [Res.ok.injEq] at hok
        obtain ⟨hs, hu⟩ := hok
        subst hs hu
        obtain ⟨h1, h2, h3, -, -, -, -, h8⟩ := hframe
        obtain ⟨hcoins, -⟩ := AddCoins_spec hadd
        refine ⟨s0, returnAmount, hunbond, hamt, h1, h2, ?_, h3, ?_, rfl⟩
        · have : GetUnbondingDelegation s0 delAddr valAddr
              = GetUnbondingDelegation s delAddr valAddr := by
            simp [GetUnbondingDelegation, h1]
          simpa [GetUnbondingDelegation] using this.trans hnone
        · have hget : s0.bank.GetCoins delAddr k.BondDenom = s.bank.GetCoins delAddr k.BondDenom := by
            simp [BankKeeper.GetCoins, h8]
          simpa [NewCoin, hget] using hcoins

/-- C10, as amended: for every successful BeginUnbonding whose source validator
is not in Unbonded status, the stored unbonding delegation is the one returned,
its Balance and InitialBalance are the truncated token amount removed from the
validator, and the pair (delegator, validator) is appended to the queue
timeslice at its MinTime. MinTime is block time + unbonding period from the
undelegate patch height on, and before it for a Bonded validator; before the
patch height, for an Unbonding validator, it is the validator's
UnbondingMinTime. -/
theorem BeginUnbonding_stores_entry (k : Keeper) (H001_UNDELEGATE_PATCH : Int)
    (ctx : Context) (s s1 : Store) (delAddr valAddr : Address) (sharesAmount : Dec)
    (v : Validator) (ubd : UnbondingDelegation)
    (hval : GetValidator s valAddr = some v) (hstatus : v.Status ≠ Unbonded)
    (hok : BeginUnbonding k H001_UNDELEGATE_PATCH ctx s delAddr valAddr sharesAmount
      = .ok s1 ubd) :
    ∃ s0 returnAmount,
      unbond ctx s delAddr valAddr sharesAmount = .ok s0 returnAmount
      ∧ returnAmount = v.DelegatorShareExRate.Mul sharesAmount
      ∧ GetUnbondingDelegation s1 delAddr valAddr = some ubd
      ∧ ubd.Balance = NewCoin k.BondDenom returnAmount.TruncateInt
      ∧ ubd.InitialBalance = NewCoin k.BondDenom returnAmount.TruncateInt
      ∧ ubd.MinTime
          = (if H001_UNDELEGATE_PATCH ≤ ctx.BlockHeight ∨ v.Status = Bonded
              then ctx.BlockTime + k.UnbondingTime else v.UnbondingMinTime)
      ∧ GetUnbondingQueueTimeSlice s1 ubd.MinTime
          = GetUnbondingQueueTimeSlice s ubd.MinTime ++ [⟨delAddr, valAddr⟩]
      ∧ s1.bank.accounts = s.bank.accounts := by
  unfold BeginUnbonding at hok
  split at hok
  · simp at hok
  · by_cases hpatch : ctx.BlockHeight < H001_UNDELEGATE_PATCH
    · simp only [hpatch, if_true] at hok
      have hinfo : getBeginInfo k ctx s valAddr
          = (if v.Status = Bonded then some (ctx.BlockTime + k.UnbondingTime, ctx.BlockHeight, false)
             else if v.Status = Unbonding then
               some (v.UnbondingMinTime, v.UnbondingHeight, false)
             else none) := by
        unfold getBeginInfo
        rw [hval]
        simp [hstatus]
      rw [hinfo] at hok
      by_cases hb : v.Status = Bonded
      · simp only [hb, if_true] at hok
        split at hok
        · simp at hok
        · simp at hok
        · rename_i s0 returnAmount hunbond
          obtain ⟨hframe, v2, hv2, hamt⟩ := unbond_ok_spec hunbond
          have hvv : v2 = v := by
            rw [hval] at hv2
            exact (Option.some.inj hv2).symm
          subst hvv
          simp only [Bool.false_eq_true, if_false, Res.ok.injEq] at hok
          obtain ⟨hs, hu⟩ := hok
          subst hs hu
          obtain ⟨-, -, h3, -, -, -, -, h8⟩ := hframe
          have hsq := store_and_queue_spec s0
            { TxHash := ctx.CoinFlowTrigger, DelegatorAddr := delAddr, ValidatorAddr := valAddr,
              CreationHeight := ctx.BlockHeight, MinTime := ctx.BlockTime + k.UnbondingTime,
              Balance := NewCoin k.BondDenom returnAmount.TruncateInt,
              InitialBalance := NewCoin k.BondDenom returnAmount.TruncateInt }
          refine ⟨s0, returnAmount, hunbond, hamt, hsq.1, rfl, rfl, ?_, ?_, ?_⟩
          · simp [hb]
          · rw [hsq.2]
            simp [GetUnbondingQueueTimeSlice, h3]
          · unfold InsertUnbondingQueue
            dsimp only
            split <;> exact h8
      · have hu : v.Status = Unbonding ∨ (v.Status ≠ Bonded ∧ v.Status ≠ Unbonding) := by
          by_cases h : v.Status = Unbonding
          · exact Or.inl h
          · exact Or.inr ⟨hb, h⟩
        rcases hu with hu | ⟨-, hnu⟩
        · rw [if_neg hb, if_pos hu] at hok
          dsimp only at hok
          split at hok
          · simp at hok
          · simp at hok
          · rename_i s0 returnAmount hunbond
            obtain ⟨hframe, v2, hv2, hamt⟩ := unbond_ok_spec hunbond
            have hvv : v2 = v := by
              rw [hval] at hv2
              exact (Option.some.inj hv2).symm
            subst hvv
            simp only [Bool.false_eq_true, if_false, Res.ok.injEq] at hok
            obtain ⟨hs, hu2⟩ := hok
            subst hs hu2
            obtain ⟨-, -, h3, -, -, -, -, h8⟩ := hframe
            have hsq := store_and_queue_spec s0
              { TxHash := ctx.CoinFlowTrigger, DelegatorAddr := delAddr, ValidatorAddr := valAddr,
                CreationHeight := v2.UnbondingHeight, MinTime := v2.UnbondingMinTime,
                Balance := NewCoin k.BondDenom returnAmount.TruncateInt,
                InitialBalance := NewCoin k.BondDenom returnAmount.TruncateInt }
            refine ⟨s0, returnAmount, hunbond, hamt, hsq.1, rfl, rfl, ?_, ?_, ?_⟩
            · have : ¬ (H001_UNDELEGATE_PATCH ≤ ctx.BlockHeight) := not_le.mpr hpatch
              simp [hb, this]
            · rw [hsq.2]
              simp [GetUnbondingQueueTimeSlice, h3]
            · unfold InsertUnbondingQueue
              dsimp only
              split <;> exact h8
        · simp [hb, hnu] at hok
    · rw [if_neg hpatch] at hok
      split at hok
      · simp at hok
      · simp at hok
      · rename_i s0 returnAmount hunbond
        obtain ⟨hframe, v2, hv2, hamt⟩ := unbond_ok_spec hunbond
        have hvv : v2 = v := by
          rw [hval] at hv2
          exact (Option.some.inj hv2).symm
        subst hvv
        simp only [Res.ok.injEq] at hok
        obtain ⟨hs, hu⟩ := hok
        subst hs hu
        obtain ⟨-, -, h3, -, -, -, -, h8⟩ := hframe
        have hsq := store_and_queue_spec s0
          { TxHash := ctx.CoinFlowTrigger, DelegatorAddr := delAddr, ValidatorAddr := valAddr,
            CreationHeight := ctx.BlockHeight, MinTime := ctx.BlockTime + k.UnbondingTime,
            Balance := NewCoin k.BondDenom returnAmount.TruncateInt,
            InitialBalance := NewCoin k.BondDenom returnAmount.TruncateInt }
        refine ⟨s0, returnAmount, hunbond, hamt, hsq.1, rfl, rfl, ?_, ?_, ?_⟩
        · have : H001_UNDELEGATE_PATCH ≤ ctx.BlockHeight := not_lt.mp hpatch
          simp [this]
        · rw [hsq.2]
          simp [GetUnbondingQueueTimeSlice, h3]
        · unfold InsertUnbondingQueue
          dsimp only
          split <;> exact h8

/-- C1, counterexample: the pending unbonding delegation matures at time 1000,
the block time is 333; CompleteUnbonding returns without error, credits the 4
coins to the delegator and removes the record and its index key. -/
theorem CompleteUnbonding_before_maturity_succeeds :
    Example.ctx.BlockTime < Example.pendingUbd.MinTime
      ∧ GetUnbondingDelegation Example.pendingStore 7 1 = some Example.pendingUbd
      ∧ CompleteUnbonding Example.ctx Example.pendingStore 7 1
          = .ok { Example.store with bank := ⟨10, [((7, 1), 4)]⟩ } () := by
  decide

/-- C1, witness: the pending unbonding delegation that matures at time 1000 is
completed at block time 333; for delegator 7 and validator 1 of the example
store, which holds no unbonding delegation, the call fails with the
no-unbonding-delegation error. -/
theorem CompleteUnbonding_ignores_maturity_witness :
    Example.ctx.BlockTime < Example.pendingUbd.MinTime
      ∧ (∃ s1, CompleteUnbonding Example.ctx Example.pendingStore 7 1 = .ok s1 ()
        ∧ s1.bank.GetCoins 7 Example.pendingUbd.Balance.Denom
            = Example.pendingStore.bank.GetCoins 7 Example.pendingUbd.Balance.Denom
              + Example.pendingUbd.Balance.Amount
        ∧ GetUnbondingDelegation s1 7 1 = none)
      ∧ CompleteUnbonding Example.ctx Example.store 7 1
          = .err Example.store .ErrNoUnbondingDelegation () :=
  ⟨by decide,
    (CompleteUnbonding_ignores_maturity Example.ctx Example.pendingStore 7 1).2.1
      Example.pendingUbd (by decide) (by decide),
    (CompleteUnbonding_ignores_maturity Example.ctx Example.store 7 1).1 (by decide)⟩

/-- C2, counterexample: at block height 10, with the undelegate patch at height
5, BeginUnbonding from the Unbonded validator 1 succeeds, stores an unbonding
delegation that matures at 333 + 100, queues it, and credits nothing. -/
theorem BeginUnbonding_unbonded_after_patch_stores :
    (GetValidator Example.store 1).map (fun v => v.Status) = some Unbonded
      ∧ (BeginUnbonding Example.keeper 5 Example.ctx Example.store 7 1 Example.six).isOk = true
      ∧ (BeginUnbonding Example.keeper 5 Example.ctx Example.store 7 1 Example.six).store?.map
          (fun s1 => (GetUnbondingDelegation s1 7 1, GetUnbondingQueueTimeSlice s1 433,
            s1.bank.GetCoins 7 1))
        = some (some ⟨"tx", 7, 1, 10, 433, ⟨1, 6⟩, ⟨1, 6⟩⟩, [⟨7, 1⟩], 0) := by
  decide

/-- The result of BeginUnbonding of 6 shares from the Unbonded validator 1 at
height 10, before a patch height of 100. -/
theorem BeginUnbonding_example_before_patch :
    BeginUnbonding Example.keeper 100 Example.ctx Example.store 7 1 Example.six
      = .ok { Example.store with
              delegations := [((7, 1), ⟨7, 1, Dec.NewDecFromInt 4, 10⟩)]
              validators := [(1, ⟨1, false, Unbonded, Dec.NewDecFromInt 4, Dec.NewDecFromInt 4, 0, 0⟩),
                (2, ⟨2, false, Bonded, Example.ten, Example.ten, 0, 0⟩)]
              bank := ⟨10, [((7, 1), 6)]⟩
              hookCalls := [.OnDelegationSharesModified 7 1] }
          { UnbondingDelegation.zero with Balance := ⟨1, 6⟩ } := by
  decide

/-- C2, witness: 6 of the 10 shares of the Unbonded validator 1, at height 10
before a patch height of 100. -/
theorem BeginUnbonding_unbonded_before_patch_witness :
    ∃ s1 ubd s0 returnAmount,
      BeginUnbonding Example.keeper 100 Example.ctx Example.store 7 1 Example.six = .ok s1 ubd
      ∧ unbond Example.ctx Example.store 7 1 Example.six = .ok s0 returnAmount
      ∧ s1.ubds = Example.store.ubds
      ∧ s1.unbondingQueue = Example.store.unbondingQueue
      ∧ s1.bank.GetCoins 7 Example.keeper.BondDenom
          = Example.store.bank.GetCoins 7 Example.keeper.BondDenom + returnAmount.TruncateInt := by
  obtain ⟨s0, returnAmount, h1, -, h3, -, -, h6, h7, -⟩ :=
    BeginUnbonding_unbonded_before_patch Example.keeper 100 Example.ctx Example.store _ 7 1
      Example.six ⟨1, false, Unbonded, Example.ten, Example.ten, 0, 0⟩ _
      (by decide) (by decide) (by decide) BeginUnbonding_example_before_patch
  exact ⟨_, _, s0, returnAmount, BeginUnbonding_example_before_patch, h1, h3, h6, h7⟩

/-- C3, the code at the failing input: validator 1 is Unbonded and delegator 7
redelegates its 10 shares, the validator's last, to validator 2. The call
succeeds, and a redelegation record that matures at 333 + 100 is stored and
queued: unbond has deleted the source validator before getBeginInfo looks it
up. -/
theorem BeginRedelegation_last_shares_stores_record :
    (GetValidator Example.store 1).map (fun v => v.Status) = some Unbonded
      ∧ (BeginRedelegation Example.keeper Example.ctx Example.store 7 1 2 Example.ten).isOk = true
      ∧ (BeginRedelegation Example.keeper Example.ctx Example.store 7 1 2 Example.ten).store?.map
          (fun s1 => (GetValidator s1 1, GetRedelegation s1 7 1 2,
            GetRedelegationQueueTimeSlice s1 433))
        = some (none,
            some ⟨7, 1, 2, 10, 433, ⟨1, 10⟩, ⟨1, 10⟩, Example.ten, Example.ten⟩, [⟨7, 1, 2⟩]) := by
  decide

/-- The same redelegation of 6 of the 10 shares leaves the Unbonded source
validator in place, and no record is stored or queued. -/
theorem BeginRedelegation_some_shares_stores_nothing :
    (BeginRedelegation Example.keeper Example.ctx Example.store 7 1 2 Example.six).isOk = true
      ∧ (BeginRedelegation Example.keeper Example.ctx Example.store 7 1 2 Example.six).store?.map
          (fun s1 => (GetRedelegation s1 7 1 2, s1.redelegationQueue))
        = some (none, []) := by
  decide

/-- C4, as amended: BeginRedelegation(delegator, src, dst, shares) is rejected
with the transitive-redelegation error, the store untouched, whenever the
source validator src is receiving a pending redelegation of the same delegator
(the by-destination index holds a key (delegator, X, src) for some X), src is
not dst, and no redelegation (delegator, src, dst) is pending. -/
theorem BeginRedelegation_transitive (k : Keeper) (ctx : Context) (s : Store)
    (delAddr valSrcAddr valDstAddr X : Address) (sharesAmount : Dec)
    (hne : valSrcAddr ≠ valDstAddr)
    (hnone : GetRedelegation s delAddr valSrcAddr valDstAddr = none)
    (hrecv : s.redsByValDstIndex.get (delAddr, X, valSrcAddr) = some ()) :
    BeginRedelegation k ctx s delAddr valSrcAddr valDstAddr sharesAmount
      = .err s .ErrTransitiveRedelegation Redelegation.zero := by
  have hhas : HasReceivingRedelegation s delAddr valSrcAddr = true := by
    unfold HasReceivingRedelegation
    rw [List.any_eq_true]
    exact ⟨_, KV.mem_of_get hrecv, by simp⟩
  unfold BeginRedelegation
  rw [if_neg hne, hnone]
  dsimp only
  rw [if_pos hhas]

/-- C4, counterexample: delegator 7 has a pending redelegation out of validator
2 (into validator 3), and BeginRedelegation from validator 1 into validator 2
is not rejected: it succeeds. -/
theorem BeginRedelegation_into_redelegating_validator_succeeds :
    (GetRedelegation Example.outgoingStore 7 2 3).isSome = true
      ∧ (BeginRedelegation Example.keeper Example.ctx Example.outgoingStore 7 1 2
          Example.six).isOk = true := by
  decide

/-- C4, witness: delegator 7 has a pending redelegation from validator 3 into
validator 1, and redelegates from validator 1 to validator 2. -/
theorem BeginRedelegation_transitive_witness :
    BeginRedelegation Example.keeper Example.ctx Example.incomingStore 7 1 2 Example.six
      = .err Example.incomingStore .ErrTransitiveRedelegation Redelegation.zero :=
  BeginRedelegation_transitive Example.keeper Example.ctx Example.incomingStore 7 1 2 3
    Example.six (by decide) (by decide) (by decide)

/-- C10, counterexample: before the patch height, validator 1 is in Unbonding
status until time 400; BeginUnbonding succeeds and the stored unbonding
delegation matures at 400, not at block time + unbonding period = 433. -/
theorem BeginUnbonding_unbonding_validator_min_time :
    (GetValidator Example.unbondingStore 1).map (fun v => v.Status) = some Unbonding
      ∧ Example.ctx.BlockTime + Example.keeper.UnbondingTime = 433
      ∧ (BeginUnbonding Example.keeper 100 Example.ctx Example.unbondingStore 7 1
          Example.six).isOk = true
      ∧ (BeginUnbonding Example.keeper 100 Example.ctx Example.unbondingStore 7 1
          Example.six).store?.map (fun s1 => GetUnbondingDelegation s1 7 1)
        = some (some ⟨"tx", 7, 1, 8, 400, ⟨1, 6⟩, ⟨1, 6⟩⟩) := by
  decide

/-- The result of BeginUnbonding of 6 shares from validator 1 in Unbonding
status, at height 10, before a patch height of 100. -/
theorem BeginUnbonding_example_unbonding :
    BeginUnbonding Example.keeper 100 Example.ctx Example.unbondingStore 7 1 Example.six
      = .ok { Example.unbondingStore with
              delegations := [((7, 1), ⟨7, 1, Dec.NewDecFromInt 4, 10⟩)]
              validators := [(1, ⟨1, false, Unbonding, Dec.NewDecFromInt 4, Dec.NewDecFromInt 4, 8, 400⟩),
                (2, ⟨2, false, Bonded, Example.ten, Example.ten, 0, 0⟩)]
              ubds := [((7, 1), ⟨"tx", 7, 1, 8, 400, ⟨1, 6⟩, ⟨1, 6⟩⟩)]
              ubdsByValIndex := [((1, 7), ())]
              unbondingQueue := [(400, [⟨7, 1⟩])]
              hookCalls := [.OnDelegationSharesModified 7 1] }
          ⟨"tx", 7, 1, 8, 400, ⟨1, 6⟩, ⟨1, 6⟩⟩ := by
  decide

/-- C10, witness: 6 shares of validator 1 in Unbonding status, at height 10
before a patch height of 100. -/
theorem BeginUnbonding_stores_entry_witness :
    ∃ s1 ubd,
      BeginUnbonding Example.keeper 100 Example.ctx Example.unbondingStore 7 1 Example.six
        = .ok s1 ubd
      ∧ GetUnbondingDelegation s1 7 1 = some ubd
      ∧ ubd.InitialBalance = ubd.Balance
      ∧ ubd.MinTime = 400
      ∧ GetUnbondingQueueTimeSlice s1 ubd.MinTime
          = GetUnbondingQueueTimeSlice Example.unbondingStore ubd.MinTime ++ [⟨7, 1⟩] := by
  obtain ⟨s0, returnAmount, -, -, h3, h4, h5, h6, h7, -⟩ :=
    BeginUnbonding_stores_entry Example.keeper 100 Example.ctx Example.unbondingStore _ 7 1
      Example.six ⟨1, false, Unbonding, Example.ten, Example.ten, 8, 400⟩ _
      (by decide) (by decide) BeginUnbonding_example_unbonding
  exact ⟨_, _, BeginUnbonding_example_unbonding, h3, h5.trans h4.symm, by decide, h7⟩

/-- C9: slashUnbondingDelegation returns zero and leaves the store unchanged
when the entry's creation height is below the infraction height or its
maturity time is before the block time. Otherwise it slashes
`min (fraction × InitialBalance, Balance)`, the product rounded to an integer:
the stored entry is the given one with its Balance reduced by that amount and
its InitialBalance unchanged, the same amount leaves the loose tokens, and the
amount is at least zero and at most the Balance, so the Balance never goes
below zero. Amounts and fraction are not negative. -/
theorem slashUnbondingDelegation_spec (ctx : Context) (s : Store) (ubd : UnbondingDelegation)
    (infractionHeight : Int) (slashFactor : Dec)
    (hbal : 0 ≤ ubd.Balance.Amount) (hinit : 0 ≤ ubd.InitialBalance.Amount)
    (hfactor : 0 ≤ slashFactor.raw) :
    (ubd.CreationHeight < infractionHeight ∨ ubd.MinTime < ctx.BlockTime →
        slashUnbondingDelegation ctx s ubd infractionHeight slashFactor = (s, Dec.ZeroDec))
      ∧ (¬ (ubd.CreationHeight < infractionHeight ∨ ubd.MinTime < ctx.BlockTime) →
          ∃ slash : Int,
            slash = min (slashFactor.MulInt ubd.InitialBalance.Amount).RoundInt ubd.Balance.Amount
            ∧ 0 ≤ slash ∧ slash ≤ ubd.Balance.Amount ∧ 0 ≤ ubd.Balance.Amount - slash
            ∧ (slashUnbondingDelegation ctx s ubd infractionHeight slashFactor).1.bank.loosenTokens
                = s.bank.loosenTokens - slash
            ∧ (slash ≠ 0 →
                GetUnbondingDelegation
                    (slashUnbondingDelegation ctx s ubd infractionHeight slashFactor).1
                    ubd.DelegatorAddr ubd.ValidatorAddr
                  = some { ubd with
                      Balance := { ubd.Balance with Amount := ubd.Balance.Amount - slash } })
            ∧ (slash = 0 →
                (slashUnbondingDelegation ctx s ubd infractionHeight slashFactor).1 = s)) := by
  constructor
  · intro h
    unfold slashUnbondingDelegation
    dsimp only
    rcases h with h | h
    · rw [if_pos h]
    · by_cases hc : ubd.CreationHeight < infractionHeight
      · rw [if_pos hc]
      · rw [if_neg hc, if_pos h]
  · intro h
    have h1 : ¬ ubd.CreationHeight < infractionHeight := fun hc => h (Or.inl hc)
    have h2 : ¬ ubd.MinTime < ctx.BlockTime := fun hc => h (Or.inr hc)
    have hround : 0 ≤ (slashFactor.MulInt ubd.InitialBalance.Amount).RoundInt :=
      Dec.chopPrecisionAndRound_nonneg (Int.mul_nonneg hfactor hinit)
    refine ⟨_, rfl, le_min hround hbal, min_le_right _ _, ?_, ?_, ?_, ?_⟩
    · have := min_le_right (slashFactor.MulInt ubd.InitialBalance.Amount).RoundInt
        ubd.Balance.Amount
      omega
    · unfold slashUnbondingDelegation
      dsimp only
      rw [if_neg h1, if_neg h2]
      split
      · rfl
      · rename_i hz
        have hz0 : min (slashFactor.MulInt ubd.InitialBalance.Amount).RoundInt
            ubd.Balance.Amount = 0 := by simpa using hz
        simp [hz0]
    · intro hnz
      unfold slashUnbondingDelegation
      dsimp only
      rw [if_neg h1, if_neg h2, if_pos hnz]
      simp [GetUnbondingDelegation, SetUnbondingDelegation, KV.get_set_self]
    · intro hz
      unfold slashUnbondingDelegation
      dsimp only
      rw [if_neg h1, if_neg h2, if_neg (not_not.mpr hz)]

/-- C9, witness: the pending unbonding delegation of 4 coins, slashed by a half
at block time 333 for an infraction at height 5. -/
theorem slashUnbondingDelegation_spec_witness :
    ∃ slash : Int,
      slash = min ((Dec.NewDecWithPrec 5 1).MulInt Example.pendingUbd.InitialBalance.Amount).RoundInt
        Example.pendingUbd.Balance.Amount
      ∧ slash = 2
      ∧ (slashUnbondingDelegation Example.ctx Example.pendingStore Example.pendingUbd 5
          (Dec.NewDecWithPrec 5 1)).1.bank.loosenTokens
          = Example.pendingStore.bank.loosenTokens - slash := by
  obtain ⟨slash, h1, -, -, -, h5, -, -⟩ :=
    (slashUnbondingDelegation_spec Example.ctx Example.pendingStore Example.pendingUbd 5
      (Dec.NewDecWithPrec 5 1) (by decide) (by decide) (by decide)).2 (by decide)
  exact ⟨slash, h1, by rw [h1]; decide, h5⟩

end Keeper

namespace Slashing

theorem updateMissedBlock_frame (st : State) (consAddr : Address) (index : Int)
    (signInfo : ValidatorSigningInfo) (signed : Bool) :
    (updateMissedBlock st consAddr index signInfo signed).1.validatorSet = st.validatorSet
      ∧ (updateMissedBlock st consAddr index signInfo signed).1.slashCalls = st.slashCalls
      ∧ (updateMissedBlock st consAddr index signInfo signed).1.signingInfos = st.signingInfos
      ∧ (updateMissedBlock st consAddr index signInfo signed).1.pubkeys = st.pubkeys
      ∧ (updateMissedBlock st consAddr index signInfo signed).2.StartHeight = signInfo.StartHeight
      ∧ (updateMissedBlock st consAddr index signInfo signed).2.IndexOffset = signInfo.IndexOffset
      ∧ (updateMissedBlock st consAddr index signInfo signed).2.JailedUntil
          = signInfo.JailedUntil := by
  unfold updateMissedBlock
  dsimp only
  split
  · exact ⟨rfl, rfl, rfl, rfl, rfl, rfl, rfl⟩
  · split <;> exact ⟨rfl, rfl, rfl, rfl, rfl, rfl, rfl⟩

theorem get_filter_ne_none (m : KV (Address × Int) Bool) (address : Address) (index : Int) :
    KV.get (m.filter fun kv => decide (kv.1.1 ≠ address)) (address, index) = none := by
  induction m with
  | nil => rfl
  | cons p m ih =>
    obtain ⟨⟨a, i⟩, b⟩ := p
    rw [List.filter_cons]
    by_cases h : a = address
    · have hd : decide (((a, i), b).1.1 ≠ address) = false := by simp [h]
      rw [hd]
      exact ih
    · have hd : decide (((a, i), b).1.1 ≠ address) = true := by simp [h]
      have hne : (a, i) ≠ (address, index) := fun hc => h (congrArg Prod.fst hc)
      rw [hd]
      simp only [if_true, KV.get, if_neg hne]
      exact ih

/-- C5, as amended: for every call of handleValidatorSignature after whose
bit/counter update the missed-block counter exceeds
SignedBlocksWindow − MinSignedPerWindow, and whose block height is greater
than StartHeight + SignedBlocksWindow, if the validator exists and is not jailed
then the call returns, the validator is slashed by the downtime fraction (at
height − ValidatorUpdateDelay − 1, with the given power) and jailed,
JailedUntil becomes block time + DowntimeJailDuration, MissedBlocksCounter and
IndexOffset are 0 and every bit of the missed-block bit array is cleared. -/
theorem handleValidatorSignature_downtime (p : Params) (ctx : Context) (st : State)
    (addr : Address) (power : Int) (signed : Bool) (pubkey : Nat)
    (signInfo : ValidatorSigningInfo) (validator : SetValidator)
    (hpubkey : getPubkey st addr = some pubkey)
    (hinfo : getValidatorSigningInfo st addr = some signInfo)
    (hwindow : p.SignedBlocksWindow ≠ 0)
    (hmissed : (signInfoAfterUpdate p st addr signInfo signed).MissedBlocksCounter
      > wrapInt64 (p.SignedBlocksWindow - p.MinSignedPerWindow))
    (hheight : ctx.BlockHeight > wrapInt64 (signInfo.StartHeight + p.SignedBlocksWindow))
    (hval : ValidatorByConsAddr st addr = some validator)
    (hjailed : validator.Jailed = false) :
    ∃ st1, handleValidatorSignature p ctx st addr power signed = some st1
      ∧ st1.slashCalls = st.slashCalls ++
          [⟨addr, wrapInt64 (wrapInt64 (ctx.BlockHeight - p.ValidatorUpdateDelay) - 1), power,
            p.SlashFractionDowntime⟩]
      ∧ ValidatorByConsAddr st1 addr = some { validator with Jailed := true }
      ∧ getValidatorSigningInfo st1 addr
          = some { StartHeight := signInfo.StartHeight
                   IndexOffset := 0
                   JailedUntil := ctx.BlockTime + p.DowntimeJailDuration
                   MissedBlocksCounter := 0 }
      ∧ ∀ index, getValidatorMissedBlockBitArray st1 addr index = false := by
  obtain ⟨f1, f2, -, -, f5, -, -⟩ := updateMissedBlock_frame st addr
    (Int.tmod signInfo.IndexOffset p.SignedBlocksWindow)
    { signInfo with IndexOffset := wrapInt64 (signInfo.IndexOffset + 1) } signed
  have hval1 : ValidatorByConsAddr (updateMissedBlock st addr
      (Int.tmod signInfo.IndexOffset p.SignedBlocksWindow)
      { signInfo with IndexOffset := wrapInt64 (signInfo.IndexOffset + 1) } signed).1 addr
      = some validator := by
    unfold ValidatorByConsAddr
    rw [f1]
    exact hval
  have hcond : ctx.BlockHeight > wrapInt64 ((updateMissedBlock st addr
        (Int.tmod signInfo.IndexOffset p.SignedBlocksWindow)
        { signInfo with IndexOffset := wrapInt64 (signInfo.IndexOffset + 1) } signed).2.StartHeight
        + p.SignedBlocksWindow)
      ∧ (updateMissedBlock st addr (Int.tmod signInfo.IndexOffset p.SignedBlocksWindow)
        { signInfo with IndexOffset := wrapInt64 (signInfo.IndexOffset + 1) }
        signed).2.MissedBlocksCounter > wrapInt64 (p.SignedBlocksWindow - p.MinSignedPerWindow) := by
    rw [f5]
    exact ⟨hheight, hmissed⟩
  unfold handleValidatorSignature
  dsimp only
  rw [hpubkey]
  dsimp only
  rw [hinfo]
  dsimp only
  rw [if_neg hwindow, if_pos hcond, hval1]
  dsimp only
  rw [if_pos hjailed]
  have hjail : ∀ st2 : State, st2.validatorSet.get addr = some validator →
      Jail st2 addr
        = { st2 with
            validatorSet := st2.validatorSet.set addr { validator with Jailed := true }
            jailCalls := st2.jailCalls ++ [addr] } := by
    intro st2 h
    unfold Jail
    rw [h]
  rw [hjail (Slash _ addr _ power p.SlashFractionDowntime) hval1]
  refine ⟨_, rfl, ?_, ?_, ?_, ?_⟩
  · simp only [SetValidatorSigningInfo, clearValidatorMissedBlockBitArray, Slash, f2]
  · simp only [SetValidatorSigningInfo, clearValidatorMissedBlockBitArray, ValidatorByConsAddr,
      KV.get_set_self]
  · simp only [SetValidatorSigningInfo, getValidatorSigningInfo, KV.get_set_self, f5]
  · intro index
    unfold getValidatorMissedBlockBitArray SetValidatorSigningInfo
      clearValidatorMissedBlockBitArray
    dsimp only
    rw [get_filter_ne_none]
    rfl

/-- C5, counterexample: in block 1 validator 9 misses its first block; the
counter after the update is 1 and exceeds
SignedBlocksWindow − MinSignedPerWindow = 0, the validator exists and is not
jailed, yet it is neither slashed nor jailed and the counter stays 1: the block
height is not above StartHeight + SignedBlocksWindow = 2. -/
theorem handleValidatorSignature_no_slash_in_first_window :
    (signInfoAfterUpdate Example.slashingParams Example.slashingState 9 ⟨0, 0, 0, 0⟩
        false).MissedBlocksCounter
        > Example.slashingParams.SignedBlocksWindow - Example.slashingParams.MinSignedPerWindow
      ∧ ValidatorByConsAddr Example.slashingState 9 = some ⟨1, Bonded, false⟩
      ∧ handleValidatorSignature Example.slashingParams ⟨1, 50, "tx"⟩ Example.slashingState 9
          10 false
        = some { Example.slashingState with
                 signingInfos := [(9, ⟨0, 1, 0, 1⟩)]
                 missedBlocks := [((9, 0), true)] } := by
  decide

/-- C5, witness: in block 3 validator 9 misses its first block. -/
theorem handleValidatorSignature_downtime_witness :
    ∃ st1, handleValidatorSignature Example.slashingParams ⟨3, 50, "tx"⟩ Example.slashingState 9
        10 false = some st1
      ∧ st1.slashCalls = [⟨9, 1, 10, Dec.NewDecWithPrec 1 2⟩]
      ∧ ValidatorByConsAddr st1 9 = some ⟨1, Bonded, true⟩
      ∧ getValidatorSigningInfo st1 9 = some ⟨0, 0, 650, 0⟩
      ∧ ∀ index, getValidatorMissedBlockBitArray st1 9 index = false :=
  handleValidatorSignature_downtime Example.slashingParams ⟨3, 50, "tx"⟩ Example.slashingState 9
    10 false 0 ⟨0, 0, 0, 0⟩ ⟨1, Bonded, false⟩ (by decide) (by decide) (by decide) (by decide)
    (by decide) (by decide) (by decide)

end Slashing

/-! ## Theorems: staking, rejections and completions -/

namespace Keeper

/-- C12: if an unbonding delegation already exists for (delegator, validator),
BeginUnbonding for that pair fails with the existing-unbonding-delegation error
for every share amount, at every block height, and leaves the whole store (the
delegation, the validator, the existing unbonding delegation and the queue) as
it was. -/
theorem BeginUnbonding_existing (k : Keeper) (H001_UNDELEGATE_PATCH : Int) (ctx : Context)
    (s : Store) (delAddr valAddr : Address) (sharesAmount : Dec) (ubd : UnbondingDelegation)
    (hfound : GetUnbondingDelegation s delAddr valAddr = some ubd) :
    BeginUnbonding k H001_UNDELEGATE_PATCH ctx s delAddr valAddr sharesAmount
      = .err s .ErrExistingUnbondingDelegation UnbondingDelegation.zero := by
  unfold BeginUnbonding
  rw [hfound]

/-- C12, witness: delegator 7 has a pending unbonding delegation from validator
1 and begins another one. -/
theorem BeginUnbonding_existing_witness :
    BeginUnbonding Example.keeper 100 Example.ctx Example.pendingStore 7 1 Example.six
      = .err Example.pendingStore .ErrExistingUnbondingDelegation UnbondingDelegation.zero :=
  BeginUnbonding_existing Example.keeper 100 Example.ctx Example.pendingStore 7 1 Example.six
    Example.pendingUbd (by decide)

/-- C13: BeginRedelegation with the source validator equal to the destination
returns the self-redelegation error for every delegator and share amount; with
a source different from the destination it returns the
conflicting-redelegation error when a record (delegator, src, dst) exists. In
both cases the store is the one before the call: no hook call is recorded and
no record is changed. -/
theorem BeginRedelegation_self_or_conflicting (k : Keeper) (ctx : Context) (s : Store)
    (delAddr valSrcAddr valDstAddr : Address) (sharesAmount : Dec) :
    (valSrcAddr = valDstAddr →
        BeginRedelegation k ctx s delAddr valSrcAddr valDstAddr sharesAmount
          = .err s .ErrSelfRedelegation Redelegation.zero)
      ∧ (valSrcAddr ≠ valDstAddr →
          ∀ red, GetRedelegation s delAddr valSrcAddr valDstAddr = some red →
            BeginRedelegation k ctx s delAddr valSrcAddr valDstAddr sharesAmount
              = .err s .ErrConflictingRedelegation Redelegation.zero) := by
  constructor
  · intro h
    unfold BeginRedelegation
    rw [if_pos h]
  · intro h red hred
    unfold BeginRedelegation
    rw [if_neg h, hred]

/-- C13, witness: a redelegation from validator 1 to itself, and a second
redelegation from validator 1 to validator 2 while one is pending. -/
theorem BeginRedelegation_self_or_conflicting_witness :
    BeginRedelegation Example.keeper Example.ctx Example.store 7 1 1 Example.six
        = .err Example.store .ErrSelfRedelegation Redelegation.zero
      ∧ BeginRedelegation Example.keeper Example.ctx Example.redelegatingStore 7 1 2 Example.six
        = .err Example.redelegatingStore .ErrConflictingRedelegation Redelegation.zero :=
  ⟨(BeginRedelegation_self_or_conflicting Example.keeper Example.ctx Example.store 7 1 1
      Example.six).1 rfl,
    (BeginRedelegation_self_or_conflicting Example.keeper Example.ctx Example.redelegatingStore
      7 1 2 Example.six).2 (by decide) (Example.red 1 2) (by decide)⟩

/-- C14: unbond fails with the no-delegator-for-address error, the store
untouched, when no delegation exists; it fails with the
not-enough-delegation-shares error when the shares are greater than the
delegation's shares, and then the store differs only by the recorded call of
the shares-modified hook: the delegation, validator and pool records and the
bank are unchanged. -/
theorem unbond_rejects (ctx : Context) (s : Store) (delAddr valAddr : Address) (shares : Dec) :
    (GetDelegation s delAddr valAddr = none →
        unbond ctx s delAddr valAddr shares = .err s .ErrNoDelegatorForAddress Dec.ZeroDec)
      ∧ (∀ delegation, GetDelegation s delAddr valAddr = some delegation →
          delegation.Shares.raw < shares.raw →
          ∃ s1, unbond ctx s delAddr valAddr shares
              = .err s1 .ErrNotEnoughDelegationShares Dec.ZeroDec
            ∧ s1.delegations = s.delegations ∧ s1.validators = s.validators
            ∧ s1.pool = s.pool ∧ s1.bank = s.bank
            ∧ s1.hookCalls = s.hookCalls ++ [.OnDelegationSharesModified delAddr valAddr]) := by
  constructor
  · intro h
    unfold unbond
    rw [h]
  · intro delegation h hlt
    have hlt1 : delegation.Shares.LT shares = true := by simpa [Dec.LT] using hlt
    refine ⟨OnDelegationSharesModified s delAddr valAddr, ?_, rfl, rfl, rfl, rfl, rfl⟩
    unfold unbond
    rw [h]
    dsimp only
    rw [if_pos hlt1]

/-- C14, witness: delegator 8 holds nothing in validator 1; delegator 7 holds
10 shares and asks for 11. -/
theorem unbond_rejects_witness :
    unbond Example.ctx Example.store 8 1 Example.six
        = .err Example.store .ErrNoDelegatorForAddress Dec.ZeroDec
      ∧ ∃ s1, unbond Example.ctx Example.store 7 1 (Dec.NewDecFromInt 11)
            = .err s1 .ErrNotEnoughDelegationShares Dec.ZeroDec
          ∧ s1.delegations = Example.store.delegations
          ∧ s1.validators = Example.store.validators ∧ s1.pool = Example.store.pool := by
  obtain ⟨s1, h1, h2, h3, h4, -, -⟩ :=
    (unbond_rejects Example.ctx Example.store 7 1 (Dec.NewDecFromInt 11)).2
      ⟨7, 1, Example.ten, 0⟩ (by decide) (by decide)
  exact ⟨(unbond_rejects Example.ctx Example.store 8 1 Example.six).1 (by decide),
    s1, h1, h2, h3, h4⟩

/-- C15: whenever the validator's delegator-share exchange rate is zero,
Delegate fails with the invalid-exchange-rate error and returns zero new
shares, for every delegator, amount and subtractAccount flag; the store is the
one before the call: no hook call is recorded, no coins are subtracted and no
record is changed. -/
theorem Delegate_rejects_zero_exchange_rate (ctx : Context) (s : Store) (delAddr : Address)
    (bondAmt : Coin) (validator : Validator) (subtractAccount : Bool)
    (hrate : validator.DelegatorShareExRate.IsZero = true) :
    Delegate ctx s delAddr bondAmt validator subtractAccount
      = .err s .ErrDelegatorShareExRateInvalid Dec.ZeroDec := by
  unfold Delegate
  rw [if_pos hrate]

/-- C15, witness: a delegation of 5 coins to a validator with no tokens and 10
shares. -/
theorem Delegate_rejects_zero_exchange_rate_witness :
    Delegate Example.ctx Example.store 7 ⟨1, 5⟩ Example.frozenValidator true
      = .err Example.store .ErrDelegatorShareExRateInvalid Dec.ZeroDec :=
  Delegate_rejects_zero_exchange_rate Example.ctx Example.store 7 ⟨1, 5⟩
    Example.frozenValidator true (by decide)

theorem AddTokensFromDel_spec {v v1 : Validator} {pool pool1 : Pool} {amount : Int}
    {shares : Dec} (h : v.AddTokensFromDel pool amount = some (v1, pool1, shares)) :
    pool1.BankKeeper.accounts = pool.BankKeeper.accounts
      ∧ (Dec.NewDecFromInt amount).Quo v.DelegatorShareExRate = some shares
      ∧ v1 = { v with Tokens := v.Tokens.Add (Dec.NewDecFromInt amount)
                      DelegatorShares := v.DelegatorShares.Add shares } := by
  unfold Validator.AddTokensFromDel at h
  dsimp only at h
  split at h
  · simp at h
  · rename_i issued hq
    split at h
    · split at h
      · simp at h
      · rename_i pool2 hp
        simp only [Option.some.injEq, Prod.mk.injEq] at h
        obtain ⟨hv, hp2, ha⟩ := h
        subst hp2 ha hv
        exact ⟨loosenTokenToBonded_accounts hp, hq, rfl⟩
    · simp only [Option.some.injEq, Prod.mk.injEq] at h
      obtain ⟨hv, hp2, ha⟩ := h
      subst hp2 ha hv
      exact ⟨rfl, hq, rfl⟩

theorem AddValidatorTokensAndShares_frame {s s1 : Store} {v v1 : Validator} {amount : Int}
    {shares : Dec} (h : AddValidatorTokensAndShares s v amount = some (s1, v1, shares)) :
    sameOutsideDelegation s s1
      ∧ (Dec.NewDecFromInt amount).Quo v.DelegatorShareExRate = some shares
      ∧ v1 = { v with Tokens := v.Tokens.Add (Dec.NewDecFromInt amount)
                      DelegatorShares := v.DelegatorShares.Add shares }
      ∧ s1.delegations = s.delegations ∧ s1.hookCalls = s.hookCalls
      ∧ s1.validators = s.validators.set v1.OperatorAddr v1 := by
  unfold AddValidatorTokensAndShares at h
  split at h
  · simp at h
  · rename_i v2 pool1 added heq
    simp only [Option.some.injEq, Prod.mk.injEq] at h
    obtain ⟨hs, hv, ha⟩ := h
    subst hs hv ha
    obtain ⟨hacc, hq, hv⟩ := AddTokensFromDel_spec heq
    refine ⟨⟨rfl, rfl, rfl, rfl, rfl, rfl, rfl, ?_⟩, hq, hv, rfl, rfl, rfl⟩
    simpa [SetPool, SetValidator, GetPool] using hacc

/-- The store after the hook call of Delegate: the call is recorded, nothing
else has changed. -/
theorem Delegate_hook_frame (s : Store) (delAddr valAddr : Address) (found : Bool) :
    (if found then OnDelegationSharesModified s delAddr valAddr
      else OnDelegationCreated s delAddr valAddr)
      = { s with hookCalls := s.hookCalls ++
            [if found then .OnDelegationSharesModified delAddr valAddr
              else .OnDelegationCreated delAddr valAddr] } := by
  cases found <;> rfl

/-- A successful Delegate, step by step: the hook call is recorded on the store
as it was, coins are subtracted if asked for, then tokens and shares are added
to the validator, then the delegation is stored. -/
theorem Delegate_ok_steps {ctx : Context} {s s1 : Store} {delAddr : Address} {bondAmt : Coin}
    {validator : Validator} {subtractAccount : Bool} {newShares : Dec}
    (hok : Delegate ctx s delAddr bondAmt validator subtractAccount = .ok s1 newShares) :
    ∃ (b : BankKeeper) (s3 : Store) (v1 : Validator),
      (subtractAccount = false → b = s.bank)
      ∧ (subtractAccount = true → s.bank.SubtractCoins delAddr bondAmt = some b)
      ∧ AddValidatorTokensAndShares
          { s with
            hookCalls := s.hookCalls ++
              [if (GetDelegation s delAddr validator.OperatorAddr).isSome
                then .OnDelegationSharesModified delAddr validator.OperatorAddr
                else .OnDelegationCreated delAddr validator.OperatorAddr]
            bank := b }
          validator bondAmt.Amount = some (s3, v1, newShares)
      ∧ s1 = SetDelegation s3
          { DelegatorAddr := delAddr
            ValidatorAddr := validator.OperatorAddr
            Shares := (match GetDelegation s delAddr validator.OperatorAddr with
              | some d => d.Shares
              | none => Dec.ZeroDec).Add newShares
            Height := ctx.BlockHeight } := by
  unfold Delegate at hok
  split at hok
  · simp at hok
  · dsimp only at hok
    rw [Delegate_hook_frame] at hok
    cases hd : GetDelegation s delAddr validator.OperatorAddr with
    | none =>
      rw [hd] at hok
      dsimp only at hok
      cases subtractAccount with
      | false =>
        simp only [Bool.false_eq_true, if_false] at hok
        split at hok
        · simp at hok
        · rename_i s3 v1 n hadd
          simp only [Res.ok.injEq] at hok
          obtain ⟨hs, hn⟩ := hok
          subst hs hn
          exact ⟨s.bank, s3, v1, fun _ => rfl, by simp, by simpa using hadd, rfl⟩
      | true =>
        simp only [if_true] at hok
        split at hok
        · simp at hok
        · rename_i s2 hsub
          split at hsub
          · simp at hsub
          · rename_i b hb
            simp only [Option.some.injEq] at hsub
            subst hsub
            split at hok
            · simp at hok
            · rename_i s3 v1 n hadd
              simp only [Res.ok.injEq] at hok
              obtain ⟨hs, hn⟩ := hok
              subst hs hn
              exact ⟨b, s3, v1, by simp, fun _ => hb, by simpa using hadd, rfl⟩
    | some d =>
      rw [hd] at hok
      dsimp only at hok
      have hdel : d.DelegatorAddr = delAddr := by
        unfold GetDelegation at hd
        cases hg : s.delegations.get (delAddr, validator.OperatorAddr) with
        | none => simp [hg] at hd
        | some d0 =>
          simp [hg] at hd
          subst hd
          rfl
      have hval : d.ValidatorAddr = validator.OperatorAddr := by
        unfold GetDelegation at hd
        cases hg : s.delegations.get (delAddr, validator.OperatorAddr) with
        | none => simp [hg] at hd
        | some d0 =>
          simp [hg] at hd
          subst hd
          rfl
      cases subtractAccount with
      | false =>
        simp only [Bool.false_eq_true, if_false] at hok
        split at hok
        · simp at hok
        · rename_i s3 v1 n hadd
          simp only [Res.ok.injEq] at hok
          obtain ⟨hs, hn⟩ := hok
          subst hs hn
          refine ⟨s.bank, s3, v1, fun _ => rfl, by simp, by simpa using hadd, ?_⟩
          rw [← hdel, ← hval]
      | true =>
        simp only [if_true] at hok
        split at hok
        · simp at hok
        · rename_i s2 hsub
          split at hsub
          · simp at hsub
          · rename_i b hb
            simp only [Option.some.injEq] at hsub
            subst hsub
            split at hok
            · simp at hok
            · rename_i s3 v1 n hadd
              simp only [Res.ok.injEq] at hok
              obtain ⟨hs, hn⟩ := hok
              subst hs hn
              refine ⟨b, s3, v1, by simp, fun _ => by rw [← hdel]; exact hb,
                by simpa using hadd, ?_⟩
              rw [← hdel, ← hval]

/-- C19: when CompleteUnbonding(delegator, validator) succeeds, it credits
exactly the entry's Balance to the delegator (no other balance and not the
loose tokens change) and removes the entry and its by-validator index key; a
second call for the same pair on the store it leaves fails with the
no-unbonding-delegation error and leaves that store as it is, so it credits
nothing. -/
theorem CompleteUnbonding_once (ctx : Context) (s s1 : Store) (delAddr valAddr : Address)
    (hok : CompleteUnbonding ctx s delAddr valAddr = .ok s1 ()) :
    ∃ ubd, GetUnbondingDelegation s delAddr valAddr = some ubd
      ∧ s1.bank.GetCoins delAddr ubd.Balance.Denom
          = s.bank.GetCoins delAddr ubd.Balance.Denom + ubd.Balance.Amount
      ∧ (∀ addr denom, (delAddr, ubd.Balance.Denom) ≠ (addr, denom) →
          s1.bank.GetCoins addr denom = s.bank.GetCoins addr denom)
      ∧ s1.bank.loosenTokens = s.bank.loosenTokens
      ∧ GetUnbondingDelegation s1 delAddr valAddr = none
      ∧ s1.ubdsByValIndex.get (valAddr, delAddr) = none
      ∧ ∀ ctx2, CompleteUnbonding ctx2 s1 delAddr valAddr
          = .err s1 .ErrNoUnbondingDelegation () := by
  unfold CompleteUnbonding at hok
  split at hok
  · simp at hok
  · rename_i ubd hfound
    obtain ⟨hd, hv⟩ := GetUnbondingDelegation_addrs hfound
    split at hok
    · simp at hok
    · rename_i b hadd
      simp only [Res.ok.injEq, and_true] at hok
      subst hok
      rw [hd] at hadd
      obtain ⟨hcoins, hloose⟩ := AddCoins_spec hadd
      have hnone : GetUnbondingDelegation
          (RemoveUnbondingDelegation { s with bank := b } ubd) delAddr valAddr = none := by
        simp [RemoveUnbondingDelegation, GetUnbondingDelegation, hd, hv, KV.get_delete_self]
      refine ⟨ubd, hfound, hcoins, ?_, hloose, hnone, ?_, ?_⟩
      · intro addr denom hne
        unfold BankKeeper.AddCoins at hadd
        dsimp only at hadd
        split at hadd
        · simp at hadd
        · simp only [Option.some.injEq] at hadd
          subst hadd
          simp [RemoveUnbondingDelegation, BankKeeper.GetCoins, KV.get_set_of_ne _ _ hne]
      · simp [RemoveUnbondingDelegation, hd, hv, KV.get_delete_self]
      · intro ctx2
        unfold CompleteUnbonding
        rw [hnone]

/-- C19, witness: the pending unbonding delegation of 4 coins of delegator 7,
completed at block time 1000 and then once more. -/
theorem CompleteUnbonding_once_witness :
    ∃ s1, CompleteUnbonding ⟨30, 1000, "tx"⟩ Example.pendingStore 7 1 = .ok s1 ()
      ∧ s1.bank.GetCoins 7 1 = 4
      ∧ GetUnbondingDelegation s1 7 1 = none
      ∧ CompleteUnbonding ⟨30, 1000, "tx"⟩ s1 7 1 = .err s1 .ErrNoUnbondingDelegation () := by
  have hok : CompleteUnbonding ⟨30, 1000, "tx"⟩ Example.pendingStore 7 1
      = .ok { Example.store with bank := ⟨10, [((7, 1), 4)]⟩ } () := by decide
  obtain ⟨ubd, -, -, -, -, h5, -, h7⟩ := CompleteUnbonding_once _ _ _ _ _ hok
  exact ⟨_, hok, by decide, h5, h7 _⟩

/-- C20: CompleteRedelegation(delegator, src, dst) fails with the
no-redelegation error when no record exists; it fails with the not-mature
error and leaves the store (the record and both of its index keys) as it is
when the record's MinTime is after the block time; otherwise it succeeds and
removes the record together with its by-source and by-destination index keys,
and nothing else changes. -/
theorem CompleteRedelegation_spec (ctx : Context) (s : Store)
    (delAddr valSrcAddr valDstAddr : Address) :
    (GetRedelegation s delAddr valSrcAddr valDstAddr = none →
        CompleteRedelegation ctx s delAddr valSrcAddr valDstAddr
          = .err s .ErrNoRedelegation ())
      ∧ (∀ red, GetRedelegation s delAddr valSrcAddr valDstAddr = some red →
          red.MinTime > ctx.BlockTime →
          CompleteRedelegation ctx s delAddr valSrcAddr valDstAddr = .err s .ErrNotMature ())
      ∧ (∀ red, GetRedelegation s delAddr valSrcAddr valDstAddr = some red →
          red.MinTime ≤ ctx.BlockTime →
          CompleteRedelegation ctx s delAddr valSrcAddr valDstAddr
              = .ok { s with
                      reds := s.reds.delete (delAddr, valSrcAddr, valDstAddr)
                      redsByValSrcIndex :=
                        s.redsByValSrcIndex.delete (delAddr, valSrcAddr, valDstAddr)
                      redsByValDstIndex :=
                        s.redsByValDstIndex.delete (delAddr, valSrcAddr, valDstAddr) } ()
            ∧ (s.reds.delete (delAddr, valSrcAddr, valDstAddr)).get
                (delAddr, valSrcAddr, valDstAddr) = none
            ∧ (s.redsByValSrcIndex.delete (delAddr, valSrcAddr, valDstAddr)).get
                (delAddr, valSrcAddr, valDstAddr) = none
            ∧ (s.redsByValDstIndex.delete (delAddr, valSrcAddr, valDstAddr)).get
                (delAddr, valSrcAddr, valDstAddr) = none) := by
  have haddrs : ∀ red, GetRedelegation s delAddr valSrcAddr valDstAddr = some red →
      red.DelegatorAddr = delAddr ∧ red.ValidatorSrcAddr = valSrcAddr
        ∧ red.ValidatorDstAddr = valDstAddr := by
    intro red h
    unfold GetRedelegation at h
    cases hg : s.reds.get (delAddr, valSrcAddr, valDstAddr) with
    | none => simp [hg] at h
    | some r =>
      simp [hg] at h
      subst h
      exact ⟨rfl, rfl, rfl⟩
  refine ⟨?_, ?_, ?_⟩
  · intro h
    unfold CompleteRedelegation
    rw [h]
  · intro red h hlt
    unfold CompleteRedelegation
    rw [h]
    dsimp only
    rw [if_pos hlt]
  · intro red h hle
    obtain ⟨h1, h2, h3⟩ := haddrs red h
    refine ⟨?_, KV.get_delete_self _ _, KV.get_delete_self _ _, KV.get_delete_self _ _⟩
    unfold CompleteRedelegation
    rw [h]
    dsimp only
    rw [if_neg (not_lt.mpr hle)]
    simp [RemoveRedelegation, h1, h2, h3]

/-- C20, witness: the redelegation of delegator 7 from validator 1 to validator
2 matures at time 400; it is completed at time 333, at time 500, and once
more. -/
theorem CompleteRedelegation_spec_witness :
    CompleteRedelegation Example.ctx Example.redelegatingStore 7 1 2
        = .err Example.redelegatingStore .ErrNotMature ()
      ∧ CompleteRedelegation Example.lateCtx Example.redelegatingStore 7 1 2
        = .ok Example.store ()
      ∧ CompleteRedelegation Example.lateCtx Example.store 7 1 2
        = .err Example.store .ErrNoRedelegation () :=
  ⟨(CompleteRedelegation_spec Example.ctx Example.redelegatingStore 7 1 2).2.1
      (Example.red 1 2) (by decide) (by decide),
    ((CompleteRedelegation_spec Example.lateCtx Example.redelegatingStore 7 1 2).2.2
      (Example.red 1 2) (by decide) (by decide)).1,
    (CompleteRedelegation_spec Example.lateCtx Example.store 7 1 2).1 (by decide)⟩

theorem GetDelegation_addrs {s : Store} {delAddr valAddr : Address} {d : Delegation}
    (h : GetDelegation s delAddr valAddr = some d) :
    d.DelegatorAddr = delAddr ∧ d.ValidatorAddr = valAddr := by
  unfold GetDelegation at h
  cases hg : s.delegations.get (delAddr, valAddr) with
  | none => simp [hg] at h
  | some d0 =>
    simp [hg] at h
    subst h
    exact ⟨rfl, rfl⟩

theorem GetValidator_RemoveValidator (s : Store) (addr a : Address) :
    GetValidator (RemoveValidator s addr) a
      = if a = addr then none else GetValidator s a := by
  unfold RemoveValidator
  cases hg : GetValidator s addr with
  | none =>
    dsimp only
    by_cases h : a = addr
    · rw [if_pos h, h, hg]
    · rw [if_neg h]
  | some v =>
    dsimp only
    by_cases h : a = addr
    · rw [if_pos h, h]
      simp [GetValidator, OnValidatorRemoved, KV.get_delete_self]
    · rw [if_neg h]
      have hne : addr ≠ a := fun hc => h hc.symm
      simp [GetValidator, OnValidatorRemoved, KV.get_delete_of_ne _ hne]

/-- What a successful unbond does to the validator records: the validator it
found is stored again under its operator address with the tokens and shares
removed, jailed if the delegation belongs to its operator, has no shares left
and it was not jailed; the record is deleted instead when no delegator shares
are left and the status is Unbonded. No other validator record changes. -/
theorem unbond_ok_validator {ctx : Context} {s s1 : Store} {delAddr valAddr : Address}
    {shares amount : Dec} (h : unbond ctx s delAddr valAddr shares = .ok s1 amount) :
    ∃ d v, GetDelegation s delAddr valAddr = some d ∧ GetValidator s valAddr = some v
      ∧ (∀ a, a ≠ v.OperatorAddr → GetValidator s1 a = GetValidator s a)
      ∧ GetValidator s1 v.OperatorAddr
          = (if (v.DelegatorShares.Sub shares).IsZero = true ∧ v.Status = Unbonded then none
             else some
              { v with
                Jailed := v.Jailed || decide ((d.Shares.Sub shares).IsZero = true
                  ∧ delAddr = v.OperatorAddr ∧ v.Jailed = false)
                Tokens := v.Tokens.Sub amount
                DelegatorShares := v.DelegatorShares.Sub shares }) := by
  unfold unbond at h
  split at h
  · simp at h
  · rename_i delegation hdel
    obtain ⟨hda, -⟩ := GetDelegation_addrs hdel
    dsimp only at h
    split at h
    · simp at h
    · split at h
      · simp at h
      · rename_i validator hval
        have hval0 : GetValidator s valAddr = some validator := by
          simpa [GetValidator, OnDelegationSharesModified] using hval
        split at h
        · simp at h
        · rename_i s3 validator2 hstep
          have hstep2 : (∀ a, a ≠ validator.OperatorAddr →
                s3.validators.get a = s.validators.get a)
              ∧ validator2 = { validator with
                  Jailed := validator.Jailed || decide ((delegation.Shares.Sub shares).IsZero = true
                    ∧ delAddr = validator.OperatorAddr ∧ validator.Jailed = false) } := by
            split at hstep
            · rename_i hz
              split at hstep
              · rename_i hj
                rw [hda] at hj
                split at hstep
                · simp at hstep
                · rename_i s2 hjail
                  unfold jailValidator at hjail
                  split at hjail
                  · simp at hjail
                  · simp only [Option.some.injEq] at hjail
                    subst hjail
                    simp only [mustGetValidator, GetValidator, SetValidator,
                      KV.get_set_self, Option.some.injEq, Prod.mk.injEq] at hstep
                    obtain ⟨hs, hv⟩ := hstep
                    subst hs hv
                    refine ⟨?_, ?_⟩
                    · intro a ha
                      have hne : validator.OperatorAddr ≠ a := fun hc => ha hc.symm
                      simp [RemoveDelegation, OnDelegationRemoved, OnDelegationSharesModified,
                        KV.get_set_of_ne _ _ hne]
                    · have hz1 : (delegation.Shares.Sub shares).IsZero = true := hz
                      simp [hz1, hj.1, hj.2]
              · rename_i hj
                rw [hda] at hj
                simp only [Option.some.injEq, Prod.mk.injEq] at hstep
                obtain ⟨hs, hv⟩ := hstep
                subst hs hv
                refine ⟨fun a _ => rfl, ?_⟩
                have hz1 : (delegation.Shares.Sub shares).IsZero = true := hz
                have hdec : decide ((delegation.Shares.Sub shares).IsZero = true
                    ∧ delAddr = validator.OperatorAddr ∧ validator.Jailed = false) = false := by
                  rw [decide_eq_false_iff_not]
                  exact fun hc => hj ⟨hc.2.1, hc.2.2⟩
                rw [hdec, Bool.or_false]
            · rename_i hz
              simp only [Option.some.injEq, Prod.mk.injEq] at hstep
              obtain ⟨hs, hv⟩ := hstep
              subst hs hv
              refine ⟨fun a _ => rfl, ?_⟩
              have hdec : decide ((delegation.Shares.Sub shares).IsZero = true
                  ∧ delAddr = validator.OperatorAddr ∧ validator.Jailed = false) = false := by
                rw [decide_eq_false_iff_not]
                exact fun hc => hz hc.1
              rw [hdec, Bool.or_false]
          obtain ⟨hother, hv2⟩ := hstep2
          split at h
          · simp at h
          · rename_i s4 validator3 amount1 hrem
            obtain ⟨-, hamt, hv3, -, -, hvals⟩ := RemoveValidatorTokensAndShares_frame hrem
            have hop : validator3.OperatorAddr = validator.OperatorAddr := by
              rw [hv3, hv2]
            have hshares : validator3.DelegatorShares = validator.DelegatorShares.Sub shares := by
              rw [hv3, hv2]
            have hstatus : validator3.Status = validator.Status := by
              rw [hv3, hv2]
            have hget4 : ∀ a, GetValidator s4 a
                = if a = validator.OperatorAddr then some validator3 else GetValidator s a := by
              intro a
              unfold GetValidator
              rw [hvals, hop]
              by_cases ha : a = validator.OperatorAddr
              · rw [if_pos ha, ha, KV.get_set_self]
              · rw [if_neg ha, KV.get_set_of_ne _ _ (fun hc => ha hc.symm)]
                exact hother a ha
            have hv3eq : validator3 = { validator with
                Jailed := validator.Jailed || decide ((delegation.Shares.Sub shares).IsZero = true
                  ∧ delAddr = validator.OperatorAddr ∧ validator.Jailed = false)
                Tokens := validator.Tokens.Sub amount1
                DelegatorShares := validator.DelegatorShares.Sub shares } := by
              rw [hv3, hv2]
            refine ⟨delegation, validator, hdel, hval0, ?_, ?_⟩
            · intro a ha
              split at h
              · simp only [Res.ok.injEq] at h
                obtain ⟨hs, -⟩ := h
                subst hs
                rw [GetValidator_RemoveValidator, hop, if_neg ha, hget4, if_neg ha]
              · simp only [Res.ok.injEq] at h
                obtain ⟨hs, -⟩ := h
                subst hs
                rw [hget4, if_neg ha]
            · split at h
              · rename_i hc
                simp only [Res.ok.injEq] at h
                obtain ⟨hs, ha⟩ := h
                subst hs ha
                rw [hshares, hstatus] at hc
                rw [GetValidator_RemoveValidator, hop, if_pos rfl, if_pos hc]
              · rename_i hc
                simp only [Res.ok.injEq] at h
                obtain ⟨hs, ha⟩ := h
                subst hs ha
                rw [hshares, hstatus] at hc
                rw [hget4, if_pos rfl, if_neg hc, hv3eq]

/-- C17: on every successful unbond that does not delete the validator record,
the validator stored afterwards is jailed when the delegation belongs to the
validator's operator address, its remaining shares are zero and the validator
was not jailed; in every other case its jailed flag is the one it had. (The
record is deleted, jailed or not, when no delegator shares are left in Unbonded
status.) -/
theorem unbond_jails_operator (ctx : Context) (s s1 : Store) (delAddr valAddr : Address)
    (shares amount : Dec) (hok : unbond ctx s delAddr valAddr shares = .ok s1 amount) :
    ∃ d v, GetDelegation s delAddr valAddr = some d ∧ GetValidator s valAddr = some v
      ∧ (¬ ((v.DelegatorShares.Sub shares).IsZero = true ∧ v.Status = Unbonded) →
          ∃ v1, GetValidator s1 v.OperatorAddr = some v1
            ∧ ((delAddr = v.OperatorAddr ∧ (d.Shares.Sub shares).IsZero = true
                  ∧ v.Jailed = false) → v1.Jailed = true)
            ∧ (¬ (delAddr = v.OperatorAddr ∧ (d.Shares.Sub shares).IsZero = true
                  ∧ v.Jailed = false) → v1.Jailed = v.Jailed)) := by
  obtain ⟨d, v, hd, hv, -, hget⟩ := unbond_ok_validator hok
  refine ⟨d, v, hd, hv, ?_⟩
  intro hkeep
  rw [if_neg hkeep] at hget
  refine ⟨_, hget, ?_, ?_⟩
  · intro hc
    have hdec : decide ((d.Shares.Sub shares).IsZero = true ∧ delAddr = v.OperatorAddr
        ∧ v.Jailed = false) = true := by
      rw [decide_eq_true_iff]
      exact ⟨hc.2.1, hc.1, hc.2.2⟩
    simp [hdec]
  · intro hc
    have hdec : decide ((d.Shares.Sub shares).IsZero = true ∧ delAddr = v.OperatorAddr
        ∧ v.Jailed = false) = false := by
      rw [decide_eq_false_iff_not]
      exact fun h => hc ⟨h.2.1, h.1, h.2.2⟩
    simp [hdec]

/-- C17, witness: the operator of the Bonded validator 1 unbonds its 10 shares,
and the validator is jailed. -/
theorem unbond_jails_operator_witness :
    ∃ s1 amount, unbond Example.ctx Example.selfBondedStore 1 1 Example.ten = .ok s1 amount
      ∧ (GetValidator s1 1).map (fun v => v.Jailed) = some true := by
  have hok : unbond Example.ctx Example.selfBondedStore 1 1 Example.ten
      = .ok ((unbond Example.ctx Example.selfBondedStore 1 1 Example.ten).store?.getD
          Example.store) Example.ten := by decide
  obtain ⟨d, v, hd, hv, hkeep⟩ := unbond_jails_operator _ _ _ _ _ _ _ hok
  have hv1 : v = ⟨1, false, Bonded, Example.ten, Example.ten, 0, 0⟩ := by
    have h0 : GetValidator Example.selfBondedStore 1
        = some ⟨1, false, Bonded, Example.ten, Example.ten, 0, 0⟩ := by decide
    rw [h0] at hv
    exact (Option.some.inj hv).symm
  have hd1 : d = ⟨1, 1, Example.ten, 0⟩ := by
    have h0 : GetDelegation Example.selfBondedStore 1 1 = some ⟨1, 1, Example.ten, 0⟩ := by
      decide
    rw [h0] at hd
    exact (Option.some.inj hd).symm
  subst hv1 hd1
  obtain ⟨v1, hget, hjail, -⟩ := hkeep (by decide)
  refine ⟨_, _, hok, ?_⟩
  rw [hget]
  simp [hjail (by decide)]

/-- C18, as amended: a successful unbond deletes the validator record exactly
when, after the shares are removed, the validator has no delegator shares and
its status is Unbonded; the tokens it is left with are not looked at. A
validator that is Bonded or Unbonding is never deleted by unbond, and no other
validator record changes. -/
theorem unbond_deletes_validator (ctx : Context) (s s1 : Store) (delAddr valAddr : Address)
    (shares amount : Dec) (hok : unbond ctx s delAddr valAddr shares = .ok s1 amount) :
    ∃ v, GetValidator s valAddr = some v
      ∧ (GetValidator s1 v.OperatorAddr = none
          ↔ ((v.DelegatorShares.Sub shares).IsZero = true ∧ v.Status = Unbonded))
      ∧ (v.Status = Bonded ∨ v.Status = Unbonding →
          ∃ v1, GetValidator s1 v.OperatorAddr = some v1 ∧ v1.Status = v.Status
            ∧ v1.Tokens = v.Tokens.Sub amount
            ∧ v1.DelegatorShares = v.DelegatorShares.Sub shares)
      ∧ (∀ a, a ≠ v.OperatorAddr → GetValidator s1 a = GetValidator s a) := by
  obtain ⟨d, v, -, hv, hother, hget⟩ := unbond_ok_validator hok
  refine ⟨v, hv, ?_, ?_, hother⟩
  · constructor
    · intro hnone
      by_contra hc
      rw [if_neg hc] at hget
      rw [hget] at hnone
      simp at hnone
    · intro hc
      rw [if_pos hc] at hget
      exact hget
  · intro hst
    have hc : ¬ ((v.DelegatorShares.Sub shares).IsZero = true ∧ v.Status = Unbonded) := by
      intro hc
      rcases hst with h | h
      · rw [h] at hc
        exact absurd hc.2 (by decide)
      · rw [h] at hc
        exact absurd hc.2 (by decide)
    rw [if_neg hc] at hget
    exact ⟨_, hget, rfl, rfl, rfl⟩

/-- C18, counterexample: validator 1 is Unbonded with 1 token and 3 shares; the
exchange rate is 0.3333333333, so the 3 shares are worth 0.9999999999 tokens.
When delegator 7 unbonds the 3 shares, the validator is left with no shares and
0.0000000001 tokens, and unbond deletes its record. -/
theorem unbond_deletes_validator_with_tokens :
    (Validator.RemoveDelShares ⟨1, false, Unbonded, Dec.NewDecFromInt 1, Dec.NewDecFromInt 3, 0, 0⟩
        (GetPool Example.dustStore) (Dec.NewDecFromInt 3)).map
        (fun r => (r.1.Tokens, r.1.DelegatorShares, r.2.2))
        = some (⟨1⟩, ⟨0⟩, ⟨9999999999⟩)
      ∧ (unbond Example.ctx Example.dustStore 7 1 (Dec.NewDecFromInt 3)).isOk = true
      ∧ (unbond Example.ctx Example.dustStore 7 1 (Dec.NewDecFromInt 3)).value?
          = some ⟨9999999999⟩
      ∧ (unbond Example.ctx Example.dustStore 7 1 (Dec.NewDecFromInt 3)).store?.map
          (fun s1 => GetValidator s1 1) = some none := by
  decide

/-- C18, witness: delegator 7 unbonds 6 of the 10 shares of the Unbonded
validator 1, which stays, and then the other 4, and the record is deleted. -/
theorem unbond_deletes_validator_witness :
    ∃ s1 s2 amount1 amount2,
      unbond Example.ctx Example.store 7 1 Example.six = .ok s1 amount1
      ∧ (GetValidator s1 1).isSome = true
      ∧ unbond Example.ctx s1 7 1 (Dec.NewDecFromInt 4) = .ok s2 amount2
      ∧ GetValidator s2 1 = none := by
  have hok1 : unbond Example.ctx Example.store 7 1 Example.six
      = .ok ((unbond Example.ctx Example.store 7 1 Example.six).store?.getD Example.store)
          Example.six := by decide
  have hok2 : unbond Example.ctx
      ((unbond Example.ctx Example.store 7 1 Example.six).store?.getD Example.store) 7 1
      (Dec.NewDecFromInt 4)
      = .ok ((unbond Example.ctx
          ((unbond Example.ctx Example.store 7 1 Example.six).store?.getD Example.store) 7 1
          (Dec.NewDecFromInt 4)).store?.getD Example.store) (Dec.NewDecFromInt 4) := by decide
  obtain ⟨v, hv, hiff, -, -⟩ := unbond_deletes_validator _ _ _ _ _ _ _ hok2
  have hv1 : v = ⟨1, false, Unbonded, Dec.NewDecFromInt 4, Dec.NewDecFromInt 4, 0, 0⟩ := by
    have h0 : GetValidator
        ((unbond Example.ctx Example.store 7 1 Example.six).store?.getD Example.store) 1
        = some ⟨1, false, Unbonded, Dec.NewDecFromInt 4, Dec.NewDecFromInt 4, 0, 0⟩ := by decide
    rw [h0] at hv
    exact (Option.some.inj hv).symm
  subst hv1
  exact ⟨_, _, _, _, hok1, by decide, hok2, hiff.mpr (by decide)⟩

/-- Storing a redelegation and queueing it: the record is the one read back
under its key, and its triplet is the last of the timeslice at its maturity
time. -/
theorem store_and_queue_red_spec (s : Store) (red : Redelegation) :
    GetRedelegation (InsertRedelegationQueue (SetRedelegation s red) red)
        red.DelegatorAddr red.ValidatorSrcAddr red.ValidatorDstAddr = some red
      ∧ GetRedelegationQueueTimeSlice (InsertRedelegationQueue (SetRedelegation s red) red)
          red.MinTime
        = GetRedelegationQueueTimeSlice s red.MinTime
            ++ [⟨red.DelegatorAddr, red.ValidatorSrcAddr, red.ValidatorDstAddr⟩] := by
  have hq : GetRedelegationQueueTimeSlice (SetRedelegation s red) red.MinTime
      = GetRedelegationQueueTimeSlice s red.MinTime := rfl
  constructor
  · unfold InsertRedelegationQueue
    dsimp only
    split <;>
      simp [GetRedelegation, SetRedelegationQueueTimeSlice, SetRedelegation, KV.get_set_self]
  · unfold InsertRedelegationQueue
    dsimp only
    rw [hq]
    split
    · rename_i hlen
      have hnil : GetRedelegationQueueTimeSlice s red.MinTime = [] :=
        List.length_eq_zero.mp hlen
      simp [GetRedelegationQueueTimeSlice, SetRedelegationQueueTimeSlice, KV.get_set_self]
        at hnil ⊢
      simp [hnil]
    · simp [GetRedelegationQueueTimeSlice, SetRedelegationQueueTimeSlice, KV.get_set_self]

/-- A successful Delegate changes no validator record but the one stored under
the operator address of the validator it is given. -/
theorem Delegate_ok_validators {ctx : Context} {s s1 : Store} {delAddr : Address}
    {bondAmt : Coin} {validator : Validator} {subtractAccount : Bool} {newShares : Dec}
    (hok : Delegate ctx s delAddr bondAmt validator subtractAccount = .ok s1 newShares) :
    ∀ a, a ≠ validator.OperatorAddr → GetValidator s1 a = GetValidator s a := by
  obtain ⟨b, s3, v1, -, -, hadd, hs1⟩ := Delegate_ok_steps hok
  obtain ⟨-, -, hv1, -, -, hvals⟩ := AddValidatorTokensAndShares_frame hadd
  intro a ha
  have hop : v1.OperatorAddr = validator.OperatorAddr := by rw [hv1]
  rw [hs1]
  unfold GetValidator SetDelegation
  dsimp only
  rw [hvals, hop, KV.get_set_of_ne _ _ (fun hc => ha hc.symm)]

/-- C11, as amended: when the source validator is in Unbonding status, the
unbonding delegation created by BeginUnbonding at a block height below the
undelegate patch height, and the redelegation created by BeginRedelegation at
any height, take CreationHeight = the validator's UnbondingHeight and
MinTime = the validator's UnbondingMinTime. Every validator is stored under its
operator address. -/
theorem begin_from_unbonding_validator (k : Keeper) (H001_UNDELEGATE_PATCH : Int)
    (ctx : Context) (s : Store) (delAddr valSrcAddr : Address) (sharesAmount : Dec)
    (v : Validator)
    (hwf : ∀ a va, GetValidator s a = some va → va.OperatorAddr = a)
    (hval : GetValidator s valSrcAddr = some v) (hstatus : v.Status = Unbonding) :
    (ctx.BlockHeight < H001_UNDELEGATE_PATCH →
        ∀ s1 ubd,
          BeginUnbonding k H001_UNDELEGATE_PATCH ctx s delAddr valSrcAddr sharesAmount
            = .ok s1 ubd →
          GetUnbondingDelegation s1 delAddr valSrcAddr = some ubd
            ∧ ubd.CreationHeight = v.UnbondingHeight ∧ ubd.MinTime = v.UnbondingMinTime)
      ∧ (∀ valDstAddr s1 red,
          BeginRedelegation k ctx s delAddr valSrcAddr valDstAddr sharesAmount = .ok s1 red →
          GetRedelegation s1 delAddr valSrcAddr valDstAddr = some red
            ∧ red.CreationHeight = v.UnbondingHeight ∧ red.MinTime = v.UnbondingMinTime) := by
  have hnb : ¬ v.Status = Bonded := by rw [hstatus]; decide
  have hnu : ¬ v.Status = Unbonded := by rw [hstatus]; decide
  constructor
  · intro hpatch s1 ubd hok
    unfold BeginUnbonding at hok
    split at hok
    · simp at hok
    · rw [if_pos hpatch] at hok
      have hinfo : getBeginInfo k ctx s valSrcAddr
          = some (v.UnbondingMinTime, v.UnbondingHeight, false) := by
        unfold getBeginInfo
        rw [hval]
        dsimp only
        rw [if_neg hnb, if_neg hnu, if_pos hstatus]
      rw [hinfo] at hok
      dsimp only at hok
      split at hok
      · simp at hok
      · simp at hok
      · rename_i s0 returnAmount hunbond
        simp only [Bool.false_eq_true, if_false, Res.ok.injEq] at hok
        obtain ⟨hs, hu⟩ := hok
        subst hs hu
        have hsq := store_and_queue_spec s0
          { TxHash := ctx.CoinFlowTrigger, DelegatorAddr := delAddr, ValidatorAddr := valSrcAddr,
            CreationHeight := v.UnbondingHeight, MinTime := v.UnbondingMinTime,
            Balance := NewCoin k.BondDenom returnAmount.TruncateInt,
            InitialBalance := NewCoin k.BondDenom returnAmount.TruncateInt }
        exact ⟨hsq.1, rfl, rfl⟩
  · intro valDstAddr s1 red hok
    have hop : v.OperatorAddr = valSrcAddr := hwf _ _ hval
    unfold BeginRedelegation at hok
    split at hok
    · simp at hok
    · rename_i hne
      split at hok
      · simp at hok
      · split at hok
        · simp at hok
        · split at hok
          · simp at hok
          · simp at hok
          · rename_i s0 returnAmount hunbond
            obtain ⟨d, v0, -, hv0, hother, hget⟩ := unbond_ok_validator hunbond
            have hvv : v0 = v := by
              rw [hval] at hv0
              exact (Option.some.inj hv0).symm
            subst hvv
            have hkeep : ¬ ((v0.DelegatorShares.Sub sharesAmount).IsZero = true
                ∧ v0.Status = Unbonded) := fun hc => hnu hc.2
            rw [if_neg hkeep, hop] at hget
            dsimp only at hok
            split at hok
            · simp at hok
            · rename_i dstValidator hdst
              have hdst0 : GetValidator s valDstAddr = some dstValidator := by
                rw [← hother valDstAddr (by rw [hop]; exact fun hc => hne hc.symm)]
                exact hdst
              have hdop : dstValidator.OperatorAddr = valDstAddr := hwf _ _ hdst0
              split at hok
              · simp at hok
              · simp at hok
              · rename_i s2 sharesCreated hdelegate
                have hsrc2 : GetValidator s2 valSrcAddr = GetValidator s0 valSrcAddr :=
                  Delegate_ok_validators hdelegate valSrcAddr (by rw [hdop]; exact hne)
                have hinfo : getBeginInfo k ctx s2 valSrcAddr
                    = some (v0.UnbondingMinTime, v0.UnbondingHeight, false) := by
                  unfold getBeginInfo
                  rw [hsrc2, hget]
                  dsimp only
                  rw [if_neg hnb, if_neg hnu, if_pos hstatus]
                rw [hinfo] at hok
                simp only [Bool.false_eq_true, if_false, Res.ok.injEq] at hok
                obtain ⟨hs, hr⟩ := hok
                subst hs hr
                have hsq := store_and_queue_red_spec s2
                  { DelegatorAddr := delAddr, ValidatorSrcAddr := valSrcAddr,
                    ValidatorDstAddr := valDstAddr, CreationHeight := v0.UnbondingHeight,
                    MinTime := v0.UnbondingMinTime, SharesDst := sharesCreated,
                    SharesSrc := sharesAmount,
                    Balance := NewCoin k.BondDenom returnAmount.TruncateInt,
                    InitialBalance := NewCoin k.BondDenom returnAmount.TruncateInt }
                exact ⟨hsq.1, rfl, rfl⟩

/-- C11, counterexample: at block height 10, with the undelegate patch at
height 5, validator 1 is in Unbonding status since height 8, until time 400;
the unbonding delegation BeginUnbonding creates has CreationHeight 10, the
block height, and MinTime 433, block time + unbonding period. -/
theorem BeginUnbonding_unbonding_validator_after_patch :
    GetValidator Example.unbondingStore 1
        = some ⟨1, false, Unbonding, Example.ten, Example.ten, 8, 400⟩
      ∧ BeginUnbonding Example.keeper 5 Example.ctx Example.unbondingStore 7 1 Example.six
        = .ok { Example.unbondingStore with
                delegations := [((7, 1), ⟨7, 1, Dec.NewDecFromInt 4, 10⟩)]
                validators := [(1, ⟨1, false, Unbonding, Dec.NewDecFromInt 4,
                  Dec.NewDecFromInt 4, 8, 400⟩), (2, ⟨2, false, Bonded, Example.ten, Example.ten,
                  0, 0⟩)]
                ubds := [((7, 1), ⟨"tx", 7, 1, 10, 433, ⟨1, 6⟩, ⟨1, 6⟩⟩)]
                ubdsByValIndex := [((1, 7), ())]
                unbondingQueue := [(433, [⟨7, 1⟩])]
                hookCalls := [.OnDelegationSharesModified 7 1] }
            ⟨"tx", 7, 1, 10, 433, ⟨1, 6⟩, ⟨1, 6⟩⟩ := by
  decide

/-- C11, witness: 6 shares of validator 1, in Unbonding status since height 8
until time 400, are unbonded before the patch height, or redelegated to
validator 2. -/
theorem begin_from_unbonding_validator_witness :
    (∃ s1 ubd,
        BeginUnbonding Example.keeper 100 Example.ctx Example.unbondingStore 7 1 Example.six
          = .ok s1 ubd
        ∧ GetUnbondingDelegation s1 7 1 = some ubd
        ∧ ubd.CreationHeight = 8 ∧ ubd.MinTime = 400)
      ∧ ∃ s1 red,
        BeginRedelegation Example.keeper Example.ctx Example.unbondingStore 7 1 2 Example.six
          = .ok s1 red
        ∧ GetRedelegation s1 7 1 2 = some red
        ∧ red.CreationHeight = 8 ∧ red.MinTime = 400 := by
  have hthm := begin_from_unbonding_validator Example.keeper 100 Example.ctx
    Example.unbondingStore 7 1 Example.six ⟨1, false, Unbonding, Example.ten, Example.ten, 8, 400⟩
    (by
      intro a va h
      unfold GetValidator at h
      simp only [Example.unbondingStore, KV.get] at h
      split at h
      · rename_i h1
        simp only [Option.some.injEq] at h
        rw [← h, ← h1]
      · split at h
        · rename_i h2
          simp only [Option.some.injEq] at h
          rw [← h, ← h2]
        · simp at h)
    (by decide) (by decide)
  have hok2 : BeginRedelegation Example.keeper Example.ctx Example.unbondingStore 7 1 2
      Example.six
      = .ok ((BeginRedelegation Example.keeper Example.ctx Example.unbondingStore 7 1 2
          Example.six).store?.getD Example.store)
          ((BeginRedelegation Example.keeper Example.ctx Example.unbondingStore 7 1 2
          Example.six).value?.getD Redelegation.zero) := by decide
  exact ⟨⟨_, _, BeginUnbonding_example_unbonding,
      hthm.1 (by decide) _ _ BeginUnbonding_example_unbonding⟩,
    ⟨_, _, hok2, hthm.2 2 _ _ hok2⟩⟩

end Keeper

/-! ## Theorems: errors, pool moves and conservation of rewards -/

namespace sdkError

theorem WithDefaultCodespace_eq (err : sdkError) (cs : CodespaceType) :
    err.WithDefaultCodespace cs = { err with codespace := cs } := rfl

/-- C25, on the code: `WithDefaultCodespace` overrides a codespace that is
defined. The error of the root codespace "sdk", which is not the unset
codespace, given the default "stake", comes back with the codespace "stake",
where the doc comment of `CodespaceUndefined` describes "sdk"; code and message
are unchanged. -/
theorem WithDefaultCodespace_overrides_defined_codespace :
    Example.rootError.codespace = CodespaceRoot
    ∧ CodespaceRoot ≠ CodespaceUndefined
    ∧ (Example.rootError.WithDefaultCodespace "stake").codespace = "stake"
    ∧ documentedCodespace Example.rootError "stake" = "sdk"
    ∧ (Example.rootError.WithDefaultCodespace "stake").code = Example.rootError.code
    ∧ (Example.rootError.WithDefaultCodespace "stake").cmnError = Example.rootError.cmnError := by
  decide

end sdkError

theorem Dec.TruncateInt_NewDecFromInt (n : Int) : (Dec.NewDecFromInt n).TruncateInt = n := by
  unfold Dec.TruncateInt Dec.NewDecFromInt
  exact Int.mul_tdiv_cancel n (by decide)

theorem Dec.change_NewDecFromInt (n : Int) :
    ((Dec.NewDecFromInt n).Sub (Dec.NewDecFromInt (Dec.NewDecFromInt n).TruncateInt)).IsZero
      = true := by
  rw [Dec.TruncateInt_NewDecFromInt]
  simp [Dec.Sub, Dec.IsZero]

theorem Dec.eq_NewDecFromInt_of_change_zero (x : Dec)
    (h : (x.Sub (Dec.NewDecFromInt x.TruncateInt)).IsZero = true) :
    x = Dec.NewDecFromInt x.TruncateInt := by
  simp only [Dec.Sub, Dec.IsZero, decide_eq_true_eq] at h
  cases x with
  | mk raw =>
    simp only [Dec.NewDecFromInt] at h ⊢
    congr 1
    omega

namespace Pool

theorem loosenTokenToBonded_int (p : Pool) (n : Int) :
    p.loosenTokenToBonded (Dec.NewDecFromInt n)
      = some { BondedPool := ⟨p.BondedPool.BondedTokens.Add (Dec.NewDecFromInt n)⟩
               BankKeeper := p.BankKeeper.DecreaseLoosenToken n } := by
  unfold loosenTokenToBonded
  simp only [Dec.change_NewDecFromInt]
  simp only [Dec.TruncateInt_NewDecFromInt]
  rfl

theorem bondedTokenToLoosen_int (p : Pool) (n : Int) :
    p.bondedTokenToLoosen (Dec.NewDecFromInt n)
      = some { BondedPool := ⟨p.BondedPool.BondedTokens.Sub (Dec.NewDecFromInt n)⟩
               BankKeeper := p.BankKeeper.IncreaseLoosenToken n } := by
  unfold bondedTokenToLoosen
  simp only [Dec.change_NewDecFromInt]
  simp only [Dec.TruncateInt_NewDecFromInt]
  rfl

/-- C26: for every pool and every integer-valued amount, `loosenTokenToBonded`
adds the amount to the bonded tokens and takes it from the loose tokens of the
bank, `bondedTokenToLoosen` does the reverse, the token supply of the pool
status is the same after either, and one after the other gives the pool back;
both panic on every amount that is not integer-valued. -/
theorem pool_moves_conserve_supply (p : Pool) (n : Int) :
    (∃ p1, p.loosenTokenToBonded (Dec.NewDecFromInt n) = some p1
      ∧ p1.BondedPool.BondedTokens = p.BondedPool.BondedTokens.Add (Dec.NewDecFromInt n)
      ∧ p1.BankKeeper.loosenTokens = p.BankKeeper.loosenTokens - n
      ∧ p1.BankKeeper.accounts = p.BankKeeper.accounts
      ∧ p1.GetPoolStatus.TokenSupply = p.GetPoolStatus.TokenSupply
      ∧ p1.bondedTokenToLoosen (Dec.NewDecFromInt n) = some p)
    ∧ (∃ p2, p.bondedTokenToLoosen (Dec.NewDecFromInt n) = some p2
      ∧ p2.BondedPool.BondedTokens = p.BondedPool.BondedTokens.Sub (Dec.NewDecFromInt n)
      ∧ p2.BankKeeper.loosenTokens = p.BankKeeper.loosenTokens + n
      ∧ p2.BankKeeper.accounts = p.BankKeeper.accounts
      ∧ p2.GetPoolStatus.TokenSupply = p.GetPoolStatus.TokenSupply
      ∧ p2.loosenTokenToBonded (Dec.NewDecFromInt n) = some p)
    ∧ (∀ x : Dec, (¬ ∃ m : Int, x = Dec.NewDecFromInt m) →
        p.loosenTokenToBonded x = none ∧ p.bondedTokenToLoosen x = none) := by
  obtain ⟨⟨loose, accounts⟩, ⟨⟨bonded⟩⟩⟩ := p
  refine ⟨⟨_, loosenTokenToBonded_int _ n, rfl, rfl, rfl, ?_, ?_⟩,
    ⟨_, bondedTokenToLoosen_int _ n, rfl, rfl, rfl, ?_, ?_⟩, ?_⟩
  · simp only [GetPoolStatus, PoolStatus.TokenSupply, GetLoosenTokenAmount, Dec.Add,
      Dec.NewDecFromInt, BankKeeper.DecreaseLoosenToken, Dec.mk.injEq]
    ring
  · rw [bondedTokenToLoosen_int]
    simp only [BankKeeper.IncreaseLoosenToken, BankKeeper.DecreaseLoosenToken, Dec.Add, Dec.Sub,
      Option.some.injEq, Pool.mk.injEq, BankKeeper.mk.injEq, BondedPool.mk.injEq, Dec.mk.injEq]
    exact ⟨⟨by omega, trivial⟩, by omega⟩
  · simp only [GetPoolStatus, PoolStatus.TokenSupply, GetLoosenTokenAmount, Dec.Add, Dec.Sub,
      Dec.NewDecFromInt, BankKeeper.IncreaseLoosenToken, Dec.mk.injEq]
    ring
  · rw [loosenTokenToBonded_int]
    simp only [BankKeeper.IncreaseLoosenToken, BankKeeper.DecreaseLoosenToken, Dec.Add, Dec.Sub,
      Option.some.injEq, Pool.mk.injEq, BankKeeper.mk.injEq, BondedPool.mk.injEq, Dec.mk.injEq]
    exact ⟨⟨by omega, trivial⟩, by omega⟩
  · intro x hx
    have hz : (x.Sub (Dec.NewDecFromInt x.TruncateInt)).IsZero = false := by
      cases hc : (x.Sub (Dec.NewDecFromInt x.TruncateInt)).IsZero with
      | false => rfl
      | true => exact absurd ⟨_, Dec.eq_NewDecFromInt_of_change_zero x hc⟩ hx
    constructor
    · unfold loosenTokenToBonded
      simp only [hz]
      rfl
    · unfold bondedTokenToLoosen
      simp only [hz]
      rfl

/-- C26, witness: a pool with 5 loose and 10 bonded tokens, the amounts 3 and
one half. -/
theorem pool_moves_conserve_supply_witness :
    (⟨⟨5, []⟩, ⟨Dec.NewDecFromInt 10⟩⟩ : Pool).loosenTokenToBonded (Dec.NewDecFromInt 3)
        = some ⟨⟨2, []⟩, ⟨Dec.NewDecFromInt 13⟩⟩
    ∧ (⟨⟨5, []⟩, ⟨Dec.NewDecFromInt 10⟩⟩ : Pool).loosenTokenToBonded (Dec.NewDecWithPrec 5 1)
        = none
    ∧ (⟨⟨5, []⟩, ⟨Dec.NewDecFromInt 10⟩⟩ : Pool).bondedTokenToLoosen (Dec.NewDecWithPrec 5 1)
        = none :=
  have h := pool_moves_conserve_supply ⟨⟨5, []⟩, ⟨Dec.NewDecFromInt 10⟩⟩ 3
  ⟨by decide, (h.2.2 (Dec.NewDecWithPrec 5 1) (by
      rintro ⟨m, hm⟩
      simp only [Dec.NewDecWithPrec, Dec.NewDecFromInt, Dec.Precision, Dec.precisionReuse,
        Dec.mk.injEq] at hm
      omega)).1,
    (h.2.2 (Dec.NewDecWithPrec 5 1) (by
      rintro ⟨m, hm⟩
      simp only [Dec.NewDecWithPrec, Dec.NewDecFromInt, Dec.Precision, Dec.precisionReuse,
        Dec.mk.injEq] at hm
      omega)).2⟩

end Pool

namespace DecCoins

theorem AmountOf_insertCoin (c : DecCoin) (xs : DecCoins) (d : Denom) :
    AmountOf (insertCoin c xs) d = (if c.Denom = d then c.Amount.raw else 0) + AmountOf xs d := by
  induction xs with
  | nil => simp [insertCoin, AmountOf]
  | cons x xs ih =>
    unfold insertCoin
    by_cases h1 : c.Denom < x.Denom
    · rw [if_pos h1]
      simp [AmountOf]
    · rw [if_neg h1]
      by_cases h2 : c.Denom = x.Denom
      · rw [if_pos h2]
        by_cases h3 : (c.Amount.Add x.Amount).IsZero = true
        · rw [if_pos h3]
          have h4 : c.Amount.raw + x.Amount.raw = 0 := by
            simpa [Dec.IsZero, Dec.Add] using h3
          simp only [AmountOf, ← h2]
          split <;> omega
        · rw [if_neg h3]
          simp only [AmountOf, ← h2, Dec.Add]
          split <;> omega
      · rw [if_neg h2]
        simp only [AmountOf, ih]
        omega

theorem AmountOf_Plus (coins coinsB : DecCoins) (d : Denom) :
    AmountOf (coins.Plus coinsB) d = AmountOf coins d + AmountOf coinsB d := by
  induction coins with
  | nil => simp [Plus, AmountOf]
  | cons c cs ih =>
    have h : Plus (c :: cs) coinsB = insertCoin c (Plus cs coinsB) := rfl
    rw [h, AmountOf_insertCoin, ih]
    simp only [AmountOf]
    omega

theorem AmountOf_Negative (coins : DecCoins) (d : Denom) :
    AmountOf coins.Negative d = - AmountOf coins d := by
  induction coins with
  | nil => simp [Negative, AmountOf]
  | cons c cs ih =>
    have h : Negative (c :: cs) = ⟨c.Denom, c.Amount.Neg⟩ :: Negative cs := rfl
    rw [h]
    simp only [AmountOf, ih, Dec.Neg]
    split <;> omega

theorem AmountOf_Minus (coins coinsB : DecCoins) (d : Denom) :
    AmountOf (coins.Minus coinsB) d = AmountOf coins d - AmountOf coinsB d := by
  unfold Minus
  rw [AmountOf_Plus, AmountOf_Negative]
  omega

end DecCoins

namespace ValidatorDistInfo

theorem TakeFeePoolRewards_of_zero_total (vi : ValidatorDistInfo) (wc : WithdrawContext)
    (hz : (wc.FeePool.GetTotalValAccum wc.Height wc.TotalPower).IsZero = true) :
    vi.TakeFeePoolRewards wc
      = some ({ vi with FeePoolWithdrawalHeight := wc.Height },
          { wc.FeePool with
            TotalValAccum := ⟨wc.Height, wc.FeePool.GetTotalValAccum wc.Height wc.TotalPower⟩ }) := by
  unfold TakeFeePoolRewards
  simp only [updated_total_eq, hz]
  rfl

theorem TakeFeePoolRewards_of_ne_zero_total (vi : ValidatorDistInfo) (wc : WithdrawContext)
    (hnz : (wc.FeePool.GetTotalValAccum wc.Height wc.TotalPower).IsZero = false)
    (hgt : (vi.GetValAccum wc.Height wc.ValPower).GT
      (wc.FeePool.GetTotalValAccum wc.Height wc.TotalPower) = false) :
    ∃ w, vi.TakeFeePoolRewards wc = some
      ({ vi with
          FeePoolWithdrawalHeight := wc.Height
          ValCommission := vi.ValCommission.Plus (w.MulDec wc.CommissionRate)
          DelPool := vi.DelPool.Plus (w.Minus (w.MulDec wc.CommissionRate)) },
       { TotalValAccum :=
           ⟨wc.Height, (wc.FeePool.GetTotalValAccum wc.Height wc.TotalPower).Sub
             (vi.GetValAccum wc.Height wc.ValPower)⟩
         ValPool := wc.FeePool.ValPool.Minus w
         CommunityPool := wc.FeePool.CommunityPool }) := by
  obtain ⟨w, hw⟩ := DecCoins.QuoDec_some_of_ne_zero
    (wc.FeePool.ValPool.MulDec (vi.GetValAccum wc.Height wc.ValPower)) _ hnz
  refine ⟨w, ?_⟩
  unfold TakeFeePoolRewards
  simp only [updated_total_eq, hnz, hgt]
  simp only [FeePool.UpdateTotalValAccum, hw]
  rfl

/-- C29: whenever the validator's accumulation is at most the updated total
accumulation, or that total is zero, TakeFeePoolRewards returns, and for every
denomination the amount by which the ValPool of the fee pool decreases is the
amount by which DelPool plus ValCommission of the validator increase, and
CommunityPool is unchanged. When the updated total accumulation is zero, the
returned info is the given one with FeePoolWithdrawalHeight at the height, and
the returned fee pool is the given one with its total accumulation updated to
the height, the accumulation being that zero total: no pool changes; the
stored accumulation is itself unchanged when it, the total power and the number
of blocks are not negative. -/
theorem TakeFeePoolRewards_conserves_funds (vi : ValidatorDistInfo) (wc : WithdrawContext)
    (hle : (wc.FeePool.GetTotalValAccum wc.Height wc.TotalPower).raw ≠ 0 →
      (vi.GetValAccum wc.Height wc.ValPower).raw
        ≤ (wc.FeePool.GetTotalValAccum wc.Height wc.TotalPower).raw) :
    ∃ vi1 fp1, vi.TakeFeePoolRewards wc = some (vi1, fp1)
      ∧ (∀ d, wc.FeePool.ValPool.AmountOf d - fp1.ValPool.AmountOf d
          = (vi1.DelPool.AmountOf d - vi.DelPool.AmountOf d)
            + (vi1.ValCommission.AmountOf d - vi.ValCommission.AmountOf d))
      ∧ fp1.CommunityPool = wc.FeePool.CommunityPool
      ∧ ((wc.FeePool.GetTotalValAccum wc.Height wc.TotalPower).raw = 0 →
          vi1 = { vi with FeePoolWithdrawalHeight := wc.Height }
          ∧ fp1 = { wc.FeePool with
              TotalValAccum := ⟨wc.Height, wc.FeePool.GetTotalValAccum wc.Height wc.TotalPower⟩ }
          ∧ fp1.ValPool = wc.FeePool.ValPool
          ∧ vi1.DelPool = vi.DelPool ∧ vi1.ValCommission = vi.ValCommission
          ∧ fp1.TotalValAccum.UpdateHeight = wc.Height
          ∧ fp1.TotalValAccum.Accum.raw = 0
          ∧ (0 ≤ wc.FeePool.TotalValAccum.Accum.raw → 0 ≤ wc.TotalPower.raw →
              0 ≤ wrapInt64 (wc.Height - wc.FeePool.TotalValAccum.UpdateHeight) →
              fp1.TotalValAccum.Accum = wc.FeePool.TotalValAccum.Accum)) := by
  by_cases hz : (wc.FeePool.GetTotalValAccum wc.Height wc.TotalPower).raw = 0
  · have hz1 : (wc.FeePool.GetTotalValAccum wc.Height wc.TotalPower).IsZero = true :=
      (Dec.IsZero_iff _).2 hz
    refine ⟨_, _, TakeFeePoolRewards_of_zero_total vi wc hz1, ?_, rfl, ?_⟩
    · intro d
      simp
    · intro _
      refine ⟨rfl, rfl, rfl, rfl, rfl, rfl, hz, ?_⟩
      intro h1 h2 h3
      have hz2 := hz
      simp only [FeePool.GetTotalValAccum, TotalAccum.GetAccum, Dec.Add, Dec.MulInt] at hz2
      have h4 : 0 ≤ wc.TotalPower.raw
          * wrapInt64 (wc.Height - wc.FeePool.TotalValAccum.UpdateHeight) :=
        Int.mul_nonneg h2 h3
      have h5 : wc.FeePool.TotalValAccum.Accum.raw = 0 := by omega
      show (wc.FeePool.GetTotalValAccum wc.Height wc.TotalPower) = wc.FeePool.TotalValAccum.Accum
      cases hacc : wc.FeePool.TotalValAccum.Accum with
      | mk raw =>
        rw [hacc] at h5
        simp only at h5
        cases htot : wc.FeePool.GetTotalValAccum wc.Height wc.TotalPower with
        | mk raw2 =>
          rw [htot] at hz
          simp only at hz
          rw [h5, hz]
  · have hnz : (wc.FeePool.GetTotalValAccum wc.Height wc.TotalPower).IsZero = false := by
      simpa [Dec.IsZero] using hz
    have hgt : (vi.GetValAccum wc.Height wc.ValPower).GT
        (wc.FeePool.GetTotalValAccum wc.Height wc.TotalPower) = false := by
      simpa [Dec.GT] using hle hz
    obtain ⟨w, hw⟩ := TakeFeePoolRewards_of_ne_zero_total vi wc hnz hgt
    refine ⟨_, _, hw, ?_, rfl, ?_⟩
    · intro d
      simp only [DecCoins.AmountOf_Plus, DecCoins.AmountOf_Minus]
      omega
    · intro h
      exact absurd h hz

/-- C29, witness: a pool of 6 coins, total accumulation 3, the validator's
accumulation 3. -/
theorem TakeFeePoolRewards_conserves_funds_witness :
    ∃ vi1 fp1, Example.info.TakeFeePoolRewards Example.fullShare = some (vi1, fp1)
      ∧ (∀ d, Example.fullShare.FeePool.ValPool.AmountOf d - fp1.ValPool.AmountOf d
          = (vi1.DelPool.AmountOf d - Example.info.DelPool.AmountOf d)
            + (vi1.ValCommission.AmountOf d - Example.info.ValCommission.AmountOf d))
      ∧ fp1.CommunityPool = Example.fullShare.FeePool.CommunityPool := by
  obtain ⟨vi1, fp1, h1, h2, h3, _⟩ :=
    TakeFeePoolRewards_conserves_funds Example.info Example.fullShare (fun _ => by decide)
  exact ⟨vi1, fp1, h1, h2, h3⟩

end ValidatorDistInfo

/-! ## Theorems: the unbonding queue, the redelegation indexes and the bad destination -/

namespace KV

variable {κ ν : Type} [DecidableEq κ]

theorem mem_map_fst_iff (m : KV κ ν) (k : κ) :
    k ∈ m.map Prod.fst ↔ (m.get k).isSome = true := by
  induction m with
  | nil => simp [get]
  | cons p m ih =>
    obtain ⟨k1, v1⟩ := p
    by_cases h : k1 = k
    · simp [get, h]
    · have h2 : ¬ k = k1 := fun hc => h hc.symm
      simp [get, h, h2, ih]

theorem mem_keys_iff (m : KV κ ν) (k : κ) : k ∈ m.keys ↔ (m.get k).isSome = true := by
  unfold keys
  rw [List.mem_dedup]
  exact mem_map_fst_iff m k

theorem nodup_keys (m : KV κ ν) : m.keys.Nodup := List.nodup_dedup _

theorem isSome_get_set (m : KV κ ν) (k k2 : κ) (v : ν) :
    ((m.set k v).get k2).isSome = (decide (k2 = k) || (m.get k2).isSome) := by
  by_cases h : k2 = k
  · subst h
    simp [get_set_self]
  · rw [get_set_of_ne _ _ (fun hc => h hc.symm)]
    simp [h]

theorem isSome_get_delete (m : KV κ ν) (k k2 : κ) :
    ((m.delete k).get k2).isSome = (!decide (k2 = k) && (m.get k2).isSome) := by
  by_cases h : k2 = k
  · subst h
    simp [get_delete_self]
  · rw [get_delete_of_ne _ (fun hc => h hc.symm)]
    simp [h]

theorem get_foldl_delete (ks : List κ) (m : KV κ ν) (k : κ) :
    (ks.foldl (fun q x => q.delete x) m).get k = if k ∈ ks then none else m.get k := by
  induction ks generalizing m with
  | nil => simp
  | cons x xs ih =>
    rw [List.foldl_cons, ih]
    by_cases hk : k ∈ xs
    · simp [hk]
    · by_cases hx : k = x
      · subst hx
        simp [hk, get_delete_self]
      · have hx2 : x ≠ k := fun hc => hx hc.symm
        simp [hk, hx, get_delete_of_ne _ hx2]

end KV

namespace Keeper

theorem RemoveDelShares_isSome (v : Validator) (pool : Pool) (shares : Dec)
    (h : v.Status = Bonded → ∃ n : Int, v.DelegatorShareExRate.Mul shares = Dec.NewDecFromInt n) :
    ∃ r, v.RemoveDelShares pool shares = some r := by
  unfold Validator.RemoveDelShares
  dsimp only
  by_cases hb : v.Status = Bonded
  · rw [if_pos hb]
    obtain ⟨n, hn⟩ := h hb
    have hp : ∃ p1, pool.bondedTokenToLoosen (v.DelegatorShareExRate.Mul shares) = some p1 := by
      rw [hn]
      unfold Pool.bondedTokenToLoosen
      have hz : ((Dec.NewDecFromInt n).Sub
          (Dec.NewDecFromInt (Dec.NewDecFromInt n).TruncateInt)).IsZero = true := by
        have ht : (Dec.NewDecFromInt n).TruncateInt = n := by
          unfold Dec.TruncateInt Dec.NewDecFromInt
          exact Int.mul_tdiv_cancel n (by decide)
        rw [ht]
        simp [Dec.Sub, Dec.IsZero]
      simp only [hz]
      exact ⟨_, rfl⟩
    obtain ⟨p1, hp1⟩ := hp
    rw [hp1]
    exact ⟨_, rfl⟩
  · rw [if_neg hb]
    exact ⟨_, rfl⟩

theorem RemoveValidatorTokensAndShares_isSome (s : Store) (v : Validator) (shares : Dec)
    (h : v.Status = Bonded → ∃ n : Int, v.DelegatorShareExRate.Mul shares = Dec.NewDecFromInt n) :
    ∃ r, RemoveValidatorTokensAndShares s v shares = some r := by
  unfold RemoveValidatorTokensAndShares
  obtain ⟨⟨v1, pool1, removed⟩, hr⟩ := RemoveDelShares_isSome v (GetPool s) shares h
  rw [hr]
  exact ⟨_, rfl⟩

/-- The unbond of shares that the delegation holds from a stored validator
returns, when the tokens a bonded validator gives back are an integer. -/
theorem unbond_ok_of (ctx : Context) (s : Store) (delAddr valAddr : Address) (shares : Dec)
    (d : Delegation) (v : Validator)
    (hdel : GetDelegation s delAddr valAddr = some d)
    (hshares : d.Shares.LT shares = false)
    (hval : GetValidator s valAddr = some v)
    (hpool : v.Status = Bonded →
      ∃ n : Int, v.DelegatorShareExRate.Mul shares = Dec.NewDecFromInt n) :
    ∃ s1 amount, unbond ctx s delAddr valAddr shares = .ok s1 amount := by
  have hval1 : GetValidator (OnDelegationSharesModified s delAddr valAddr) valAddr = some v := hval
  have hfin : ∀ (s3 : Store) (v2 : Validator),
      (v2.Status = Bonded →
        ∃ n : Int, v2.DelegatorShareExRate.Mul shares = Dec.NewDecFromInt n) →
      ∃ s1 amount,
        (match RemoveValidatorTokensAndShares s3 v2 shares with
          | none => Res.panic
          | some (s4, validator3, amount) =>
            if validator3.DelegatorShares.IsZero ∧ validator3.Status = Unbonded then
              Res.ok (RemoveValidator s4 validator3.OperatorAddr) amount
            else Res.ok s4 amount) = Res.ok s1 amount := by
    intro s3 v2 h2
    obtain ⟨⟨s4, v3, amount⟩, hr⟩ := RemoveValidatorTokensAndShares_isSome s3 v2 shares h2
    rw [hr]
    dsimp only
    split
    · exact ⟨_, _, rfl⟩
    · exact ⟨_, _, rfl⟩
  unfold unbond
  rw [hdel]
  dsimp only
  rw [hshares]
  simp only [Bool.false_eq_true, if_false, hval1]
  split
  · rename_i hstep
    split at hstep
    · split at hstep
      · rename_i hj
        unfold jailValidator at hstep
        rw [hj.2] at hstep
        simp only [Bool.false_eq_true, if_false, mustGetValidator, GetValidator, SetValidator,
          KV.get_set_self] at hstep
        simp at hstep
      · simp at hstep
    · simp at hstep
  · rename_i s3 v2 hstep
    have hv2 : v2 = v ∨ v2 = { v with Jailed := true } := by
      split at hstep
      · split at hstep
        · rename_i hj
          unfold jailValidator at hstep
          rw [hj.2] at hstep
          simp only [Bool.false_eq_true, if_false, mustGetValidator, GetValidator, SetValidator,
            KV.get_set_self, Option.some.injEq, Prod.mk.injEq] at hstep
          exact Or.inr hstep.2.symm
        · simp only [Option.some.injEq, Prod.mk.injEq] at hstep
          exact Or.inl hstep.2.symm
      · simp only [Option.some.injEq, Prod.mk.injEq] at hstep
        exact Or.inl hstep.2.symm
    apply hfin
    rcases hv2 with h | h
    · rw [h]
      exact hpool
    · rw [h]
      exact hpool

theorem delegations_RemoveValidator (s : Store) (addr : Address) :
    (RemoveValidator s addr).delegations = s.delegations := by
  unfold RemoveValidator
  split <;> rfl

/-- A successful unbond takes the shares from the delegation, and deletes the
delegation that has no shares left. -/
theorem unbond_ok_delegation {ctx : Context} {s s1 : Store} {delAddr valAddr : Address}
    {shares amount : Dec} (h : unbond ctx s delAddr valAddr shares = .ok s1 amount) :
    ∃ d, GetDelegation s delAddr valAddr = some d
      ∧ GetDelegation s1 delAddr valAddr
          = (if (d.Shares.Sub shares).IsZero = true then none
             else some { d with Shares := d.Shares.Sub shares, Height := ctx.BlockHeight }) := by
  unfold unbond at h
  split at h
  · simp at h
  · rename_i delegation hdel
    obtain ⟨hda, hdv⟩ := GetDelegation_addrs hdel
    dsimp only at h
    split at h
    · simp at h
    · split at h
      · simp at h
      · rename_i validator hval
        split at h
        · simp at h
        · rename_i s3 validator2 hstep
          have hstep2 : s3.delegations
              = (if (delegation.Shares.Sub shares).IsZero = true then
                  s.delegations.delete (delAddr, valAddr)
                 else s.delegations.set (delAddr, valAddr)
                  { delegation with
                    Shares := delegation.Shares.Sub shares, Height := ctx.BlockHeight }) := by
            split at hstep
            · rename_i hz
              have hz1 : (delegation.Shares.Sub shares).IsZero = true := hz
              rw [if_pos hz1]
              split at hstep
              · split at hstep
                · simp at hstep
                · rename_i s2 hjail
                  unfold jailValidator at hjail
                  split at hjail
                  · simp at hjail
                  · simp only [Option.some.injEq] at hjail
                    subst hjail
                    split at hstep
                    · simp at hstep
                    · simp only [Option.some.injEq, Prod.mk.injEq] at hstep
                      obtain ⟨hs, -⟩ := hstep
                      subst hs
                      simp [RemoveDelegation, OnDelegationRemoved, OnDelegationSharesModified,
                        SetValidator, hda, hdv]
              · simp only [Option.some.injEq, Prod.mk.injEq] at hstep
                obtain ⟨hs, -⟩ := hstep
                subst hs
                simp [RemoveDelegation, OnDelegationRemoved, OnDelegationSharesModified, hda, hdv]
            · rename_i hz
              have hz1 : ¬ (delegation.Shares.Sub shares).IsZero = true := hz
              rw [if_neg hz1]
              simp only [Option.some.injEq, Prod.mk.injEq] at hstep
              obtain ⟨hs, -⟩ := hstep
              subst hs
              simp [SetDelegation, OnDelegationSharesModified, hda, hdv]
          split at h
          · simp at h
          · rename_i s4 validator3 amount1 hrem
            obtain ⟨-, -, -, hdels, -, -⟩ := RemoveValidatorTokensAndShares_frame hrem
            have hs1 : s1.delegations = s3.delegations := by
              split at h
              · simp only [Res.ok.injEq] at h
                obtain ⟨hs, -⟩ := h
                subst hs
                rw [delegations_RemoveValidator, hdels]
              · simp only [Res.ok.injEq] at h
                obtain ⟨hs, -⟩ := h
                subst hs
                exact hdels
            refine ⟨delegation, hdel, ?_⟩
            unfold GetDelegation
            rw [hs1, hstep2]
            by_cases hz : (delegation.Shares.Sub shares).IsZero = true
            · rw [if_pos hz, if_pos hz, KV.get_delete_self]
              rfl
            · rw [if_neg hz, if_neg hz, KV.get_set_self]
              simp only [Option.map_some']
              congr 1
              cases delegation
              simp only at hda hdv
              subst hda hdv
              rfl

/-- C30: BeginRedelegation is not atomic when the destination validator does
not exist. When source and destination differ, no redelegation of the delegator
between them is stored, the source is not the destination of a redelegation of
the delegator, the delegation holds at least the shares, the source validator
is stored (and the tokens a bonded validator gives back are an integer) and no
validator is stored under the destination, BeginRedelegation returns
ErrBadRedelegationDst with a store in which the shares are taken from the
source delegation (deleted when none are left) and the shares and their tokens
are taken from the source validator (deleted when it is Unbonded without
shares), and in which no redelegation is stored or queued. -/
theorem BeginRedelegation_bad_destination_after_unbond (k : Keeper) (ctx : Context) (s : Store)
    (delAddr valSrcAddr valDstAddr : Address) (sharesAmount : Dec) (d : Delegation)
    (v : Validator)
    (hne : valSrcAddr ≠ valDstAddr)
    (hconf : GetRedelegation s delAddr valSrcAddr valDstAddr = none)
    (htrans : HasReceivingRedelegation s delAddr valSrcAddr = false)
    (hdel : GetDelegation s delAddr valSrcAddr = some d)
    (hshares : d.Shares.LT sharesAmount = false)
    (hval : GetValidator s valSrcAddr = some v)
    (hop : v.OperatorAddr = valSrcAddr)
    (hpool : v.Status = Bonded →
      ∃ n : Int, v.DelegatorShareExRate.Mul sharesAmount = Dec.NewDecFromInt n)
    (hdst : GetValidator s valDstAddr = none) :
    ∃ s1, BeginRedelegation k ctx s delAddr valSrcAddr valDstAddr sharesAmount
        = .err s1 .ErrBadRedelegationDst Redelegation.zero
      ∧ GetDelegation s1 delAddr valSrcAddr
          = (if (d.Shares.Sub sharesAmount).IsZero = true then none
             else some { d with Shares := d.Shares.Sub sharesAmount, Height := ctx.BlockHeight })
      ∧ GetValidator s1 valSrcAddr
          = (if (v.DelegatorShares.Sub sharesAmount).IsZero = true ∧ v.Status = Unbonded then none
             else some
              { v with
                Jailed := v.Jailed || decide ((d.Shares.Sub sharesAmount).IsZero = true
                  ∧ delAddr = v.OperatorAddr ∧ v.Jailed = false)
                Tokens := v.Tokens.Sub (v.DelegatorShareExRate.Mul sharesAmount)
                DelegatorShares := v.DelegatorShares.Sub sharesAmount })
      ∧ GetRedelegation s1 delAddr valSrcAddr valDstAddr = none
      ∧ s1.reds = s.reds ∧ s1.redsByValSrcIndex = s.redsByValSrcIndex
      ∧ s1.redsByValDstIndex = s.redsByValDstIndex
      ∧ s1.redelegationQueue = s.redelegationQueue := by
  obtain ⟨s1, amount, hunbond⟩ :=
    unbond_ok_of ctx s delAddr valSrcAddr sharesAmount d v hdel hshares hval hpool
  obtain ⟨hsame, v0, hv0, hamount⟩ := unbond_ok_spec hunbond
  obtain ⟨d1, v1, hd1, hv1, hothers, hsrc⟩ := unbond_ok_validator hunbond
  obtain ⟨d2, hd2, hdeleg⟩ := unbond_ok_delegation hunbond
  rw [hval] at hv0 hv1
  rw [hdel] at hd1 hd2
  simp only [Option.some.injEq] at hv0 hv1 hd1 hd2
  subst hv0 hv1 hd1 hd2
  obtain ⟨-, -, -, hreds, hsrcIdx, hdstIdx, hqueue, -⟩ := hsame
  have hdst1 : GetValidator s1 valDstAddr = none := by
    rw [hothers valDstAddr (by rw [hop]; exact fun hc => hne hc.symm), hdst]
  refine ⟨s1, ?_, hdeleg, ?_, ?_, hreds, hsrcIdx, hdstIdx, hqueue⟩
  · unfold BeginRedelegation
    rw [if_neg hne, hconf]
    dsimp only
    rw [htrans]
    simp only [Bool.false_eq_true, if_false, hunbond, hdst1]
  · rw [← hop, hsrc, hamount]
  · unfold GetRedelegation
    rw [hreds]
    exact hconf

/-- C30, witness: in the example store delegator 7 moves 6 of its 10 shares from
validator 1 to validator 5, which does not exist. -/
theorem BeginRedelegation_bad_destination_after_unbond_witness :
    ∃ s1, BeginRedelegation Example.keeper Example.ctx Example.store 7 1 5 Example.six
        = .err s1 .ErrBadRedelegationDst Redelegation.zero
      ∧ GetDelegation s1 7 1 = some ⟨7, 1, Dec.NewDecFromInt 4, 10⟩
      ∧ (GetValidator s1 1).map (fun v => (v.Tokens, v.DelegatorShares))
          = some (Dec.NewDecFromInt 4, Dec.NewDecFromInt 4)
      ∧ GetRedelegation s1 7 1 5 = none := by
  have hd : GetDelegation Example.store 7 1 = some ⟨7, 1, Example.ten, 0⟩ := by decide
  have hv : GetValidator Example.store 1 = some ⟨1, false, Unbonded, Example.ten, Example.ten, 0, 0⟩ := by
    decide
  obtain ⟨s1, h1, h2, h3, h4, -⟩ :=
    BeginRedelegation_bad_destination_after_unbond Example.keeper Example.ctx Example.store
      7 1 5 Example.six _ _ (by decide) (by decide) (by decide) hd (by decide) hv rfl
      (fun _ => ⟨6, by decide⟩) (by decide)
  refine ⟨s1, h1, ?_, ?_, h4⟩
  · rw [h2]
    decide
  · rw [h3]
    decide

theorem dequeue_foldl (l : List (Time × List DVPair)) (out : List DVPair) (s : Store) :
    l.foldl
        (fun (acc : List DVPair × Store) (timeslice : Time × List DVPair) =>
          (acc.1 ++ timeslice.2,
            { acc.2 with unbondingQueue := acc.2.unbondingQueue.delete timeslice.1 }))
        (out, s)
      = (out ++ l.flatMap Prod.snd,
          { s with unbondingQueue :=
              (l.map Prod.fst).foldl (fun q x => q.delete x) s.unbondingQueue }) := by
  induction l generalizing out s with
  | nil => simp
  | cons x xs ih =>
    rw [List.foldl_cons, ih]
    simp [List.flatMap_cons, List.append_assoc]

theorem filterMap_eq_map_of_forall {α β : Type} (f : α → Option β) (g : α → β) (l : List α)
    (h : ∀ x ∈ l, f x = some (g x)) : l.filterMap f = l.map g := by
  induction l with
  | nil => rfl
  | cons x xs ih =>
    rw [List.filterMap_cons, h x (List.mem_cons_self _ _), List.map_cons,
      ih (fun y hy => h y (List.mem_cons_of_mem _ hy))]

theorem flatMap_snd_eq {α β : Type} (f : α → List β) (l : List (α × List β))
    (h : ∀ x ∈ l, x.2 = f x.1) : l.flatMap Prod.snd = (l.map Prod.fst).flatMap f := by
  induction l with
  | nil => rfl
  | cons x xs ih =>
    rw [List.flatMap_cons, List.map_cons, List.flatMap_cons, h x (List.mem_cons_self _ _),
      ih (fun y hy => h y (List.mem_cons_of_mem _ hy))]

theorem GetUnbondingQueueTimeSlice_of_get {s : Store} {t : Time} {pairs : List DVPair}
    (h : s.unbondingQueue.get t = some pairs) : GetUnbondingQueueTimeSlice s t = pairs := by
  unfold GetUnbondingQueueTimeSlice
  rw [h]

/-- The timeslices that `UnbondingQueueIterator` visits: the stored timeslices
of the times until the end time, in strictly ascending order of their times. -/
theorem UnbondingQueueIterator_spec (s : Store) (endTime : Time) :
    ((UnbondingQueueIterator s endTime).map Prod.fst).Sorted (· < ·)
      ∧ ∀ t pairs, (t, pairs) ∈ UnbondingQueueIterator s endTime
          ↔ (t ≤ endTime ∧ s.unbondingQueue.get t = some pairs) := by
  have hmem : ∀ t, t ∈ (s.unbondingQueue.keys.filter fun t => decide (t ≤ endTime)).insertionSort
      (· ≤ ·) ↔ (t ≤ endTime ∧ (s.unbondingQueue.get t).isSome = true) := by
    intro t
    rw [List.mem_insertionSort, List.mem_filter, KV.mem_keys_iff, decide_eq_true_eq]
    exact And.comm
  have hsorted : ((s.unbondingQueue.keys.filter fun t => decide (t ≤ endTime)).insertionSort
      (· ≤ ·)).Sorted (· < ·) := by
    apply List.Sorted.lt_of_le (List.sorted_insertionSort _ _)
    rw [(List.perm_insertionSort _ _).nodup_iff]
    exact (KV.nodup_keys _).filter _
  have hiter : UnbondingQueueIterator s endTime
      = ((s.unbondingQueue.keys.filter fun t => decide (t ≤ endTime)).insertionSort
          (· ≤ ·)).map (fun t => (t, GetUnbondingQueueTimeSlice s t)) := by
    unfold UnbondingQueueIterator
    apply filterMap_eq_map_of_forall
    intro t ht
    obtain ⟨pairs, hp⟩ := Option.isSome_iff_exists.1 ((hmem t).1 ht).2
    rw [hp, GetUnbondingQueueTimeSlice_of_get hp]
    rfl
  constructor
  · have hid : (Prod.fst ∘ fun t : Time => (t, GetUnbondingQueueTimeSlice s t)) = id := rfl
    rw [hiter, List.map_map, hid, List.map_id]
    exact hsorted
  · intro t pairs
    rw [hiter, List.mem_map]
    constructor
    · rintro ⟨t1, ht1, heq⟩
      simp only [Prod.mk.injEq] at heq
      obtain ⟨h1, h2⟩ := heq
      subst h1
      obtain ⟨hle, hsome⟩ := (hmem t1).1 ht1
      obtain ⟨v, hv⟩ := Option.isSome_iff_exists.1 hsome
      rw [GetUnbondingQueueTimeSlice_of_get hv] at h2
      subst h2
      exact ⟨hle, hv⟩
    · rintro ⟨hle, hget⟩
      refine ⟨t, (hmem t).2 ⟨hle, by rw [hget]; rfl⟩, ?_⟩
      rw [GetUnbondingQueueTimeSlice_of_get hget]

theorem DequeueAllMatureUnbondingQueue_of_iterator_nil (ctx : Context) (s : Store)
    (currTime : Time) (h : UnbondingQueueIterator s ctx.BlockTime = []) :
    DequeueAllMatureUnbondingQueue ctx s currTime = ([], s) := by
  unfold DequeueAllMatureUnbondingQueue
  rw [h]
  rfl

/-- The timeslice of a time after an insertion into the queue: the pair is
appended to the timeslice of its maturity time. -/
theorem InsertUnbondingQueue_get (s : Store) (ubd : UnbondingDelegation) (t : Time) :
    (InsertUnbondingQueue s ubd).unbondingQueue.get t
      = if t = ubd.MinTime then
          some ((s.unbondingQueue.get t).getD [] ++ [⟨ubd.DelegatorAddr, ubd.ValidatorAddr⟩])
        else s.unbondingQueue.get t := by
  unfold InsertUnbondingQueue
  dsimp only
  by_cases ht : t = ubd.MinTime
  · subst ht
    rw [if_pos rfl]
    cases hg : s.unbondingQueue.get ubd.MinTime with
    | none =>
      simp [GetUnbondingQueueTimeSlice, SetUnbondingQueueTimeSlice, hg, KV.get_set_self]
    | some v =>
      cases v with
      | nil =>
        simp [GetUnbondingQueueTimeSlice, SetUnbondingQueueTimeSlice, hg, KV.get_set_self]
      | cons x xs =>
        simp [GetUnbondingQueueTimeSlice, SetUnbondingQueueTimeSlice, hg, KV.get_set_self]
  · rw [if_neg ht]
    have hne : ubd.MinTime ≠ t := fun hc => ht hc.symm
    split <;> simp [SetUnbondingQueueTimeSlice, KV.get_set_of_ne _ _ hne]

/-- The timeslice of a time after a sequence of insertions into the queue: the
pairs inserted for that time are appended in the order of their insertion. -/
theorem foldl_InsertUnbondingQueue_get (ubds : List UnbondingDelegation) (s : Store)
    (t : Time) :
    (ubds.foldl InsertUnbondingQueue s).unbondingQueue.get t
      = if (ubds.filter fun u => decide (u.MinTime = t)).isEmpty then s.unbondingQueue.get t
        else some ((s.unbondingQueue.get t).getD []
          ++ (ubds.filter fun u => decide (u.MinTime = t)).map
              fun u => ⟨u.DelegatorAddr, u.ValidatorAddr⟩) := by
  induction ubds generalizing s with
  | nil => rfl
  | cons u us ih =>
    rw [List.foldl_cons, ih, InsertUnbondingQueue_get]
    by_cases hu : u.MinTime = t
    · subst hu
      simp only [if_true, List.filter_cons, decide_True, List.isEmpty_cons, Bool.false_eq_true,
        if_false, Option.getD_some, List.map_cons, List.append_assoc, List.singleton_append]
      split
      · rename_i he
        rw [List.isEmpty_iff] at he
        rw [he]
        simp
      · simp
    · have hu2 : ¬ t = u.MinTime := fun hc => hu hc.symm
      simp only [if_neg hu2, List.filter_cons, hu, decide_False, Bool.false_eq_true, if_false]

/-- C21: `DequeueAllMatureUnbondingQueue` returns the concatenation of the
stored timeslices of exactly the times at or before the block time of the
context, in strictly ascending order of their times, whatever `currTime` is.
In the store it returns, exactly those timeslices are deleted, every later
timeslice is as before and nothing else has changed; a second call in the same
context returns the empty list and the same store. Insertion order within one
time: after the pairs of any sequence of unbonding delegations are inserted
into an empty queue, the call returns, time by time in ascending order, the
pairs of the delegations maturing at that time in the order of their
insertion. -/
theorem DequeueAllMatureUnbondingQueue_drains_mature (ctx : Context) (s : Store)
    (currTime : Time) :
    (∃ timeslices : List (Time × List DVPair),
      (timeslices.map Prod.fst).Sorted (· < ·)
      ∧ (∀ t pairs, (t, pairs) ∈ timeslices
          ↔ (t ≤ ctx.BlockTime ∧ s.unbondingQueue.get t = some pairs))
      ∧ (DequeueAllMatureUnbondingQueue ctx s currTime).1 = timeslices.flatMap Prod.snd)
      ∧ (∀ t, (DequeueAllMatureUnbondingQueue ctx s currTime).2.unbondingQueue.get t
          = if t ≤ ctx.BlockTime then none else s.unbondingQueue.get t)
      ∧ { (DequeueAllMatureUnbondingQueue ctx s currTime).2 with
            unbondingQueue := s.unbondingQueue } = s
      ∧ (∀ otherTime, DequeueAllMatureUnbondingQueue ctx s otherTime
          = DequeueAllMatureUnbondingQueue ctx s currTime)
      ∧ (∀ otherTime,
          DequeueAllMatureUnbondingQueue ctx (DequeueAllMatureUnbondingQueue ctx s currTime).2
            otherTime = ([], (DequeueAllMatureUnbondingQueue ctx s currTime).2))
      ∧ (∀ ubds : List UnbondingDelegation, s.unbondingQueue = [] →
          ∃ times : List Time,
            times.Sorted (· < ·)
            ∧ (∀ t, t ∈ times ↔ (t ≤ ctx.BlockTime ∧ ∃ u ∈ ubds, u.MinTime = t))
            ∧ (DequeueAllMatureUnbondingQueue ctx (ubds.foldl InsertUnbondingQueue s)
                currTime).1
              = times.flatMap fun t =>
                  (ubds.filter fun u => decide (u.MinTime = t)).map
                    fun u => ⟨u.DelegatorAddr, u.ValidatorAddr⟩) := by
  have hres : ∀ s0 : Store, DequeueAllMatureUnbondingQueue ctx s0 currTime
      = ((UnbondingQueueIterator s0 ctx.BlockTime).flatMap Prod.snd,
          { s0 with unbondingQueue :=
              (((UnbondingQueueIterator s0 ctx.BlockTime).map Prod.fst).foldl
                (fun q x => q.delete x) s0.unbondingQueue) }) := by
    intro s0
    unfold DequeueAllMatureUnbondingQueue
    rw [dequeue_foldl]
    simp
  obtain ⟨hsorted, hmem⟩ := UnbondingQueueIterator_spec s ctx.BlockTime
  have hget : ∀ t, (DequeueAllMatureUnbondingQueue ctx s currTime).2.unbondingQueue.get t
      = if t ≤ ctx.BlockTime then none else s.unbondingQueue.get t := by
    intro t
    rw [hres]
    dsimp only
    rw [KV.get_foldl_delete]
    by_cases ht : t ≤ ctx.BlockTime
    · rw [if_pos ht]
      by_cases hin : t ∈ (UnbondingQueueIterator s ctx.BlockTime).map Prod.fst
      · rw [if_pos hin]
      · rw [if_neg hin]
        cases hg : s.unbondingQueue.get t with
        | none => rfl
        | some v =>
          exact absurd (List.mem_map.2 ⟨(t, v), (hmem t v).2 ⟨ht, hg⟩, rfl⟩) hin
    · rw [if_neg ht]
      have hnin : ¬ t ∈ (UnbondingQueueIterator s ctx.BlockTime).map Prod.fst := by
        intro hin
        obtain ⟨⟨t1, v⟩, hx, hfst⟩ := List.mem_map.1 hin
        simp only at hfst
        subst hfst
        exact ht ((hmem t1 v).1 hx).1
      rw [if_neg hnin]
  refine ⟨⟨UnbondingQueueIterator s ctx.BlockTime, hsorted, hmem, ?_⟩, hget, ?_,
    fun _ => rfl, ?_, ?_⟩
  · rw [hres]
  · rw [hres]
  · intro otherTime
    have hnil : UnbondingQueueIterator (DequeueAllMatureUnbondingQueue ctx s currTime).2
        ctx.BlockTime = [] := by
      obtain ⟨-, hmem2⟩ := UnbondingQueueIterator_spec
        (DequeueAllMatureUnbondingQueue ctx s currTime).2 ctx.BlockTime
      rw [List.eq_nil_iff_forall_not_mem]
      rintro ⟨t, pairs⟩ hx
      obtain ⟨hle, hg⟩ := (hmem2 t pairs).1 hx
      rw [hget, if_pos hle] at hg
      simp at hg
    exact DequeueAllMatureUnbondingQueue_of_iterator_nil ctx _ otherTime hnil
  · intro ubds hempty
    have hq : ∀ t, (ubds.foldl InsertUnbondingQueue s).unbondingQueue.get t
        = if (ubds.filter fun u => decide (u.MinTime = t)).isEmpty then none
          else some ((ubds.filter fun u => decide (u.MinTime = t)).map
              fun u => ⟨u.DelegatorAddr, u.ValidatorAddr⟩) := by
      intro t
      rw [foldl_InsertUnbondingQueue_get, hempty]
      rfl
    obtain ⟨hsorted2, hmem2⟩ :=
      UnbondingQueueIterator_spec (ubds.foldl InsertUnbondingQueue s) ctx.BlockTime
    refine ⟨(UnbondingQueueIterator (ubds.foldl InsertUnbondingQueue s) ctx.BlockTime).map
      Prod.fst, hsorted2, ?_, ?_⟩
    · intro t
      rw [List.mem_map]
      constructor
      · rintro ⟨⟨t1, pairs⟩, hx, hfst⟩
        simp only at hfst
        subst hfst
        obtain ⟨hle, hg⟩ := (hmem2 t1 pairs).1 hx
        refine ⟨hle, ?_⟩
        rw [hq] at hg
        by_cases he : (ubds.filter fun u => decide (u.MinTime = t1)).isEmpty = true
        · rw [if_pos he] at hg
          simp at hg
        · cases hf : ubds.filter fun u => decide (u.MinTime = t1) with
          | nil => rw [hf] at he; simp at he
          | cons u us =>
            have hu : u ∈ ubds.filter fun u => decide (u.MinTime = t1) := by
              rw [hf]
              exact List.mem_cons_self _ _
            rw [List.mem_filter, decide_eq_true_eq] at hu
            exact ⟨u, hu.1, hu.2⟩
      · rintro ⟨hle, u, hu, hut⟩
        have hne : (ubds.filter fun u => decide (u.MinTime = t)).isEmpty = false := by
          cases hf : ubds.filter fun u => decide (u.MinTime = t) with
          | nil =>
            have : u ∈ ubds.filter fun u => decide (u.MinTime = t) := by
              rw [List.mem_filter, decide_eq_true_eq]
              exact ⟨hu, hut⟩
            rw [hf] at this
            simp at this
          | cons x xs => rfl
        refine ⟨(t, (ubds.filter fun u => decide (u.MinTime = t)).map
          fun u => ⟨u.DelegatorAddr, u.ValidatorAddr⟩), (hmem2 t _).2 ⟨hle, ?_⟩, rfl⟩
        rw [hq, hne]
        rfl
    · rw [hres]
      dsimp only
      apply flatMap_snd_eq
      rintro ⟨t, pairs⟩ hx
      obtain ⟨-, hg⟩ := (hmem2 t pairs).1 hx
      rw [hq] at hg
      by_cases he : (ubds.filter fun u => decide (u.MinTime = t)).isEmpty = true
      · rw [if_pos he] at hg
        simp at hg
      · rw [if_neg he] at hg
        simp only [Option.some.injEq] at hg
        exact hg.symm

/-- C21, witness: the queue with timeslices at the times 300, 100 and 500, at
block time 333: the timeslices of 100 and 300 are returned in this order, the
timeslice of 500 stays, and a second call returns nothing. -/
theorem DequeueAllMatureUnbondingQueue_drains_mature_witness :
    DequeueAllMatureUnbondingQueue Example.ctx Example.queuedStore 0
      = ([⟨9, 2⟩, ⟨7, 1⟩, ⟨8, 1⟩],
          { Example.store with unbondingQueue := [(500, [⟨7, 2⟩])] })
    ∧ DequeueAllMatureUnbondingQueue Example.ctx
        (DequeueAllMatureUnbondingQueue Example.ctx Example.queuedStore 0).2 1000
      = ([], (DequeueAllMatureUnbondingQueue Example.ctx Example.queuedStore 0).2)
    ∧ (DequeueAllMatureUnbondingQueue Example.ctx
        ([Example.pendingUbd, ⟨"a", 8, 1, 5, 300, ⟨1, 4⟩, ⟨1, 4⟩⟩,
          ⟨"b", 9, 2, 5, 100, ⟨1, 4⟩, ⟨1, 4⟩⟩, ⟨"c", 7, 1, 5, 300, ⟨1, 4⟩, ⟨1, 4⟩⟩].foldl
          InsertUnbondingQueue Example.store) 0).1
      = [⟨9, 2⟩, ⟨8, 1⟩, ⟨7, 1⟩] :=
  ⟨by decide,
    (DequeueAllMatureUnbondingQueue_drains_mature Example.ctx Example.queuedStore 0).2.2.2.2.1
      1000,
    by decide⟩

theorem redIndexesConsistent_SetRedelegation (s : Store) (red : Redelegation)
    (h : redIndexesConsistent s) : redIndexesConsistent (SetRedelegation s red) := by
  intro key
  unfold SetRedelegation
  dsimp only
  rw [KV.isSome_get_set, KV.isSome_get_set, KV.isSome_get_set, (h key).1, (h key).2]
  exact ⟨rfl, rfl⟩

theorem redIndexesConsistent_RemoveRedelegation (s : Store) (red : Redelegation)
    (h : redIndexesConsistent s) : redIndexesConsistent (RemoveRedelegation s red) := by
  intro key
  unfold RemoveRedelegation
  dsimp only
  rw [KV.isSome_get_delete, KV.isSome_get_delete, KV.isSome_get_delete, (h key).1, (h key).2]
  exact ⟨rfl, rfl⟩

theorem redIndexesConsistent_applyRedelegationOps (ops : List RedelegationOp) (s : Store)
    (h : redIndexesConsistent s) : redIndexesConsistent (applyRedelegationOps s ops) := by
  induction ops generalizing s with
  | nil => exact h
  | cons op ops ih =>
    unfold applyRedelegationOps
    rw [List.foldl_cons]
    apply ih
    cases op with
    | set red => exact redIndexesConsistent_SetRedelegation s red h
    | remove red => exact redIndexesConsistent_RemoveRedelegation s red h

theorem isSome_GetRedelegation (s : Store) (delAddr valSrcAddr valDstAddr : Address) :
    (GetRedelegation s delAddr valSrcAddr valDstAddr).isSome
      = (s.reds.get (delAddr, valSrcAddr, valDstAddr)).isSome := by
  unfold GetRedelegation
  cases s.reds.get (delAddr, valSrcAddr, valDstAddr) <;> rfl

theorem GetRedelegation_addrs {s : Store} {delAddr valSrcAddr valDstAddr : Address}
    {red : Redelegation} (h : GetRedelegation s delAddr valSrcAddr valDstAddr = some red) :
    red.DelegatorAddr = delAddr ∧ red.ValidatorSrcAddr = valSrcAddr
      ∧ red.ValidatorDstAddr = valDstAddr := by
  unfold GetRedelegation at h
  cases hg : s.reds.get (delAddr, valSrcAddr, valDstAddr) with
  | none => simp [hg] at h
  | some r0 =>
    simp [hg] at h
    subst h
    exact ⟨rfl, rfl, rfl⟩

/-- With consistent indexes the by-destination index answers
`HasReceivingRedelegation` as the primary records would. -/
theorem HasReceivingRedelegation_iff (s : Store) (h : redIndexesConsistent s)
    (delAddr valDstAddr : Address) :
    HasReceivingRedelegation s delAddr valDstAddr = true
      ↔ ∃ valSrcAddr red, GetRedelegation s delAddr valSrcAddr valDstAddr = some red := by
  unfold HasReceivingRedelegation
  rw [List.any_eq_true]
  constructor
  · rintro ⟨⟨⟨d, src, dst⟩, u⟩, hmem, hp⟩
    simp only [decide_eq_true_eq] at hp
    obtain ⟨hd, hdst⟩ := hp
    subst hd hdst
    have hk : (d, src, dst) ∈ s.redsByValDstIndex.map Prod.fst :=
      List.mem_map.2 ⟨_, hmem, rfl⟩
    rw [KV.mem_map_fst_iff, (h _).2, ← isSome_GetRedelegation] at hk
    obtain ⟨red, hred⟩ := Option.isSome_iff_exists.1 hk
    exact ⟨src, red, hred⟩
  · rintro ⟨src, red, hred⟩
    have hk : (s.redsByValDstIndex.get (delAddr, src, valDstAddr)).isSome = true := by
      rw [(h _).2, ← isSome_GetRedelegation, hred]
      rfl
    obtain ⟨u, hu⟩ := Option.isSome_iff_exists.1 hk
    exact ⟨((delAddr, src, valDstAddr), u), KV.mem_of_get hu, by simp⟩

/-- The loop over keys that all have a record returns the records of the keys,
in the order of the keys. -/
theorem redelegationsOfKeys_spec (s : Store) (keys : List (Address × Address × Address))
    (h : ∀ key ∈ keys, (s.reds.get key).isSome = true) :
    ∃ reds, redelegationsOfKeys s keys = some reds
      ∧ reds.map (fun r => (r.DelegatorAddr, r.ValidatorSrcAddr, r.ValidatorDstAddr)) = keys
      ∧ ∀ red ∈ reds, GetRedelegation s red.DelegatorAddr red.ValidatorSrcAddr
          red.ValidatorDstAddr = some red := by
  induction keys with
  | nil => exact ⟨[], rfl, rfl, fun _ hr => by simp at hr⟩
  | cons key keys ih =>
    obtain ⟨reds, hreds, hmap, hall⟩ := ih (fun k hk => h k (List.mem_cons_of_mem _ hk))
    have hk : (GetRedelegation s key.1 key.2.1 key.2.2).isSome = true := by
      rw [isSome_GetRedelegation]
      exact h key (List.mem_cons_self _ _)
    obtain ⟨red, hred⟩ := Option.isSome_iff_exists.1 hk
    obtain ⟨h1, h2, h3⟩ := GetRedelegation_addrs hred
    refine ⟨red :: reds, ?_, ?_, ?_⟩
    · unfold redelegationsOfKeys
      rw [hred, hreds]
    · rw [List.map_cons, hmap, h1, h2, h3]
    · intro r hr
      rcases List.mem_cons.1 hr with hr | hr
      · rw [hr, h1, h2, h3]
        exact hred
      · exact hall r hr

/-- C24: from every store whose redelegation indexes hold the keys of the
primary records, and so from a store without redelegations, every sequence of
`SetRedelegation` and `RemoveRedelegation` leads to a store in which the same
is true, `HasReceivingRedelegation` of a delegator and a destination is true
if and only if a redelegation of that delegator into that destination is
stored, and `GetRedelegationsFromValidator` returns, each once, exactly the
stored redelegations whose source is the validator. -/
theorem redelegation_indexes_stay_consistent (s0 : Store) (ops : List RedelegationOp)
    (h0 : redIndexesConsistent s0) :
    redIndexesConsistent (applyRedelegationOps s0 ops)
      ∧ (∀ delAddr valDstAddr,
          HasReceivingRedelegation (applyRedelegationOps s0 ops) delAddr valDstAddr = true
            ↔ ∃ valSrcAddr red,
              GetRedelegation (applyRedelegationOps s0 ops) delAddr valSrcAddr valDstAddr
                = some red)
      ∧ (∀ valSrcAddr, ∃ reds,
          GetRedelegationsFromValidator (applyRedelegationOps s0 ops) valSrcAddr = some reds
            ∧ reds.Nodup
            ∧ ∀ red, red ∈ reds
              ↔ (red.ValidatorSrcAddr = valSrcAddr
                ∧ GetRedelegation (applyRedelegationOps s0 ops) red.DelegatorAddr
                    red.ValidatorSrcAddr red.ValidatorDstAddr = some red)) := by
  have hc := redIndexesConsistent_applyRedelegationOps ops s0 h0
  refine ⟨hc, HasReceivingRedelegation_iff _ hc, ?_⟩
  intro valSrcAddr
  have hkeys : ∀ key, key ∈ ((applyRedelegationOps s0 ops).redsByValSrcIndex.keys.filter
        fun key => decide (key.2.1 = valSrcAddr)).insertionSort redKeyLE
      ↔ (((applyRedelegationOps s0 ops).reds.get key).isSome = true
        ∧ key.2.1 = valSrcAddr) := by
    intro key
    rw [List.mem_insertionSort, List.mem_filter, KV.mem_keys_iff, (hc key).1,
      decide_eq_true_eq]
  have hnodup : (((applyRedelegationOps s0 ops).redsByValSrcIndex.keys.filter
        fun key => decide (key.2.1 = valSrcAddr)).insertionSort redKeyLE).Nodup := by
    rw [(List.perm_insertionSort _ _).nodup_iff]
    exact (KV.nodup_keys _).filter _
  obtain ⟨reds, hreds, hmap, hall⟩ := redelegationsOfKeys_spec (applyRedelegationOps s0 ops) _
    (fun key hk => ((hkeys key).1 hk).1)
  refine ⟨reds, hreds, ?_, ?_⟩
  · apply List.Nodup.of_map
      (fun r : Redelegation => (r.DelegatorAddr, r.ValidatorSrcAddr, r.ValidatorDstAddr))
    rw [hmap]
    exact hnodup
  · intro red
    constructor
    · intro hr
      have hk : (red.DelegatorAddr, red.ValidatorSrcAddr, red.ValidatorDstAddr)
          ∈ ((applyRedelegationOps s0 ops).redsByValSrcIndex.keys.filter
            fun key => decide (key.2.1 = valSrcAddr)).insertionSort redKeyLE := by
        rw [← hmap]
        exact List.mem_map.2 ⟨red, hr, rfl⟩
      exact ⟨((hkeys _).1 hk).2, hall red hr⟩
    · rintro ⟨hsrc, hget⟩
      have hk : (red.DelegatorAddr, red.ValidatorSrcAddr, red.ValidatorDstAddr)
          ∈ ((applyRedelegationOps s0 ops).redsByValSrcIndex.keys.filter
            fun key => decide (key.2.1 = valSrcAddr)).insertionSort redKeyLE := by
        rw [hkeys]
        refine ⟨?_, hsrc⟩
        rw [← isSome_GetRedelegation, hget]
        rfl
      rw [← hmap] at hk
      obtain ⟨r, hr, hrk⟩ := List.mem_map.1 hk
      have hgr := hall r hr
      simp only [Prod.mk.injEq] at hrk
      rw [hrk.1, hrk.2.1, hrk.2.2, hget] at hgr
      simp only [Option.some.injEq] at hgr
      rw [hgr]
      exact hr

/-- C24, witness: the example store has no redelegations; after the
redelegations of delegator 7 from validator 1 to 2 and from 3 to 1 are set and
the first one is removed, validator 1 is a destination for delegator 7 and
validator 2 is not, and validator 3 is the source of the one redelegation
left. -/
theorem redelegation_indexes_stay_consistent_witness :
    redIndexesConsistent (applyRedelegationOps Example.store
        [.set (Example.red 1 2), .set (Example.red 3 1), .remove (Example.red 1 2)])
      ∧ HasReceivingRedelegation (applyRedelegationOps Example.store
        [.set (Example.red 1 2), .set (Example.red 3 1), .remove (Example.red 1 2)]) 7 1 = true
      ∧ HasReceivingRedelegation (applyRedelegationOps Example.store
        [.set (Example.red 1 2), .set (Example.red 3 1), .remove (Example.red 1 2)]) 7 2 = false
      ∧ GetRedelegationsFromValidator (applyRedelegationOps Example.store
        [.set (Example.red 1 2), .set (Example.red 3 1), .remove (Example.red 1 2)]) 3
          = some [Example.red 3 1]
      ∧ GetRedelegationsFromValidator (applyRedelegationOps Example.store
        [.set (Example.red 1 2), .set (Example.red 3 1), .remove (Example.red 1 2)]) 1
          = some [] :=
  ⟨(redelegation_indexes_stay_consistent Example.store
      [.set (Example.red 1 2), .set (Example.red 3 1), .remove (Example.red 1 2)]
      (fun _ => ⟨rfl, rfl⟩)).1,
    by decide, by decide, by decide, by decide⟩

end Keeper

/-! ## Theorems: slashing, infraction heights and the counter of missed blocks -/

namespace Slashing

theorem handleValidatorSignature_inputs {p : Params} {ctx : Context} {st st1 : State}
    {addr : Address} {power : Int} {signed : Bool}
    (h : handleValidatorSignature p ctx st addr power signed = some st1) :
    ∃ pubkey signInfo, getPubkey st addr = some pubkey
      ∧ getValidatorSigningInfo st addr = some signInfo ∧ p.SignedBlocksWindow ≠ 0 := by
  unfold handleValidatorSignature at h
  dsimp only at h
  split at h
  · simp at h
  · rename_i pubkey hpub
    split at h
    · simp at h
    · rename_i signInfo hinfo
      split at h
      · simp at h
      · rename_i hw
        exact ⟨pubkey, signInfo, hpub, hinfo, hw⟩

/-- The result of `handleValidatorSignature` on a validator with a public key
and a signing info: the update of the bit array and the counter alone, or the
downtime slash after it. -/
theorem handleValidatorSignature_result (p : Params) (ctx : Context) (st : State)
    (addr : Address) (power : Int) (signed : Bool) (pubkey : Nat)
    (signInfo : ValidatorSigningInfo)
    (hpubkey : getPubkey st addr = some pubkey)
    (hinfo : getValidatorSigningInfo st addr = some signInfo)
    (hwindow : p.SignedBlocksWindow ≠ 0) :
    ∃ st1, handleValidatorSignature p ctx st addr power signed = some st1
      ∧ (st1 = SetValidatorSigningInfo
            (updateMissedBlock st addr (Int.tmod signInfo.IndexOffset p.SignedBlocksWindow)
              { signInfo with IndexOffset := wrapInt64 (signInfo.IndexOffset + 1) } signed).1
            addr
            (updateMissedBlock st addr (Int.tmod signInfo.IndexOffset p.SignedBlocksWindow)
              { signInfo with IndexOffset := wrapInt64 (signInfo.IndexOffset + 1) } signed).2
        ∨ (ctx.BlockHeight > wrapInt64 (signInfo.StartHeight + p.SignedBlocksWindow)
          ∧ st1 = SetValidatorSigningInfo
            (clearValidatorMissedBlockBitArray
              (Jail
                (Slash
                  (updateMissedBlock st addr
                    (Int.tmod signInfo.IndexOffset p.SignedBlocksWindow)
                    { signInfo with IndexOffset := wrapInt64 (signInfo.IndexOffset + 1) }
                    signed).1
                  addr (wrapInt64 (wrapInt64 (ctx.BlockHeight - p.ValidatorUpdateDelay) - 1))
                  power p.SlashFractionDowntime)
                addr)
              addr)
            addr
            { StartHeight := signInfo.StartHeight
              IndexOffset := 0
              JailedUntil := ctx.BlockTime + p.DowntimeJailDuration
              MissedBlocksCounter := 0 })) := by
  obtain ⟨-, -, -, -, f5, -, -⟩ := updateMissedBlock_frame st addr
    (Int.tmod signInfo.IndexOffset p.SignedBlocksWindow)
    { signInfo with IndexOffset := wrapInt64 (signInfo.IndexOffset + 1) } signed
  unfold handleValidatorSignature
  dsimp only
  rw [hpubkey]
  dsimp only
  rw [hinfo]
  dsimp only
  rw [if_neg hwindow]
  split
  · rename_i hcond
    split
    · rename_i validator hval
      split
      · refine ⟨_, rfl, Or.inr ⟨?_, ?_⟩⟩
        · rw [f5] at hcond
          exact hcond.1
        · rw [f5]
      · exact ⟨_, rfl, Or.inl rfl⟩
    · exact ⟨_, rfl, Or.inl rfl⟩
  · exact ⟨_, rfl, Or.inl rfl⟩

theorem Jail_frame (st : State) (consAddr : Address) :
    (Jail st consAddr).slashCalls = st.slashCalls
      ∧ (Jail st consAddr).signingInfos = st.signingInfos
      ∧ (Jail st consAddr).missedBlocks = st.missedBlocks
      ∧ (Jail st consAddr).pubkeys = st.pubkeys := by
  unfold Jail
  split <;> exact ⟨rfl, rfl, rfl, rfl⟩

theorem Jail_of_get {st : State} {consAddr : Address} {validator : SetValidator}
    (h : st.validatorSet.get consAddr = some validator) :
    Jail st consAddr
      = { st with
          validatorSet := st.validatorSet.set consAddr { validator with Jailed := true }
          jailCalls := st.jailCalls ++ [consAddr] } := by
  unfold Jail
  rw [h]

/-- The result of `handleDoubleSign` on a validator that exists with a status
other than Unbonded, a public key and a signing info. -/
theorem handleDoubleSign_result (p : Params) (e : InfractionParams) (ctx : Context)
    (st : State) (periods : SlashingPeriods) (addr : Address) (infractionHeight power : Int)
    (validator : SetValidator) (pubkey : Nat) (signInfo : ValidatorSigningInfo)
    (hval : ValidatorByConsAddr st addr = some validator)
    (hstatus : validator.Status ≠ Unbonded)
    (hpubkey : getPubkey st addr = some pubkey)
    (hinfo : getValidatorSigningInfo st addr = some signInfo) :
    handleDoubleSign p e ctx st periods addr infractionHeight power
      = some
        (if wrapInt64 (ctx.BlockHeight - infractionHeight) > e.MaxEvidenceAge then (st, periods)
         else
          ({ st with
              slashCalls := st.slashCalls ++
                [⟨addr, wrapInt64 (infractionHeight - p.ValidatorUpdateDelay), power,
                  (capBySlashingPeriod periods addr e.SlashFractionDoubleSign
                    (wrapInt64 (infractionHeight - p.ValidatorUpdateDelay))).2⟩]
              validatorSet :=
                if validator.Jailed = false then
                  st.validatorSet.set addr { validator with Jailed := true }
                else st.validatorSet
              jailCalls :=
                if validator.Jailed = false then st.jailCalls ++ [addr] else st.jailCalls
              signingInfos := st.signingInfos.set addr
                { signInfo with JailedUntil := ctx.BlockTime + e.DoubleSignJailDuration } },
            (capBySlashingPeriod periods addr e.SlashFractionDoubleSign
              (wrapInt64 (infractionHeight - p.ValidatorUpdateDelay))).1)) := by
  have hinfo1 : st.signingInfos.get addr = some signInfo := hinfo
  have hval1 : st.validatorSet.get addr = some validator := hval
  unfold handleDoubleSign
  dsimp only
  rw [hval]
  dsimp only
  rw [if_neg hstatus, hpubkey]
  dsimp only
  by_cases hage : wrapInt64 (ctx.BlockHeight - infractionHeight) > e.MaxEvidenceAge
  · rw [if_pos hage, if_pos hage]
  · rw [if_neg hage, if_neg hage]
    cases hj : validator.Jailed with
    | false =>
      simp only [if_true, Jail, Slash, hval1, getValidatorSigningInfo, hinfo1,
        SetValidatorSigningInfo]
    | true =>
      simp only [Bool.true_eq_false, if_false, Slash, getValidatorSigningInfo, hinfo1,
        SetValidatorSigningInfo]

/-- The result of `handleProposerCensorship` on a validator that exists with a
status other than Unbonded, a public key, a signing info and a power that is an
`int64`. -/
theorem handleProposerCensorship_result (p : Params) (e : InfractionParams)
    (GetPower : SetValidator → Dec) (ctx : Context) (st : State) (addr : Address)
    (infractionHeight : Int) (validator : SetValidator) (pubkey : Nat)
    (signInfo : ValidatorSigningInfo)
    (hval : ValidatorByConsAddr st addr = some validator)
    (hstatus : validator.Status ≠ Unbonded)
    (hpubkey : getPubkey st addr = some pubkey)
    (hinfo : getValidatorSigningInfo st addr = some signInfo)
    (hpower : inInt64 (GetPower validator).RoundInt) :
    handleProposerCensorship p e GetPower ctx st addr infractionHeight
      = some
          { st with
            slashCalls := st.slashCalls ++
              [⟨addr, wrapInt64 (infractionHeight - p.ValidatorUpdateDelay),
                (GetPower validator).RoundInt, e.SlashFractionCensorship⟩]
            validatorSet :=
              if validator.Jailed = false then
                st.validatorSet.set addr { validator with Jailed := true }
              else st.validatorSet
            jailCalls :=
              if validator.Jailed = false then st.jailCalls ++ [addr] else st.jailCalls
            signingInfos := st.signingInfos.set addr
              { signInfo with JailedUntil := ctx.BlockTime + e.CensorshipJailDuration } } := by
  have hinfo1 : st.signingInfos.get addr = some signInfo := hinfo
  have hval1 : st.validatorSet.get addr = some validator := hval
  unfold handleProposerCensorship
  dsimp only
  rw [hpubkey]
  dsimp only
  rw [hval]
  dsimp only
  rw [if_neg hstatus, if_neg (not_not.2 hpower)]
  cases hj : validator.Jailed with
  | false =>
    simp only [if_true, Jail, Slash, hval1, getValidatorSigningInfo, hinfo1,
      SetValidatorSigningInfo]
  | true =>
    simp only [Bool.true_eq_false, if_false, Slash, getValidatorSigningInfo, hinfo1,
      SetValidatorSigningInfo]

theorem getBit_set (st : State) (addr : Address) (index : Int) (b : Bool) (a : Address)
    (i : Int) :
    getValidatorMissedBlockBitArray (setValidatorMissedBlockBitArray st addr index b) a i
      = if (a, i) = (addr, index) then b else getValidatorMissedBlockBitArray st a i := by
  unfold getValidatorMissedBlockBitArray setValidatorMissedBlockBitArray
  dsimp only
  by_cases h : (a, i) = (addr, index)
  · rw [if_pos h, h, KV.get_set_self]
    rfl
  · rw [if_neg h, KV.get_set_of_ne _ _ (fun hc => h hc.symm)]

/-- The update of the bit array and the counter: the bit at the index becomes
"missed", no other bit changes, and the counter follows the change of the
bit. -/
theorem updateMissedBlock_spec (st : State) (consAddr : Address) (index : Int)
    (signInfo : ValidatorSigningInfo) (signed : Bool) :
    getValidatorMissedBlockBitArray (updateMissedBlock st consAddr index signInfo signed).1
        consAddr index = !signed
      ∧ (∀ a i, (a, i) ≠ (consAddr, index) →
          getValidatorMissedBlockBitArray (updateMissedBlock st consAddr index signInfo signed).1
            a i = getValidatorMissedBlockBitArray st a i)
      ∧ (updateMissedBlock st consAddr index signInfo signed).2.MissedBlocksCounter
          = (if getValidatorMissedBlockBitArray st consAddr index = false ∧ signed = false then
              wrapInt64 (signInfo.MissedBlocksCounter + 1)
             else if getValidatorMissedBlockBitArray st consAddr index = true ∧ signed = true then
              wrapInt64 (signInfo.MissedBlocksCounter - 1)
             else signInfo.MissedBlocksCounter) := by
  refine ⟨?_, ?_, ?_⟩
  · cases hprev : getValidatorMissedBlockBitArray st consAddr index <;> cases signed <;>
      simp [updateMissedBlock, hprev, getBit_set]
  · intro a i h
    have h1 : ¬ (a = consAddr ∧ i = index) := by simpa using h
    cases hprev : getValidatorMissedBlockBitArray st consAddr index <;> cases signed <;>
      simp [updateMissedBlock, hprev, getBit_set, h1]
  · cases hprev : getValidatorMissedBlockBitArray st consAddr index <;> cases signed <;>
      simp [updateMissedBlock, hprev]

theorem countP_update (l : List Nat) (hl : l.Nodup) (f g : Nat → Bool) (j : Nat)
    (hg : ∀ i, i ≠ j → g i = f i) :
    l.countP g + (if j ∈ l ∧ f j = true then 1 else 0)
      = l.countP f + (if j ∈ l ∧ g j = true then 1 else 0) := by
  induction l with
  | nil => simp
  | cons x xs ih =>
    have hx : x ∉ xs := (List.nodup_cons.1 hl).1
    have ih1 := ih (List.nodup_cons.1 hl).2
    rw [List.countP_cons, List.countP_cons]
    by_cases hxj : x = j
    · subst hxj
      have h1 : (if x ∈ xs ∧ f x = true then 1 else 0) = 0 := by simp [hx]
      have h2 : (if x ∈ xs ∧ g x = true then 1 else 0) = 0 := by simp [hx]
      rw [h1, h2] at ih1
      simp only [List.mem_cons, true_or, true_and]
      omega
    · have hgx : g x = f x := hg x hxj
      have hjx : ¬ j = x := fun h => hxj h.symm
      simp only [List.mem_cons, hjx, false_or]
      rw [hgx]
      omega

theorem missedBlocksInWindow_le (st : State) (address : Address) (window : Int) :
    (missedBlocksInWindow st address window : Int) ≤ max window 0 := by
  unfold missedBlocksInWindow
  have h := List.length_filter_le
    (fun i : Nat => getValidatorMissedBlockBitArray st address (Int.ofNat i))
    (List.range window.toNat)
  rw [List.length_range] at h
  omega

theorem missedBlocksInWindow_congr (st st1 : State) (address : Address) (window : Int)
    (h : st1.missedBlocks = st.missedBlocks) :
    missedBlocksInWindow st1 address window = missedBlocksInWindow st address window := by
  unfold missedBlocksInWindow getValidatorMissedBlockBitArray
  rw [h]

theorem missedBlocksInWindow_clear (st : State) (address : Address) (window : Int) :
    missedBlocksInWindow (clearValidatorMissedBlockBitArray st address) address window = 0 := by
  unfold missedBlocksInWindow
  rw [List.length_eq_zero, List.filter_eq_nil_iff]
  intro i _
  unfold getValidatorMissedBlockBitArray clearValidatorMissedBlockBitArray
  dsimp only
  rw [get_filter_ne_none]
  simp

/-- The number of set bits in the window after the update of the bit at an
index of the window. -/
theorem missedBlocksInWindow_update (st : State) (consAddr : Address) (index window : Int)
    (signInfo : ValidatorSigningInfo) (signed : Bool) (h0 : 0 ≤ index) (h1 : index < window) :
    missedBlocksInWindow (updateMissedBlock st consAddr index signInfo signed).1 consAddr window
        + (if getValidatorMissedBlockBitArray st consAddr index = true then 1 else 0)
      = missedBlocksInWindow st consAddr window + (if signed = false then 1 else 0) := by
  obtain ⟨hbit, hother, -⟩ := updateMissedBlock_spec st consAddr index signInfo signed
  have hcast : Int.ofNat index.toNat = index := Int.toNat_of_nonneg h0
  have hmem : index.toNat ∈ List.range window.toNat := by
    rw [List.mem_range]
    omega
  have h := countP_update (List.range window.toNat) (List.nodup_range _)
    (fun i : Nat => getValidatorMissedBlockBitArray st consAddr (Int.ofNat i))
    (fun i : Nat => getValidatorMissedBlockBitArray
      (updateMissedBlock st consAddr index signInfo signed).1 consAddr (Int.ofNat i))
    index.toNat
    (by
      intro i hi
      apply hother
      intro hc
      apply hi
      have : Int.ofNat i = index := congrArg Prod.snd hc
      simp only [Int.ofNat_eq_coe] at this
      omega)
  simp only [hmem, true_and, hcast, hbit] at h
  unfold missedBlocksInWindow
  rw [← List.countP_eq_length_filter, ← List.countP_eq_length_filter, h]
  cases signed <;> simp

/-- C27: when the window is positive, IndexOffset is not negative and
MissedBlocksCounter is the number of set bits of the bit array over the
indices 0 .. SignedBlocksWindow − 1 before a call of
`handleValidatorSignature`, the call returns and the same holds after it, on
the path that slashes and on the path that does not; so the counter is between
0 and SignedBlocksWindow. -/
theorem handleValidatorSignature_counter_is_bit_count (p : Params) (ctx : Context)
    (st : State) (addr : Address) (power : Int) (signed : Bool) (pubkey : Nat)
    (signInfo : ValidatorSigningInfo)
    (hpubkey : getPubkey st addr = some pubkey)
    (hinfo : getValidatorSigningInfo st addr = some signInfo)
    (hwin : 0 < p.SignedBlocksWindow) (hwin64 : inInt64 p.SignedBlocksWindow)
    (hoff : 0 ≤ signInfo.IndexOffset)
    (hinv : signInfo.MissedBlocksCounter
      = (missedBlocksInWindow st addr p.SignedBlocksWindow : Int)) :
    ∃ st1 info1, handleValidatorSignature p ctx st addr power signed = some st1
      ∧ getValidatorSigningInfo st1 addr = some info1
      ∧ info1.MissedBlocksCounter = (missedBlocksInWindow st1 addr p.SignedBlocksWindow : Int)
      ∧ 0 ≤ info1.MissedBlocksCounter
      ∧ info1.MissedBlocksCounter ≤ p.SignedBlocksWindow := by
  obtain ⟨st1, h, hres⟩ :=
    handleValidatorSignature_result p ctx st addr power signed pubkey signInfo hpubkey hinfo
      (Int.ne_of_gt hwin)
  have hj0 : 0 ≤ Int.tmod signInfo.IndexOffset p.SignedBlocksWindow := Int.tmod_nonneg _ hoff
  have hj1 : Int.tmod signInfo.IndexOffset p.SignedBlocksWindow < p.SignedBlocksWindow :=
    Int.tmod_lt_of_pos _ hwin
  obtain ⟨-, -, hctr⟩ := updateMissedBlock_spec st addr
    (Int.tmod signInfo.IndexOffset p.SignedBlocksWindow)
    { signInfo with IndexOffset := wrapInt64 (signInfo.IndexOffset + 1) } signed
  have hcount := missedBlocksInWindow_update st addr
    (Int.tmod signInfo.IndexOffset p.SignedBlocksWindow) p.SignedBlocksWindow
    { signInfo with IndexOffset := wrapInt64 (signInfo.IndexOffset + 1) } signed hj0 hj1
  have hle := missedBlocksInWindow_le (updateMissedBlock st addr
    (Int.tmod signInfo.IndexOffset p.SignedBlocksWindow)
    { signInfo with IndexOffset := wrapInt64 (signInfo.IndexOffset + 1) } signed).1 addr
    p.SignedBlocksWindow
  have hle0 := missedBlocksInWindow_le st addr p.SignedBlocksWindow
  have hkey : (updateMissedBlock st addr (Int.tmod signInfo.IndexOffset p.SignedBlocksWindow)
        { signInfo with IndexOffset := wrapInt64 (signInfo.IndexOffset + 1) }
        signed).2.MissedBlocksCounter
      = (missedBlocksInWindow (updateMissedBlock st addr
          (Int.tmod signInfo.IndexOffset p.SignedBlocksWindow)
          { signInfo with IndexOffset := wrapInt64 (signInfo.IndexOffset + 1) } signed).1 addr
          p.SignedBlocksWindow : Int) := by
    rw [hctr]
    dsimp only
    unfold inInt64 at hwin64
    cases hprev : getValidatorMissedBlockBitArray st addr
      (Int.tmod signInfo.IndexOffset p.SignedBlocksWindow) <;> cases hs : signed
    · subst hs
      rw [hprev] at hcount
      simp only [Bool.false_eq_true, Bool.true_eq_false, if_false, if_true, and_self, and_false,
        false_and, and_true, true_and] at hcount ⊢
      rw [wrapInt64_of_inInt64 (by unfold inInt64; omega)]
      omega
    · subst hs
      rw [hprev] at hcount
      simp only [Bool.false_eq_true, Bool.true_eq_false, if_false, if_true, and_self, and_false,
        false_and, and_true, true_and] at hcount ⊢
      omega
    · subst hs
      rw [hprev] at hcount
      simp only [Bool.false_eq_true, Bool.true_eq_false, if_false, if_true, and_self, and_false,
        false_and, and_true, true_and] at hcount ⊢
      omega
    · subst hs
      rw [hprev] at hcount
      simp only [Bool.false_eq_true, Bool.true_eq_false, if_false, if_true, and_self, and_false,
        false_and, and_true, true_and] at hcount ⊢
      rw [wrapInt64_of_inInt64 (by unfold inInt64; omega)]
      omega
  rcases hres with hres | ⟨-, hres⟩
  · refine ⟨st1, (updateMissedBlock st addr
      (Int.tmod signInfo.IndexOffset p.SignedBlocksWindow)
      { signInfo with IndexOffset := wrapInt64 (signInfo.IndexOffset + 1) } signed).2,
      h, ?_, ?_, ?_, ?_⟩
    · rw [hres]
      simp only [getValidatorSigningInfo, SetValidatorSigningInfo, KV.get_set_self]
    · rw [hres, hkey]
      exact congrArg _ (missedBlocksInWindow_congr _ _ addr p.SignedBlocksWindow rfl).symm
    · rw [hkey]
      omega
    · rw [hkey]
      omega
  · refine ⟨st1, ⟨signInfo.StartHeight, 0, ctx.BlockTime + p.DowntimeJailDuration, 0⟩,
      h, ?_, ?_, ?_, ?_⟩
    · rw [hres]
      simp only [getValidatorSigningInfo, SetValidatorSigningInfo, KV.get_set_self]
    · have hzero : missedBlocksInWindow st1 addr p.SignedBlocksWindow = 0 := by
        rw [hres]
        exact (missedBlocksInWindow_congr _ _ addr p.SignedBlocksWindow rfl).trans
          (missedBlocksInWindow_clear _ addr p.SignedBlocksWindow)
      rw [hzero]
      rfl
    · exact Int.le_refl 0
    · exact Int.le_of_lt hwin

/-- C27, witness: after the first missed block the counter is 1 and
so is the number of set bits in the window of 2 blocks. -/
theorem handleValidatorSignature_counter_is_bit_count_witness :
    ∃ st1 info1,
      handleValidatorSignature Example.slashingParams ⟨1, 50, "tx"⟩ Example.slashingState 9 10
        false = some st1
      ∧ getValidatorSigningInfo st1 9 = some info1
      ∧ info1.MissedBlocksCounter = (missedBlocksInWindow st1 9 2 : Int)
      ∧ missedBlocksInWindow st1 9 2 = 1 := by
  obtain ⟨st1, info1, h1, h2, h3, -, -⟩ :=
    handleValidatorSignature_counter_is_bit_count Example.slashingParams ⟨1, 50, "tx"⟩
      Example.slashingState 9 10 false 0 ⟨0, 0, 0, 0⟩ (by decide) (by decide) (by decide)
      (by decide) (by decide) (by decide)
  refine ⟨st1, info1, h1, h2, h3, ?_⟩
  have hst : handleValidatorSignature Example.slashingParams ⟨1, 50, "tx"⟩
      Example.slashingState 9 10 false
      = some { Example.slashingState with
               signingInfos := [(9, ⟨0, 1, 0, 1⟩)]
               missedBlocks := [((9, 0), true)] } := by decide
  rw [hst] at h1
  simp only [Option.some.injEq] at h1
  subst h1
  decide

theorem signingInfos_of_Jail_Slash (st : State) (addr : Address) (h power : Int) (f : Dec)
    (jail : Bool) :
    getValidatorSigningInfo (if jail = false then Jail (Slash st addr h power f) addr
      else Slash st addr h power f) addr = getValidatorSigningInfo st addr := by
  unfold getValidatorSigningInfo
  split
  · rw [(Jail_frame _ _).2.1]
    rfl
  · rfl

theorem slashCalls_of_Jail_Slash (st : State) (addr : Address) (h power : Int) (f : Dec)
    (jail : Bool) :
    (if jail = false then Jail (Slash st addr h power f) addr
      else Slash st addr h power f).slashCalls = st.slashCalls ++ [⟨addr, h, power, f⟩] := by
  split
  · rw [(Jail_frame _ _).1]
    rfl
  · rfl

/-- C22: for every input, the infraction height of a call of the staking Slash
is the `int64` value of block height − ValidatorUpdateDelay − 1 when
`handleValidatorSignature` makes it, and of
infractionHeight − ValidatorUpdateDelay when `handleDoubleSign` or
`handleProposerCensorship` makes it: every call that returns leaves the calls
of Slash as they were or adds one call with that height; the `int64` value is
the difference itself, negative or not, whenever the difference is an
`int64`. -/
theorem Slash_infraction_height (p : Params) (e : InfractionParams)
    (GetPower : SetValidator → Dec) (ctx : Context) (st : State) (periods : SlashingPeriods)
    (addr : Address) (infractionHeight power : Int) (signed : Bool) :
    (∀ st1, handleValidatorSignature p ctx st addr power signed = some st1 →
      st1.slashCalls = st.slashCalls
      ∨ st1.slashCalls = st.slashCalls ++
          [⟨addr, wrapInt64 (wrapInt64 (ctx.BlockHeight - p.ValidatorUpdateDelay) - 1), power,
            p.SlashFractionDowntime⟩])
    ∧ (∀ r, handleDoubleSign p e ctx st periods addr infractionHeight power = some r →
      r.1.slashCalls = st.slashCalls
      ∨ ∃ fraction, r.1.slashCalls = st.slashCalls ++
          [⟨addr, wrapInt64 (infractionHeight - p.ValidatorUpdateDelay), power, fraction⟩])
    ∧ (∀ st1, handleProposerCensorship p e GetPower ctx st addr infractionHeight = some st1 →
      st1.slashCalls = st.slashCalls
      ∨ ∃ valPower, st1.slashCalls = st.slashCalls ++
          [⟨addr, wrapInt64 (infractionHeight - p.ValidatorUpdateDelay), valPower,
            e.SlashFractionCensorship⟩])
    ∧ (inInt64 (ctx.BlockHeight - p.ValidatorUpdateDelay) →
        inInt64 (ctx.BlockHeight - p.ValidatorUpdateDelay - 1) →
        wrapInt64 (wrapInt64 (ctx.BlockHeight - p.ValidatorUpdateDelay) - 1)
          = ctx.BlockHeight - p.ValidatorUpdateDelay - 1)
    ∧ (inInt64 (infractionHeight - p.ValidatorUpdateDelay) →
        wrapInt64 (infractionHeight - p.ValidatorUpdateDelay)
          = infractionHeight - p.ValidatorUpdateDelay) := by
  refine ⟨?_, ?_, ?_, ?_, ?_⟩
  · intro st1 h
    obtain ⟨pubkey, signInfo, hpubkey, hinfo, hwindow⟩ := handleValidatorSignature_inputs h
    obtain ⟨st2, h2, hres⟩ :=
      handleValidatorSignature_result p ctx st addr power signed pubkey signInfo hpubkey hinfo
        hwindow
    rw [h] at h2
    simp only [Option.some.injEq] at h2
    subst h2
    obtain ⟨-, f2, -, -, -, -, -⟩ := updateMissedBlock_frame st addr
      (Int.tmod signInfo.IndexOffset p.SignedBlocksWindow)
      { signInfo with IndexOffset := wrapInt64 (signInfo.IndexOffset + 1) } signed
    rcases hres with hres | ⟨-, hres⟩
    · left
      rw [hres]
      exact f2
    · right
      rw [hres]
      show (Jail _ addr).slashCalls = _
      rw [(Jail_frame _ _).1]
      show _ ++ _ = _
      rw [f2]
  · intro r h
    unfold handleDoubleSign at h
    dsimp only at h
    split at h
    · simp only [Option.some.injEq] at h
      subst h
      exact Or.inl rfl
    · split at h
      · simp only [Option.some.injEq] at h
        subst h
        exact Or.inl rfl
      · split at h
        · simp at h
        · split at h
          · simp only [Option.some.injEq] at h
            subst h
            exact Or.inl rfl
          · split at h
            · simp at h
            · simp only [Option.some.injEq] at h
              subst h
              right
              exact ⟨_, slashCalls_of_Jail_Slash st addr _ power _ _⟩
  · intro st1 h
    unfold handleProposerCensorship at h
    dsimp only at h
    split at h
    · simp at h
    · split at h
      · simp only [Option.some.injEq] at h
        subst h
        exact Or.inl rfl
      · split at h
        · simp only [Option.some.injEq] at h
          subst h
          exact Or.inl rfl
        · split at h
          · simp at h
          · split at h
            · simp at h
            · simp only [Option.some.injEq] at h
              subst h
              right
              exact ⟨_, slashCalls_of_Jail_Slash st addr _ _ _ _⟩
  · intro h1 h2
    rw [wrapInt64_of_inInt64 h1, wrapInt64_of_inInt64 h2]
  · intro h
    exact wrapInt64_of_inInt64 h

/-- C22, witness: a double sign of block 20 seen in block 20 is slashed at the
height 19, a double sign of block 0 seen in block 3 and a censorship of block 0
at the height -1, and the downtime of validator 9 in block 10 at the height
8. -/
theorem Slash_infraction_height_witness :
    ((handleDoubleSign Example.slashingParams Example.infractionParams Example.lateCtx
        Example.slashingState [] 9 20 10).map fun r => r.1.slashCalls)
      = some [⟨9, 19, 10, Dec.NewDecWithPrec 5 2⟩]
    ∧ ((handleDoubleSign Example.slashingParams Example.infractionParams ⟨3, 50, "tx"⟩
        Example.slashingState [] 9 0 10).map fun r => r.1.slashCalls)
      = some [⟨9, -1, 10, Dec.NewDecWithPrec 5 2⟩]
    ∧ ((handleProposerCensorship Example.slashingParams Example.infractionParams
        (fun _ => Dec.NewDecFromInt 10) Example.ctx Example.slashingState 9 0).map
          fun st1 => st1.slashCalls)
      = some [⟨9, -1, 10, Dec.NewDecWithPrec 2 2⟩]
    ∧ ((handleValidatorSignature Example.slashingParams Example.ctx
        Example.slashingState 9 10 false).map fun st1 => st1.slashCalls)
      = some [⟨9, 8, 10, Dec.NewDecWithPrec 1 2⟩]
    ∧ wrapInt64 (wrapInt64 (Example.ctx.BlockHeight
        - Example.slashingParams.ValidatorUpdateDelay) - 1) = 10 - 1 - 1 :=
  ⟨by decide, by decide, by decide, by decide,
    (Slash_infraction_height Example.slashingParams Example.infractionParams
      (fun _ => Dec.NewDecFromInt 10) Example.ctx Example.slashingState [] 9 0 10 false).2.2.2.1
      (by decide) (by decide)⟩

/-- C23: for a validator that exists with a status other than Unbonded (and
has its public key and its signing info), `handleDoubleSign` returns. When the
age of the evidence, block height − infractionHeight, is at most
MaxEvidenceAge, it calls Slash once; it calls Jail, once, only when the
validator is not jailed already, and makes no call of Jail and leaves the
validator set untouched when it is; the validator is jailed afterwards and
JailedUntil is block time + DoubleSignJailDuration. When the age exceeds
MaxEvidenceAge the state is unchanged: no call of Slash, no call of Jail, the
same signing info. So Slash is called if and only if the age is at most
MaxEvidenceAge, and Jail if and only if moreover the validator is not jailed. -/
theorem handleDoubleSign_punishes_iff_age_at_most_max (p : Params) (e : InfractionParams)
    (ctx : Context) (st : State) (periods : SlashingPeriods) (addr : Address)
    (infractionHeight power : Int) (validator : SetValidator) (pubkey : Nat)
    (signInfo : ValidatorSigningInfo)
    (hval : ValidatorByConsAddr st addr = some validator)
    (hstatus : validator.Status ≠ Unbonded)
    (hpubkey : getPubkey st addr = some pubkey)
    (hinfo : getValidatorSigningInfo st addr = some signInfo)
    (hage : inInt64 (ctx.BlockHeight - infractionHeight)) :
    ∃ st1 periods1,
      handleDoubleSign p e ctx st periods addr infractionHeight power = some (st1, periods1)
      ∧ (ctx.BlockHeight - infractionHeight ≤ e.MaxEvidenceAge →
          (∃ fraction, st1.slashCalls = st.slashCalls ++
            [⟨addr, wrapInt64 (infractionHeight - p.ValidatorUpdateDelay), power, fraction⟩])
          ∧ ValidatorByConsAddr st1 addr = some { validator with Jailed := true }
          ∧ (validator.Jailed = true → st1.validatorSet = st.validatorSet)
          ∧ getValidatorSigningInfo st1 addr
              = some { signInfo with JailedUntil := ctx.BlockTime + e.DoubleSignJailDuration }
          ∧ (validator.Jailed = false → st1.jailCalls = st.jailCalls ++ [addr])
          ∧ (validator.Jailed = true → st1.jailCalls = st.jailCalls))
      ∧ (e.MaxEvidenceAge < ctx.BlockHeight - infractionHeight →
          st1 = st ∧ periods1 = periods)
      ∧ (st1.slashCalls ≠ st.slashCalls
          ↔ ctx.BlockHeight - infractionHeight ≤ e.MaxEvidenceAge)
      ∧ (st1.jailCalls ≠ st.jailCalls
          ↔ (ctx.BlockHeight - infractionHeight ≤ e.MaxEvidenceAge
            ∧ validator.Jailed = false)) := by
  have hres := handleDoubleSign_result p e ctx st periods addr infractionHeight power validator
    pubkey signInfo hval hstatus hpubkey hinfo
  rw [wrapInt64_of_inInt64 hage] at hres
  by_cases hold : ctx.BlockHeight - infractionHeight > e.MaxEvidenceAge
  · rw [if_pos hold] at hres
    refine ⟨st, periods, hres, ?_, fun _ => ⟨rfl, rfl⟩, ?_, ?_⟩
    · intro h
      omega
    · constructor
      · intro h
        exact absurd rfl h
      · intro h
        omega
    · constructor
      · intro h
        exact absurd rfl h
      · intro h
        omega
  · rw [if_neg hold] at hres
    refine ⟨_, _, hres, ?_, ?_, ?_, ?_⟩
    · intro _
      refine ⟨⟨_, rfl⟩, ?_, ?_, ?_, ?_, ?_⟩
      · unfold ValidatorByConsAddr
        dsimp only
        by_cases hj : validator.Jailed = false
        · rw [if_pos hj, KV.get_set_self]
        · rw [if_neg hj]
          have hj1 : validator.Jailed = true := by simpa using hj
          rw [show st.validatorSet.get addr = some validator from hval]
          cases validator
          simp only at hj1
          subst hj1
          rfl
      · intro hj
        dsimp only
        rw [if_neg (by simp [hj])]
      · unfold getValidatorSigningInfo
        dsimp only
        rw [KV.get_set_self]
      · intro hj
        dsimp only
        rw [if_pos hj]
      · intro hj
        dsimp only
        rw [if_neg (by simp [hj])]
    · intro h
      omega
    · constructor
      · intro _
        omega
      · intro _
        dsimp only
        simp
    · dsimp only
      constructor
      · intro h
        refine ⟨by omega, ?_⟩
        cases hj : validator.Jailed with
        | false => rfl
        | true =>
          rw [hj] at h
          simp at h
      · rintro ⟨-, hj⟩
        rw [if_pos hj]
        simp

/-- C23, witness: in block 10 a double sign of block 6 is punished, Jail is
called once and the validator is jailed until time 1333. -/
theorem handleDoubleSign_punishes_iff_age_at_most_max_witness :
    ∃ st1 periods1,
      handleDoubleSign Example.slashingParams Example.infractionParams Example.ctx
        Example.slashingState [] 9 6 10 = some (st1, periods1)
      ∧ st1.slashCalls ≠ Example.slashingState.slashCalls
      ∧ st1.jailCalls = [9]
      ∧ ValidatorByConsAddr st1 9 = some ⟨1, Bonded, true⟩
      ∧ getValidatorSigningInfo st1 9 = some ⟨0, 0, 1333, 0⟩ := by
  obtain ⟨st1, periods1, h1, h2, -, h4, -⟩ :=
    handleDoubleSign_punishes_iff_age_at_most_max Example.slashingParams
      Example.infractionParams Example.ctx Example.slashingState [] 9 6 10 ⟨1, Bonded, false⟩ 0
      ⟨0, 0, 0, 0⟩ (by decide) (by decide) (by decide) (by decide) (by decide)
  obtain ⟨-, h5, -, h6, h7, -⟩ := h2 (by decide)
  exact ⟨st1, periods1, h1, h4.2 (by decide), h7 rfl, h5, h6⟩

/-- C23, example: in block 20 a double sign of block 6 is older than 5 blocks
and changes nothing. -/
theorem handleDoubleSign_ignores_old_evidence :
    handleDoubleSign Example.slashingParams Example.infractionParams Example.lateCtx
        Example.slashingState [] 9 6 10 = some (Example.slashingState, []) := by
  decide

/-- C23, example: in block 10 a double sign of block 6 by a validator that is
jailed already is slashed, and Jail is not called. -/
theorem handleDoubleSign_slashes_jailed_validator_without_jailing :
    (handleDoubleSign Example.slashingParams Example.infractionParams Example.ctx
        { Example.slashingState with validatorSet := [(9, ⟨1, Bonded, true⟩)] } [] 9 6 10).map
      (fun r => (r.1.slashCalls, r.1.jailCalls, r.1.validatorSet))
      = some ([⟨9, 5, 10, Dec.NewDecWithPrec 5 2⟩], [], [(9, ⟨1, Bonded, true⟩)]) := by
  decide

end Slashing

end Npcchub
